import Mathlib

/-!
# Verification of the `box` node-rewriting engine

A shallow embedding, in Lean 4, of the core of the `box` repository: the
intrusive vector-backed min-heap (`src/rust/bit/nodes/heap.rs` and the copy
embedded in `src/rust/libs/nodes/engine.rs`), the range-segmented binding
table in its two variants (`src/rust/bit/nodes/bind.rs` `Table` and
`src/rust/libs/nodes/engine.rs` `Engine`/`KeyTable`), the built-in operators
(`src/rust/libs/nodes/op.rs`), the expression compiler
(`src/rust/libs/nodes/expr.rs`), and the instruction runtime
(`src/rust/libs/nodes/code.rs`, `src/rust/libs/nodes/values.rs`).

Conventions used throughout the embedding:

* Rust `usize` values are modelled as `Nat`; `usize::MAX` appears explicitly
  as `USIZE_MAX` where the code manipulates it (sentinel values, `+infinity`
  span lengths).  None of the verified paths performs wrapping arithmetic.
* `Vec<T>` is modelled as `List T`; in-place mutation becomes explicit state
  passing.  `Vec::swap`, `Vec::insert`, `Vec::drain` become `lswap`,
  `List.insertIdx`, and `take`/`drop` combinations.
* `slice::partition_point` is modelled by `partitionPoint`, the number of
  leading elements satisfying the predicate.  This is the result the Rust
  documentation specifies for partitioned slices, which is how the source
  uses it.
* Arena/`Rc` pointers become indices into a `List` used as an arena, or
  inline immutable copies when the pointee is never mutated through the
  pointer (bindings are immutable once created).
* Interned strings (`Str`, `Sym`) are modelled as `String`; pointer identity
  is abstracted away, which is harmless for the properties treated here.
* Loops whose termination is not structural take an explicit fuel argument;
  fuel is always threaded so that any sufficiently large value gives the
  behaviour of the source loop.
-/

namespace BoxSpec

/-- `usize::MAX` on the 64-bit targets the repository builds for. -/
def USIZE_MAX : Nat := 2 ^ 64 - 1

/-- `NOT_QUEUED` sentinel from `bit/nodes/heap.rs` and `libs/nodes/engine.rs`. -/
def NOT_QUEUED : Nat := USIZE_MAX

/-- `slice::partition_point`: number of leading elements satisfying `p`
(the specified result on partitioned slices, the only way the source calls
it). -/
def partitionPoint {α : Type} (p : α → Bool) (l : List α) : Nat :=
  (l.takeWhile p).length

/-- `Vec::swap` with out-of-range reads defaulting (all verified call sites
are in range). -/
def lswap {α : Type} [Inhabited α] (q : List α) (i j : Nat) : List α :=
  (q.set i (q.getD j default)).set j (q.getD i default)

/-- Element read used by the heap code (`Vec` indexing). -/
def lget {α : Type} [Inhabited α] (q : List α) (i : Nat) : α :=
  q.getD i default

section ListLemmas

variable {α : Type} [Inhabited α]

theorem length_lswap (q : List α) (i j : Nat) :
    (lswap q i j).length = q.length := by
  simp [lswap]

theorem lget_eq_getElem (q : List α) {i : Nat} (h : i < q.length) :
    lget q i = q[i] := by
  simp [lget, List.getD_eq_getElem?_getD, List.getElem?_eq_getElem h]

theorem lget_lswap (q : List α) (i j k : Nat)
    (hi : i < q.length) (hj : j < q.length) :
    lget (lswap q i j) k =
      if k = j then lget q i else if k = i then lget q j else lget q k := by
  by_cases hkj : k = j
  · rw [if_pos hkj, hkj]
    simp [lswap, lget, List.getD_eq_getElem?_getD, List.getElem?_set, hj]
  · rw [if_neg hkj]
    by_cases hki : k = i
    · rw [if_pos hki, hki]
      have hij : i ≠ j := fun h => hkj (hki.trans h)
      simp [lswap, lget, List.getD_eq_getElem?_getD, List.getElem?_set, hi,
        Ne.symm hij]
    · rw [if_neg hki]
      simp [lswap, lget, List.getD_eq_getElem?_getD, List.getElem?_set,
        Ne.symm hkj, Ne.symm hki]

theorem mem_of_mem_lswap {q : List α} {i j : Nat} {x : α}
    (hi : i < q.length) (hj : j < q.length) (hx : x ∈ lswap q i j) : x ∈ q := by
  rcases List.mem_or_eq_of_mem_set hx with hx' | rfl
  · rcases List.mem_or_eq_of_mem_set hx' with hx'' | rfl
    · exact hx''
    · have h : q.getD j default = q[j] := by
        simpa [lget] using lget_eq_getElem q hj
      rw [h]
      exact List.getElem_mem hj
  · have h : q.getD i default = q[i] := by
      simpa [lget] using lget_eq_getElem q hi
    rw [h]
    exact List.getElem_mem hi

theorem mem_lswap_of_mem {q : List α} {i j : Nat} {x : α}
    (hi : i < q.length) (hj : j < q.length) (hx : x ∈ q) : x ∈ lswap q i j := by
  have hlen : (lswap q i j).length = q.length := length_lswap q i j
  rw [List.mem_iff_getElem] at hx ⊢
  obtain ⟨m, hm, hxm⟩ := hx
  by_cases hmj : m = j
  · subst hmj
    refine ⟨i, by omega, ?_⟩
    have h := lget_lswap q i m i hi hm
    by_cases him : i = m
    · subst him
      rw [if_pos rfl] at h
      calc (lswap q i i)[i] = lget (lswap q i i) i :=
            (lget_eq_getElem _ (by omega)).symm
        _ = lget q i := h
        _ = q[i] := lget_eq_getElem _ hm
        _ = x := hxm
    · rw [if_neg him, if_pos rfl] at h
      calc (lswap q i m)[i] = lget (lswap q i m) i :=
            (lget_eq_getElem _ (by omega)).symm
        _ = lget q m := h
        _ = q[m] := lget_eq_getElem _ hm
        _ = x := hxm
  · by_cases hmi : m = i
    · subst hmi
      refine ⟨j, by omega, ?_⟩
      have h := lget_lswap q m j j hm hj
      rw [if_pos rfl] at h
      calc (lswap q m j)[j] = lget (lswap q m j) j :=
            (lget_eq_getElem _ (by omega)).symm
        _ = lget q m := h
        _ = q[m] := lget_eq_getElem _ hm
        _ = x := hxm
    · refine ⟨m, by omega, ?_⟩
      have h := lget_lswap q i j m hi hj
      rw [if_neg hmj, if_neg hmi] at h
      calc (lswap q i j)[m] = lget (lswap q i j) m :=
            (lget_eq_getElem _ (by omega)).symm
        _ = lget q m := h
        _ = q[m] := lget_eq_getElem _ hm
        _ = x := hxm

theorem lget_set (l : List α) (k : Nat) (v : α) (i : Nat) :
    lget (l.set k v) i = if i = k ∧ k < l.length then v else lget l i := by
  by_cases h : i = k ∧ k < l.length
  · obtain ⟨rfl, hk⟩ := h
    simp [lget, List.getD_eq_getElem?_getD, List.getElem?_set, hk]
  · rw [if_neg h]
    rcases Decidable.em (i = k) with rfl | hik
    · have hnk : ¬ i < l.length := fun hc => h ⟨rfl, hc⟩
      simp [lget, List.getD_eq_getElem?_getD, List.getElem?_set, hnk,
        List.getElem?_eq_none (le_of_not_lt hnk)]
    · simp [lget, List.getD_eq_getElem?_getD, List.getElem?_set, Ne.symm hik]

end ListLemmas

/-! ## The intrusive binary min-heap

`bit/nodes/heap.rs` defines the trait `IsHeap` over `heap_len`, `heap_less`,
`heap_swap`; `libs/nodes/engine.rs` embeds a verbatim copy.  The functions
below are the generic algorithms `shift_up`, `shift_down` and `fix`, applied
to a queue `q : List α` with comparison `le` (the concrete implementations
are related to these by projection lemmas).  `shift_up` is fuelled by its
own start index (the index strictly decreases), `shift_down` by the captured
length (the index strictly increases and stays below `len`). -/

namespace Heap

/-- `(index - 1) / 2`, the parent index. -/
def par (i : Nat) : Nat := (i - 1) / 2

/-- `index * 2 + 1`, the left child. -/
def lhs (i : Nat) : Nat := 2 * i + 1

/-- `index * 2 + 2`, the right child. -/
def rhs (i : Nat) : Nat := 2 * i + 2

variable {α : Type} [Inhabited α] (le : α → α → Bool)

/-- `IsHeap::shift_up`, fuelled (the index strictly decreases, so fuel equal
to the start index is always enough). -/
def shiftUpGo : Nat → List α → Nat → List α × Nat
  | 0, q, i => (q, i)
  | fuel + 1, q, i =>
    if i = 0 then (q, i)
    else if le (lget q i) (lget q (par i)) then
      shiftUpGo fuel (lswap q i (par i)) (par i)
    else (q, i)

/-- `IsHeap::shift_up`, returning the final index like the source. -/
def shiftUp (q : List α) (i : Nat) : List α × Nat :=
  shiftUpGo le i q i

/-- The `idx_new`/`swap_with` computation inside `shift_down`: the child to
swap with, or `none` to stop. -/
def downNext (len : Nat) (q : List α) (i : Nat) : Option Nat :=
  if rhs i < len then
    if le (lget q (rhs i)) (lget q (lhs i)) then
      if le (lget q (rhs i)) (lget q i) then some (rhs i) else none
    else if le (lget q (lhs i)) (lget q i) then some (lhs i) else none
  else if le (lget q (lhs i)) (lget q i) then some (lhs i) else none

/-- `IsHeap::shift_down` body; `len` is captured once before the loop, as in
the source. -/
def shiftDownGo (len : Nat) : Nat → List α → Nat → List α × Nat
  | 0, q, i => (q, i)
  | fuel + 1, q, i =>
    if lhs i ≥ len then (q, i)
    else
      match downNext le len q i with
      | some j => shiftDownGo len fuel (lswap q i j) j
      | none => (q, i)

/-- `IsHeap::shift_down`. -/
def shiftDown (q : List α) (i : Nat) : List α × Nat :=
  shiftDownGo le q.length q.length q i

/-- `IsHeap::fix`: shift up, then shift down from the resulting index. -/
def fix (q : List α) (i : Nat) : List α × Nat :=
  if i ≠ NOT_QUEUED then
    let up := shiftUp le q i
    shiftDown le up.1 up.2
  else (q, i)

/-- The queue left behind by `shift`: swap the root with the last entry, pop
it, and sift the new root down. -/
def popCore (q : List α) : List α :=
  (shiftDown le (lswap q 0 (q.length - 1)).dropLast 0).1

/-- The element returned by `shift`: the old root. -/
def popTop (q : List α) : α := lget q 0

/-- The stream of roots obtained by `n` successive `shift`s. -/
def popStream (q : List α) : Nat → List α
  | 0 => []
  | n + 1 =>
    if q.length = 0 then [] else popTop q :: popStream (popCore le q) n

/-- The binary min-heap invariant: every non-root entry is `≥` its parent. -/
def heapProp (q : List α) : Prop :=
  ∀ j, 0 < j → j < q.length → le (lget q (par j)) (lget q j) = true

/-- State during `shift_up`/`fix` at index `k`: all parent/child pairs away
from `k` are ordered, and `k`'s children are already above `k`'s parent. -/
def PreUp (q : List α) (k : Nat) : Prop :=
  (∀ j, 0 < j → j < q.length → par j ≠ k → j ≠ k →
    le (lget q (par j)) (lget q j) = true) ∧
  (∀ j, 0 < j → j < q.length → par j = k → 0 < k →
    le (lget q (par k)) (lget q j) = true)

/-- State before `shift_down` at index `k`: all parent/child pairs whose
parent is not `k` are ordered, and `k`'s children are above `k`'s parent. -/
def PreDown (q : List α) (k : Nat) : Prop :=
  (∀ j, 0 < j → j < q.length → par j ≠ k →
    le (lget q (par j)) (lget q j) = true) ∧
  (∀ j, 0 < j → j < q.length → par j = k → 0 < k →
    le (lget q (par k)) (lget q j) = true)

theorem par_lt {i : Nat} (h : i ≠ 0) : par i < i := by
  unfold par; omega

theorem children_of_par {j k : Nat} (hj : 0 < j) (h : par j = k) :
    j = lhs k ∨ j = rhs k := by
  unfold par at h; unfold lhs rhs; omega

theorem par_lhs (k : Nat) : par (lhs k) = k := by unfold par lhs; omega

theorem par_rhs (k : Nat) : par (rhs k) = k := by unfold par rhs; omega

end Heap

namespace Heap

section Lemmas

variable {α : Type} [Inhabited α] {le : α → α → Bool}
variable (htr : ∀ a b c, le a b = true → le b c = true → le a c = true)
variable (hto : ∀ a b, le a b = true ∨ le b a = true)

theorem shiftUpGo_length (fuel : Nat) (q : List α) (i : Nat) :
    (shiftUpGo le fuel q i).1.length = q.length := by
  induction fuel generalizing q i with
  | zero => rfl
  | succ fuel ih =>
    unfold shiftUpGo
    split
    · rfl
    · split
      · rw [ih, length_lswap]
      · rfl

theorem shiftUpGo_mem (fuel : Nat) :
    ∀ (q : List α) (i : Nat), i < q.length →
      ∀ x : α, x ∈ (shiftUpGo le fuel q i).1 ↔ x ∈ q := by
  induction fuel with
  | zero => intro q i _ x; rfl
  | succ fuel ih =>
    intro q i hi x
    unfold shiftUpGo
    split
    · rfl
    · split
      · rename_i hne _
        have hp : par i < q.length := lt_of_le_of_lt (le_of_lt (par_lt hne)) hi
        rw [ih (lswap q i (par i)) (par i) (by rw [length_lswap]; omega)]
        constructor
        · exact fun h => mem_of_mem_lswap hi hp h
        · exact fun h => mem_lswap_of_mem hi hp h
      · rfl

theorem shiftDownGo_length (len fuel : Nat) (q : List α) (i : Nat) :
    (shiftDownGo le len fuel q i).1.length = q.length := by
  induction fuel generalizing q i with
  | zero => rfl
  | succ fuel ih =>
    unfold shiftDownGo
    split
    · rfl
    · split
      · rw [ih, length_lswap]
      · rfl

include hto in
theorem downNext_eq_some {len : Nat} {q : List α} {i j : Nat}
    (hl : lhs i < len) (h : downNext le len q i = some j) :
    (j = lhs i ∨ j = rhs i) ∧ j < len ∧ le (lget q j) (lget q i) = true ∧
      ∀ m, (m = lhs i ∨ m = rhs i) → m < len → m ≠ j →
        le (lget q j) (lget q m) = true := by
  unfold downNext at h
  split at h
  · rename_i hr
    split at h
    · rename_i hrl
      split at h
      · rename_i hri
        cases h
        refine ⟨Or.inr rfl, hr, hri, ?_⟩
        intro m hm hmlen hmne
        rcases hm with rfl | rfl
        · exact hrl
        · exact absurd rfl hmne
      · cases h
    · rename_i hrl
      split at h
      · rename_i hli
        cases h
        refine ⟨Or.inl rfl, hl, hli, ?_⟩
        intro m hm hmlen hmne
        rcases hm with rfl | rfl
        · exact absurd rfl hmne
        · rcases hto (lget q (lhs i)) (lget q (rhs i)) with h' | h'
          · exact h'
          · exact absurd h' (by simpa using hrl)
      · cases h
  · rename_i hr
    split at h
    · rename_i hli
      cases h
      refine ⟨Or.inl rfl, hl, hli, ?_⟩
      intro m hm hmlen hmne
      rcases hm with rfl | rfl
      · exact absurd rfl hmne
      · exact absurd hmlen (by simpa using hr)
    · cases h

include htr hto in
theorem downNext_eq_none {len : Nat} {q : List α} {i : Nat}
    (hl : lhs i < len) (h : downNext le len q i = none) :
    ∀ m, (m = lhs i ∨ m = rhs i) → m < len →
      le (lget q i) (lget q m) = true := by
  unfold downNext at h
  intro m hm hmlen
  split at h
  · rename_i hr
    split at h
    · rename_i hrl
      split at h
      · cases h
      · rename_i hri
        have hir : le (lget q i) (lget q (rhs i)) = true := by
          rcases hto (lget q (rhs i)) (lget q i) with h' | h'
          · exact absurd h' (by simpa using hri)
          · exact h'
        rcases hm with rfl | rfl
        · exact htr _ _ _ hir hrl
        · exact hir
    · rename_i hrl
      split at h
      · cases h
      · rename_i hli
        have hil : le (lget q i) (lget q (lhs i)) = true := by
          rcases hto (lget q (lhs i)) (lget q i) with h' | h'
          · exact absurd h' (by simpa using hli)
          · exact h'
        rcases hm with rfl | rfl
        · exact hil
        · have hlr : le (lget q (lhs i)) (lget q (rhs i)) = true := by
            rcases hto (lget q (lhs i)) (lget q (rhs i)) with h' | h'
            · exact h'
            · exact absurd h' (by simpa using hrl)
          exact htr _ _ _ hil hlr
  · rename_i hr
    split at h
    · cases h
    · rename_i hli
      have hil : le (lget q i) (lget q (lhs i)) = true := by
        rcases hto (lget q (lhs i)) (lget q i) with h' | h'
        · exact absurd h' (by simpa using hli)
        · exact h'
      rcases hm with rfl | rfl
      · exact hil
      · exact absurd hmlen (by simpa using hr)

include hto in
theorem shiftDownGo_mem (len fuel : Nat) :
    ∀ (q : List α) (i : Nat), len ≤ q.length →
      ∀ x : α, x ∈ (shiftDownGo le len fuel q i).1 ↔ x ∈ q := by
  induction fuel with
  | zero => intro q i _ x; rfl
  | succ fuel ih =>
    intro q i hlen x
    unfold shiftDownGo
    split
    · rfl
    · split
      · rename_i hguard j hj
        have hl : lhs i < len := by omega
        obtain ⟨hjc, hjlen, -, -⟩ := downNext_eq_some hto hl hj
        have hi : i < q.length := by
          have : i < lhs i := by unfold lhs; omega
          omega
        have hjq : j < q.length := by omega
        rw [ih (lswap q i j) j (by rw [length_lswap]; omega)]
        constructor
        · exact fun h => mem_of_mem_lswap hi hjq h
        · exact fun h => mem_lswap_of_mem hi hjq h
      · rfl

theorem lget_append (q : List α) (x : α) (m : Nat) (h : m < q.length) :
    lget (q ++ [x]) m = lget q m := by
  simp [lget, List.getD_eq_getElem?_getD, List.getElem?_append, h]

theorem lget_dropLast (q : List α) (m : Nat) (h : m < q.length - 1) :
    lget q.dropLast m = lget q m := by
  have h1 : q.dropLast = q.take (q.length - 1) := List.dropLast_eq_take q
  have h2 : m < q.length := by omega
  simp [lget, List.getD_eq_getElem?_getD, h1, List.getElem?_take, h,
    List.getElem?_eq_getElem h2]

include htr in
theorem preUp_step (q : List α) (i : Nat) (hi : i < q.length) (h0 : i ≠ 0)
    (hle : le (lget q i) (lget q (par i)) = true) (hpre : PreUp le q i) :
    PreUp le (lswap q i (par i)) (par i) := by
  have hplt : par i < i := par_lt h0
  have hpq : par i < q.length := by omega
  have hval := fun k => lget_lswap q i (par i) k hi hpq
  constructor
  · intro j hj hjlen hpj hjp
    rw [length_lswap] at hjlen
    by_cases hji : j = i
    · exact absurd (by rw [hji]) hpj
    · have hj' : lget (lswap q i (par i)) j = lget q j := by
        rw [hval j, if_neg hjp, if_neg hji]
      by_cases hpji : par j = i
      · have hp' : lget (lswap q i (par i)) (par j) = lget q (par i) := by
          rw [hval (par j), if_neg hpj, if_pos hpji]
        rw [hp', hj']
        exact hpre.2 j hj hjlen hpji (by omega)
      · have hp' : lget (lswap q i (par i)) (par j) = lget q (par j) := by
          rw [hval (par j), if_neg hpj, if_neg hpji]
        rw [hp', hj']
        exact hpre.1 j hj hjlen hpji hji
  · intro j hj hjlen hpj hk
    rw [length_lswap] at hjlen
    have hpplt : par (par i) < par i := par_lt (by omega)
    have hpp' : lget (lswap q i (par i)) (par (par i)) = lget q (par (par i)) := by
      rw [hval (par (par i)), if_neg (by omega), if_neg (by omega)]
    have hbase : le (lget q (par (par i))) (lget q (par i)) = true :=
      hpre.1 (par i) hk hpq (by omega) (by omega)
    by_cases hji : j = i
    · have hj' : lget (lswap q i (par i)) j = lget q (par i) := by
        rw [hval j, if_neg (by omega), if_pos hji]
      rw [hpp', hj']
      exact hbase
    · have hjgt : par i < j := by
        have := par_lt (show j ≠ 0 by omega)
        omega
      have hj' : lget (lswap q i (par i)) j = lget q j := by
        rw [hval j, if_neg (by omega), if_neg hji]
      rw [hpp', hj']
      exact htr _ _ _ hbase (hpj ▸ hpre.1 j hj hjlen (by rw [hpj]; omega) hji)

include htr in
theorem preUp_kids_step (q : List α) (i : Nat) (hi : i < q.length) (h0 : i ≠ 0)
    (hle : le (lget q i) (lget q (par i)) = true) (hpre : PreUp le q i)
    (hkids : ∀ m, 0 < m → m < q.length → par m = i →
      le (lget q i) (lget q m) = true) :
    ∀ m, 0 < m → m < (lswap q i (par i)).length → par m = par i →
      le (lget (lswap q i (par i)) (par i)) (lget (lswap q i (par i)) m)
        = true := by
  have hplt : par i < i := par_lt h0
  have hpq : par i < q.length := by omega
  have hval := fun k => lget_lswap q i (par i) k hi hpq
  have hp' : lget (lswap q i (par i)) (par i) = lget q i := by
    rw [hval (par i), if_pos rfl]
  intro m hm hmlen hpm
  rw [length_lswap] at hmlen
  by_cases hmi : m = i
  · have hm' : lget (lswap q i (par i)) m = lget q (par i) := by
      rw [hval m, if_neg (by omega), if_pos hmi]
    rw [hp', hm']
    exact hle
  · have hmgt : par i < m := by
      have := par_lt (show m ≠ 0 by omega)
      omega
    have hm' : lget (lswap q i (par i)) m = lget q m := by
      rw [hval m, if_neg (by omega), if_neg hmi]
    rw [hp', hm']
    exact htr _ _ _ hle (hpm ▸ hpre.1 m hm hmlen (by rw [hpm]; omega) hmi)

include htr hto in
theorem shiftUpGo_spec (fuel : Nat) :
    ∀ (q : List α) (i : Nat), i ≤ fuel → i < q.length → PreUp le q i →
      PreDown le (shiftUpGo le fuel q i).1 (shiftUpGo le fuel q i).2 := by
  induction fuel with
  | zero =>
    intro q i hfuel hi hpre
    have h0 : i = 0 := by omega
    subst h0
    show PreDown le q 0
    exact ⟨fun j hj hjlen hpj => hpre.1 j hj hjlen hpj (by omega),
      fun j hj hjlen hpj hk => absurd hk (lt_irrefl 0)⟩
  | succ fuel ih =>
    intro q i hfuel hi hpre
    unfold shiftUpGo
    split
    · rename_i h0
      subst h0
      show PreDown le q 0
      exact ⟨fun j hj hjlen hpj => hpre.1 j hj hjlen hpj (by omega),
        fun j hj hjlen hpj hk => absurd hk (lt_irrefl 0)⟩
    · rename_i h0
      split
      · rename_i hle
        exact ih (lswap q i (par i)) (par i)
          (by have := par_lt h0; omega)
          (by rw [length_lswap]; have := par_lt h0; omega)
          (preUp_step htr q i hi h0 hle hpre)
      · rename_i hle
        show PreDown le q i
        refine ⟨fun j hj hjlen hpj => ?_, hpre.2⟩
        by_cases hji : j = i
        · subst hji
          rcases hto (lget q (par j)) (lget q j) with h | h
          · exact h
          · exact absurd h (by simpa using hle)
        · exact hpre.1 j hj hjlen hpj hji

include htr hto in
theorem shiftUpGo_heap (fuel : Nat) :
    ∀ (q : List α) (i : Nat), i ≤ fuel → i < q.length → PreUp le q i →
      (∀ m, 0 < m → m < q.length → par m = i →
        le (lget q i) (lget q m) = true) →
      heapProp le (shiftUpGo le fuel q i).1 := by
  induction fuel with
  | zero =>
    intro q i hfuel hi hpre hkids
    have h0 : i = 0 := by omega
    subst h0
    show heapProp le q
    intro j hj hjlen
    by_cases hpj : par j = 0
    · exact hpj ▸ hkids j hj hjlen hpj
    · exact hpre.1 j hj hjlen hpj (by omega)
  | succ fuel ih =>
    intro q i hfuel hi hpre hkids
    unfold shiftUpGo
    split
    · rename_i h0
      subst h0
      show heapProp le q
      intro j hj hjlen
      by_cases hpj : par j = 0
      · exact hpj ▸ hkids j hj hjlen hpj
      · exact hpre.1 j hj hjlen hpj (by omega)
    · rename_i h0
      split
      · rename_i hle
        exact ih (lswap q i (par i)) (par i)
          (by have := par_lt h0; omega)
          (by rw [length_lswap]; have := par_lt h0; omega)
          (preUp_step htr q i hi h0 hle hpre)
          (preUp_kids_step htr q i hi h0 hle hpre hkids)
      · rename_i hle
        show heapProp le q
        intro j hj hjlen
        by_cases hji : j = i
        · subst hji
          rcases hto (lget q (par j)) (lget q j) with h | h
          · exact h
          · exact absurd h (by simpa using hle)
        · by_cases hpj : par j = i
          · exact hpj ▸ hkids j hj hjlen hpj
          · exact hpre.1 j hj hjlen hpj hji

include hto in
theorem preDown_step {len : Nat} (q : List α) (k j : Nat)
    (hlen : len = q.length) (hguard : lhs k < len)
    (hj : downNext le len q k = some j) (hpre : PreDown le q k) :
    PreDown le (lswap q k j) j := by
  obtain ⟨hjc, hjlen, hjk, hjmin⟩ := downNext_eq_some hto hguard hj
  have hkj : k < j := by
    rcases hjc with rfl | rfl
    · unfold lhs; omega
    · unfold rhs; omega
  have hkq : k < q.length := by
    have : k < lhs k := by unfold lhs; omega
    omega
  have hjq : j < q.length := by omega
  have hpjk : par j = k := by
    rcases hjc with rfl | rfl
    · exact par_lhs k
    · exact par_rhs k
  have hval := fun m => lget_lswap q k j m hkq hjq
  constructor
  · intro m hm hmlen hpm
    rw [length_lswap] at hmlen
    by_cases hmk : m = k
    · have hpmlt : par m < m := par_lt (by omega)
      have hp' : lget (lswap q k j) (par m) = lget q (par m) := by
        rw [hval (par m), if_neg (by omega), if_neg (by omega)]
      have hm' : lget (lswap q k j) m = lget q j := by
        rw [hval m, if_neg (by omega), if_pos hmk]
      rw [hp', hm', hmk]
      exact hpre.2 j (by omega) hjq hpjk (by omega)
    · by_cases hmj : m = j
      · have hp' : lget (lswap q k j) (par m) = lget q j := by
          rw [hval (par m), hmj, hpjk, if_neg (by omega), if_pos rfl]
        have hm' : lget (lswap q k j) m = lget q k := by
          rw [hval m, if_pos hmj]
        rw [hp', hm']
        exact hjk
      · have hm' : lget (lswap q k j) m = lget q m := by
          rw [hval m, if_neg hmj, if_neg hmk]
        by_cases hpmk : par m = k
        · have hp' : lget (lswap q k j) (par m) = lget q j := by
            rw [hval (par m), hpmk, if_neg (by omega), if_pos rfl]
          rw [hp', hm']
          exact hjmin m (children_of_par hm hpmk) (by omega) hmj
        · have hp' : lget (lswap q k j) (par m) = lget q (par m) := by
            rw [hval (par m), if_neg hpm, if_neg hpmk]
          rw [hp', hm']
          exact hpre.1 m hm hmlen hpmk
  · intro m hm hmlen hpm h0
    rw [length_lswap] at hmlen
    have hmgt : j < m := by
      have := par_lt (show m ≠ 0 by omega)
      omega
    have hp' : lget (lswap q k j) (par j) = lget q j := by
      rw [hval (par j), hpjk, if_neg (by omega), if_pos rfl]
    have hm' : lget (lswap q k j) m = lget q m := by
      rw [hval m, if_neg (by omega), if_neg (by omega)]
    rw [hp', hm']
    exact hpm ▸ hpre.1 m hm hmlen (by rw [hpm]; omega)

include htr hto in
theorem shiftDownGo_spec (fuel : Nat) :
    ∀ (len : Nat) (q : List α) (k : Nat), len = q.length → len ≤ fuel + k →
      PreDown le q k → heapProp le (shiftDownGo le len fuel q k).1 := by
  induction fuel with
  | zero =>
    intro len q k hlen hfuel hpre
    show heapProp le q
    intro j hj hjlen
    have hpj : par j ≠ k := by
      have := par_lt (show j ≠ 0 by omega)
      omega
    exact hpre.1 j hj hjlen hpj
  | succ fuel ih =>
    intro len q k hlen hfuel hpre
    unfold shiftDownGo
    split
    · rename_i hguard
      show heapProp le q
      intro j hj hjlen
      by_cases hpj : par j = k
      · rcases children_of_par hj hpj with rfl | rfl
        · exact absurd hjlen (by unfold lhs at *; omega)
        · exact absurd hjlen (by unfold lhs rhs at *; omega)
      · exact hpre.1 j hj hjlen hpj
    · rename_i hguard
      split
      · rename_i j hj
        obtain ⟨hjc, hjlen, -, -⟩ := downNext_eq_some hto (by omega) hj
        have hkj : k < j := by
          rcases hjc with rfl | rfl
          · unfold lhs; omega
          · unfold rhs; omega
        exact ih len (lswap q k j) j (by rw [length_lswap]; omega) (by omega)
          (preDown_step hto q k j hlen (by omega) hj hpre)
      · rename_i hnone
        show heapProp le q
        intro m hm hmlen
        by_cases hpm : par m = k
        · rw [hpm]
          exact downNext_eq_none htr hto (by omega) hnone m
            (children_of_par hm hpm) (by omega)
        · exact hpre.1 m hm hmlen hpm

include htr hto in
theorem heapProp_root_le (q : List α) (hq : heapProp le q) :
    ∀ j, j < q.length → le (lget q 0) (lget q j) = true := by
  intro j
  induction j using Nat.strong_induction_on with
  | _ j ih =>
    intro hjlen
    rcases Nat.eq_zero_or_pos j with rfl | hj
    · rcases hto (lget q 0) (lget q 0) with h | h <;> exact h
    · have hplt : par j < j := par_lt (by omega)
      exact htr _ _ _ (ih (par j) hplt (by omega)) (hq j hj hjlen)

include htr hto in
theorem popCore_heap (q : List α) (hq : heapProp le q) :
    heapProp le (popCore le q) := by
  unfold popCore shiftDown
  apply shiftDownGo_spec htr hto _ _ _ 0 rfl (by omega)
  set n := q.length with hn
  refine ⟨?_, fun m hm hmlen hpm h0 => absurd h0 (lt_irrefl 0)⟩
  intro m hm hmlen hpm
  rw [List.length_dropLast, length_lswap] at hmlen
  have hplt : par m < m := par_lt (by omega)
  have hml : m < (lswap q 0 (n - 1)).length - 1 := by
    rw [length_lswap]; omega
  have hpml : par m < (lswap q 0 (n - 1)).length - 1 := by
    rw [length_lswap]; omega
  rw [lget_dropLast _ _ hml, lget_dropLast _ _ hpml]
  have h0n : (0 : Nat) < n := by omega
  have hn1 : n - 1 < n := by omega
  rw [lget_lswap q 0 (n - 1) m h0n hn1, lget_lswap q 0 (n - 1) (par m) h0n hn1]
  rw [if_neg (by omega), if_neg (by omega), if_neg (by omega), if_neg (by omega)]
  exact hq m hm (by omega)

theorem popCore_length (q : List α) :
    (popCore le q).length = q.length - 1 := by
  unfold popCore shiftDown
  rw [shiftDownGo_length, List.length_dropLast, length_lswap]

include hto in
theorem popCore_subset (q : List α) (hne : 0 < q.length) (x : α)
    (hx : x ∈ popCore le q) : x ∈ q := by
  unfold popCore shiftDown at hx
  rw [shiftDownGo_mem hto _ _ _ _ (le_refl _)] at hx
  have hx' : x ∈ lswap q 0 (q.length - 1) := List.dropLast_subset _ hx
  exact mem_of_mem_lswap hne (by omega) hx'

theorem lget_mem (q : List α) (j : Nat) (h : j < q.length) : lget q j ∈ q := by
  rw [lget_eq_getElem q h]
  exact List.getElem_mem h

theorem heapProp_agree {le' : α → α → Bool} (q : List α)
    (hagree : ∀ m m', m < q.length → m' < q.length →
      le' (lget q m) (lget q m') = le (lget q m) (lget q m'))
    (hq : heapProp le q) : heapProp le' q := by
  intro j hj hjlen
  have hplt : par j < j := par_lt (by omega)
  rw [hagree (par j) j (by omega) hjlen]
  exact hq j hj hjlen

include htr in
theorem preUp_of_agree {le' : α → α → Bool} (q : List α) (p : Nat)
    (hq : heapProp le q)
    (hagree : ∀ m m', m < q.length → m' < q.length → m ≠ p → m' ≠ p →
      le' (lget q m) (lget q m') = le (lget q m) (lget q m')) :
    PreUp le' q p := by
  constructor
  · intro j hj hjlen hpj hjp
    have hplt : par j < j := par_lt (by omega)
    rw [hagree (par j) j (by omega) hjlen hpj hjp]
    exact hq j hj hjlen
  · intro j hj hjlen hpj h0
    have hpplt : par p < p := par_lt (by omega)
    have hjgt : p < j := by
      have := par_lt (show j ≠ 0 by omega)
      omega
    have hplen : p < q.length := by omega
    rw [hagree (par p) j (by omega) hjlen (by omega) (by omega)]
    exact htr _ _ _ (hq p h0 hplen) (hpj ▸ hq j hj hjlen)

include htr hto in
theorem fix_heap (q : List α) (p : Nat) (hp : p < q.length)
    (hpn : p ≠ NOT_QUEUED) (hpre : PreUp le q p) :
    heapProp le (fix le q p).1 := by
  unfold fix
  rw [if_pos hpn]
  have hup := shiftUpGo_spec htr hto p q p (le_refl p) hp hpre
  have hlen : (shiftUpGo le p q p).1.length = q.length := shiftUpGo_length p q p
  unfold shiftDown
  exact shiftDownGo_spec htr hto _ _ _ _ rfl (by omega) hup

theorem fix_length (q : List α) (p : Nat) :
    (fix le q p).1.length = q.length := by
  unfold fix shiftUp
  split
  · unfold shiftDown
    rw [shiftDownGo_length, shiftUpGo_length]
  · rfl

include hto in
theorem fix_mem (q : List α) (p : Nat) (hp : p < q.length) (x : α) :
    x ∈ (fix le q p).1 ↔ x ∈ q := by
  unfold fix shiftUp
  split
  · unfold shiftDown
    rw [shiftDownGo_mem hto _ _ _ _ (le_refl _),
      shiftUpGo_mem p q p hp x]
  · exact Iff.rfl

include htr hto in
theorem push_heap (q : List α) (x : α) (hq : heapProp le q) :
    heapProp le (shiftUp le (q ++ [x]) q.length).1 := by
  unfold shiftUp
  apply shiftUpGo_heap htr hto q.length (q ++ [x]) q.length (le_refl _)
    (by simp)
  · constructor
    · intro j hj hjlen hpj hjp
      simp only [List.length_append, List.length_singleton] at hjlen
      have hjq : j < q.length := by omega
      have hplt : par j < j := par_lt (by omega)
      rw [lget_append q x j hjq, lget_append q x (par j) (by omega)]
      exact hq j hj hjq
    · intro j hj hjlen hpj h0
      simp only [List.length_append, List.length_singleton] at hjlen
      have : lhs q.length ≤ j := by
        rcases children_of_par hj hpj with rfl | rfl
        · exact le_refl _
        · unfold lhs rhs; omega
      unfold lhs at this
      omega
  · intro m hm hmlen hpm
    simp only [List.length_append, List.length_singleton] at hmlen
    have : lhs q.length ≤ m := by
      rcases children_of_par hm hpm with rfl | rfl
      · exact le_refl _
      · unfold lhs rhs; omega
    unfold lhs at this
    omega

theorem push_length (q : List α) (x : α) (i : Nat) :
    (shiftUp le (q ++ [x]) i).1.length = q.length + 1 := by
  unfold shiftUp
  rw [shiftUpGo_length]
  simp

include hto in
theorem push_mem (q : List α) (x y : α) :
    y ∈ (shiftUp le (q ++ [x]) q.length).1 ↔ y ∈ q ∨ y = x := by
  unfold shiftUp
  rw [shiftUpGo_mem q.length (q ++ [x]) q.length (by simp) y]
  simp


include hto in
theorem popStream_subset (n : Nat) :
    ∀ (q : List α) (x : α), x ∈ popStream le q n → x ∈ q := by
  induction n with
  | zero => intro q x hx; cases hx
  | succ n ih =>
    intro q x hx
    unfold popStream at hx
    split at hx
    · cases hx
    · rename_i hne
      rcases List.mem_cons.mp hx with rfl | hx'

      · exact lget_mem q 0 (by omega)
      · exact popCore_subset hto q (by omega) x (ih _ x hx')

include htr hto in
theorem popStream_sorted (n : Nat) :
    ∀ (q : List α), heapProp le q →
      (popStream le q n).Pairwise (fun a b => le a b = true) := by
  induction n with
  | zero => intro q _; exact List.Pairwise.nil
  | succ n ih =>
    intro q hq
    unfold popStream
    split
    · exact List.Pairwise.nil
    · rename_i hne
      refine List.Pairwise.cons ?_ (ih _ (popCore_heap htr hto q hq))
      intro b hb
      have hbq : b ∈ q :=
        popCore_subset hto q (by omega) b (popStream_subset hto n _ b hb)
      obtain ⟨m, hm, rfl⟩ := List.mem_iff_getElem.mp hbq
      rw [← lget_eq_getElem q hm]
      exact heapProp_root_le htr hto q hq m hm

end Lemmas

end Heap

/-! ## The `bit` crate binding table (`src/rust/bit/nodes/`)

`mod.rs` defines `Key` and `Order`; `bind.rs` defines `Range`, `Binding`,
`SegmentHeap`, `SegmentData`, `RangeTable` and `Table` with the operations
`push`, `peek`, `shift`, `bind`.  Interned strings (`Sym<'a>`, `&'a str`)
are modelled as `String`.  The `HashMap<Key, RangeTable>` becomes a total
function with the `or_insert_with(Default::default)` default. -/

namespace Bit

/-- `Key` from `bit/nodes/mod.rs` (derived `Ord`: variant order, then
payload). -/
inductive Key where
  | none
  | sym (s : String)
  | str (s : String)
  | char (c : Char)
deriving DecidableEq, Inhabited

/-- `Order` from `bit/nodes/mod.rs`.  The derived `Ord` compares the variant
discriminant first: `Never` is declared first, so it compares *before* every
`Pos`. -/
inductive Order where
  | never
  | pos (i : Int)
deriving DecidableEq, Inhabited

/-- `Range` from `bit/nodes/bind.rs` (derived `Ord`: `sta`, then `end`). -/
structure Range where
  sta : Nat
  «end» : Nat
deriving DecidableEq, Inhabited

/-- `Range::contains` (`bind.rs` lines 11-15): note it is *non-strict* — a
range contains itself whenever it is non-empty. -/
def Range.contains (self other : Range) : Bool :=
  other.sta ≥ self.sta && other.sta < self.«end» && other.«end» ≤ self.«end»

/-- Injection realizing the derived `Ord` of `Order` (discriminant, then
payload) as a lexicographic pair. -/
def Order.toKey : Order → Bool ×ₗ Int
  | .never => toLex (false, 0)
  | .pos i => toLex (true, i)

theorem Order.orderToKey_injective : Function.Injective Order.toKey := by
  intro a b h
  cases a <;> cases b <;> simp [Order.toKey, toLex] at h ⊢ <;> exact h

instance : LinearOrder Order := LinearOrder.lift' Order.toKey Order.orderToKey_injective

/-- Injection realizing the derived `Ord` of `Key` (discriminant, then
payload) as a lexicographic triple. -/
def Key.toKey : Key → Nat ×ₗ (List Char ×ₗ Char)
  | .none => toLex (0, toLex ([], 'a'))
  | .sym s => toLex (1, toLex (s.data, 'a'))
  | .str s => toLex (2, toLex (s.data, 'a'))
  | .char c => toLex (3, toLex ([], c))

theorem Key.keyToKey_injective : Function.Injective Key.toKey := by
  intro a b h
  cases a <;> cases b <;> simp [Key.toKey, toLex] at h ⊢ <;>
    first
      | exact h
      | exact String.ext h

instance : LinearOrder Key := LinearOrder.lift' Key.toKey Key.keyToKey_injective

/-- Injection realizing the derived `Ord` of `Range` (`sta`, then `end`). -/
def Range.toKey (r : Range) : Nat ×ₗ Nat := toLex (r.sta, r.«end»)

theorem Range.rangeToKey_injective : Function.Injective Range.toKey := by
  intro a b h
  cases a; cases b
  simpa [Range.toKey, toLex, Range.mk.injEq] using h

instance : LinearOrder Range := LinearOrder.lift' Range.toKey Range.rangeToKey_injective

/-- A `bit` node, as the binding table sees it: its `Key`, its span start
(`Node::pos`, the offset used for ordering and segment assignment), and an
`id` standing in for the node's arena address/payload. -/
structure Node where
  key : Key
  pos : Nat
  id : Nat
deriving DecidableEq, Inhabited

/-- `Binding` from `bind.rs`.  Bindings are immutable once created; the
`&'a Binding` arena pointer is modelled by an inline copy. -/
structure Binding (U : Type) where
  key : Key
  val : U
  ord : Order
  range : Range

/-- `SegmentData` from `bind.rs`. -/
structure SegmentData (U : Type) where
  binding : Binding U
  range : Range
  nodes : List Node

/-- `SegmentHeap` from `bind.rs`: the priority queue (indices into the
`segments` arena) plus the `segment_pos` back-pointers. -/
structure SegmentHeap (U : Type) where
  queue : List Nat
  segments : List (SegmentData U)
  segment_pos : List Nat

/-- `RangeTable` from `bind.rs`: per-key unbound nodes and the sorted list
of segment indices. -/
structure RangeTable where
  unbound : List Node
  segments : List Nat
deriving Inhabited

/-- `Table` from `bind.rs` (the `store` field only allocates; it needs no
model). -/
structure Table (U : Type) where
  heap : SegmentHeap U
  table : Key → RangeTable

instance [Inhabited U] : Inhabited (Binding U) :=
  ⟨{ key := default, val := default, ord := default, range := default }⟩

instance [Inhabited U] : Inhabited (SegmentData U) :=
  ⟨{ binding := default, range := default, nodes := [] }⟩

/-- The `(binding.ord, binding.key, segment.range)` ordering key used by
`heap_less` (`bind.rs` lines 92-102: an `Ordering::then_with` chain, i.e.
the lexicographic order on the triple). -/
def segKey {U : Type} (s : SegmentData U) : Order ×ₗ (Key ×ₗ Range) :=
  toLex (s.binding.ord, toLex (s.binding.key, s.range))

/-- `heap_less` on two queue slots, reading through the `segments` arena
(the queue stores segment indices). -/
def bitLe {U : Type} [Inhabited U] (segs : List (SegmentData U)) :
    Nat → Nat → Bool :=
  fun i j => decide (segKey (lget segs i) ≤ segKey (lget segs j))

theorem bitLe_trans {U : Type} [Inhabited U] (segs : List (SegmentData U)) :
    ∀ a b c, bitLe segs a b = true → bitLe segs b c = true →
      bitLe segs a c = true := by
  intro a b c hab hbc
  simp only [bitLe, decide_eq_true_eq] at *
  exact le_trans hab hbc

theorem bitLe_total {U : Type} [Inhabited U] (segs : List (SegmentData U)) :
    ∀ a b, bitLe segs a b = true ∨ bitLe segs b a = true := by
  intro a b
  simp only [bitLe, decide_eq_true_eq]
  exact le_total _ _

/-- `heap_swap` (`bind.rs` lines 104-111): swap the queue entries, then swap
the two segments' `segment_pos` back-pointers. -/
def SegmentHeap.hswap {U : Type} [Inhabited U] (h : SegmentHeap U)
    (a b : Nat) : SegmentHeap U :=
  let queue := lswap h.queue a b
  let pa := lget queue a
  let pb := lget queue b
  { h with queue := queue, segment_pos := lswap h.segment_pos pa pb }

/-- `shift_up` on the full heap state (trait default over `heap_swap`). -/
def SegmentHeap.shiftUpGo {U : Type} [Inhabited U] :
    Nat → SegmentHeap U → Nat → SegmentHeap U × Nat
  | 0, h, i => (h, i)
  | fuel + 1, h, i =>
    if i = 0 then (h, i)
    else if bitLe h.segments (lget h.queue i) (lget h.queue (Heap.par i)) then
      SegmentHeap.shiftUpGo fuel (h.hswap i (Heap.par i)) (Heap.par i)
    else (h, i)

def SegmentHeap.shiftUp {U : Type} [Inhabited U] (h : SegmentHeap U)
    (i : Nat) : SegmentHeap U × Nat :=
  SegmentHeap.shiftUpGo i h i

/-- `shift_down` on the full heap state. -/
def SegmentHeap.shiftDownGo {U : Type} [Inhabited U] (len : Nat) :
    Nat → SegmentHeap U → Nat → SegmentHeap U × Nat
  | 0, h, i => (h, i)
  | fuel + 1, h, i =>
    if Heap.lhs i ≥ len then (h, i)
    else
      match Heap.downNext (bitLe h.segments) len h.queue i with
      | some j => SegmentHeap.shiftDownGo len fuel (h.hswap i j) j
      | none => (h, i)

def SegmentHeap.shiftDown {U : Type} [Inhabited U] (h : SegmentHeap U)
    (i : Nat) : SegmentHeap U × Nat :=
  SegmentHeap.shiftDownGo h.queue.length h.queue.length h i

/-- `fix` on the full heap state. -/
def SegmentHeap.fix {U : Type} [Inhabited U] (h : SegmentHeap U) (i : Nat) :
    SegmentHeap U × Nat :=
  if i ≠ NOT_QUEUED then
    let up := h.shiftUp i
    up.1.shiftDown up.2
  else (h, i)

/-- `Table::insert_node` (`bind.rs` lines 409-412): insertion sorted by
offset, ties after existing entries. -/
def insert_node (nodes : List Node) (node : Node) (offset : Nat) :
    List Node :=
  let index := partitionPoint (fun x => x.pos ≤ offset) nodes
  nodes.insertIdx index node

/-- `create_segment` (`bind.rs` lines 254-268): append the segment to the
arena, enqueue it (queued even when its node list is empty), and sift up. -/
def createSegment {U : Type} [Inhabited U] (h : SegmentHeap U)
    (seg : SegmentData U) : SegmentHeap U × Nat :=
  let queue_pos := h.queue.length
  let seg_index := h.segments.length
  let h1 : SegmentHeap U :=
    { queue := h.queue ++ [seg_index],
      segments := h.segments ++ [seg],
      segment_pos := h.segment_pos ++ [queue_pos] }
  ((SegmentHeap.shiftUpGo queue_pos h1 queue_pos).1, seg_index)

/-- `Table::push` (`bind.rs` lines 174-205). -/
def Table.push {U : Type} [Inhabited U] (t : Table U) (node : Node) :
    Table U :=
  if node.key = Key.none then t
  else
    let entry := t.table node.key
    let offset := node.pos
    let insert_at := partitionPoint
      (fun idx => (lget t.heap.segments idx).range.«end» ≤ offset)
      entry.segments
    match entry.segments[insert_at]? with
    | some seg_index =>
      let segment := lget t.heap.segments seg_index
      if offset ≥ segment.range.sta then
        let segments' := t.heap.segments.set seg_index
          { segment with nodes := insert_node segment.nodes node offset }
        if lget t.heap.segment_pos seg_index = NOT_QUEUED then
          let queue_pos := t.heap.queue.length
          let h' : SegmentHeap U :=
            { queue := t.heap.queue ++ [seg_index],
              segments := segments',
              segment_pos := t.heap.segment_pos.set seg_index queue_pos }
          { t with heap := (SegmentHeap.shiftUpGo queue_pos h' queue_pos).1 }
        else
          { t with heap := { t.heap with segments := segments' } }
      else
        let entry' :=
          { entry with unbound := insert_node entry.unbound node offset }
        { t with table := Function.update t.table node.key entry' }
    | none =>
      let entry' :=
        { entry with unbound := insert_node entry.unbound node offset }
      { t with table := Function.update t.table node.key entry' }

/-- `Table::peek` (`bind.rs` lines 207-210). -/
def Table.peek {U : Type} [Inhabited U] (t : Table U) :
    Option (SegmentData U) :=
  t.heap.queue.head?.map (fun i => lget t.heap.segments i)

/-- `Table::shift` (`bind.rs` lines 212-236), split into its successive
steps: swap root and last (`shiftH1`), pop the old root index (`shiftNext`)
and mark it `NOT_QUEUED` (`shiftH2`), sift the new root down (`shiftH3`),
then hand out the segment with its node vector taken (the stored segment is
left with an empty node list). -/
def shiftH1 {U : Type} [Inhabited U] (t : Table U) : SegmentHeap U :=
  t.heap.hswap 0 (t.heap.queue.length - 1)

def shiftNext {U : Type} [Inhabited U] (t : Table U) : Nat :=
  lget (shiftH1 t).queue (t.heap.queue.length - 1)

def shiftH2 {U : Type} [Inhabited U] (t : Table U) : SegmentHeap U :=
  { shiftH1 t with
    queue := (shiftH1 t).queue.dropLast
    segment_pos := (shiftH1 t).segment_pos.set (shiftNext t) NOT_QUEUED }

def shiftH3 {U : Type} [Inhabited U] (t : Table U) : SegmentHeap U :=
  ((shiftH2 t).shiftDown 0).1

/-- The segment data handed out by `shift` (the old root's segment). -/
def shiftSeg {U : Type} [Inhabited U] (t : Table U) : SegmentData U :=
  lget (shiftH3 t).segments (shiftNext t)

/-- The stored copy left behind: the same segment with its nodes taken. -/
def shiftTaken {U : Type} [Inhabited U] (t : Table U) : SegmentData U :=
  { shiftSeg t with nodes := [] }

/-- The table state after a successful `shift`. -/
def shiftRest {U : Type} [Inhabited U] (t : Table U) : Table U :=
  { t with heap :=
    { shiftH3 t with
      segments := (shiftH3 t).segments.set (shiftNext t) (shiftTaken t) } }

def Table.shift {U : Type} [Inhabited U] (t : Table U) :
    Option (SegmentData U × Table U) :=
  if t.heap.queue.length > 0 then some (shiftSeg t, shiftRest t) else none

/-- `Vec` indexing where the source can genuinely go out of bounds (a Rust
panic becomes an error value). -/
def vecGet {β : Type} (l : List β) (i : Nat) : Except String β :=
  match l[i]? with
  | some v => Except.ok v
  | none => Except.error "index out of bounds"

/-- The `while offset >= heap.segments[segments[seg_index]].end()` advance
in `bind`'s unbound drain; fuelled, erroring where the source would panic
(running past the per-key segment list). -/
def drainFindGo {U : Type} [Inhabited U] (hsegs : List (SegmentData U))
    (segments : List Nat) (offset : Nat) :
    Nat → Nat → Except String Nat
  | 0, _ => Except.error "index out of bounds"
  | fuel + 1, seg_index => do
    let gidx ← vecGet segments seg_index
    if offset ≥ (lget hsegs gidx).range.«end» then
      drainFindGo hsegs segments offset fuel (seg_index + 1)
    else
      Except.ok seg_index

/-- The unbound-drain loop of `bind` (`bind.rs` lines 384-402): each drained
node is inserted into the first segment (searching forward) whose `end`
exceeds its offset. -/
def drainNodes {U : Type} [Inhabited U] (segments : List Nat) :
    List Node → SegmentHeap U → Nat → Except String (SegmentHeap U)
  | [], heap, _ => Except.ok heap
  | node :: rest, heap, seg_index => do
    let si ← drainFindGo heap.segments segments node.pos
      (segments.length + 1) seg_index
    let gidx := lget segments si
    let seg := lget heap.segments gidx
    let seg' := { seg with nodes := insert_node seg.nodes node node.pos }
    let heap' := { heap with segments := heap.segments.set gidx seg' }
    drainNodes segments rest heap' si


/-- One pass of the `while cur_idx < segments.len() && sta < end` loop of
`Table::bind` (`bind.rs` lines 287-366), fuelled (each iteration may insert
into `segments`, and the loop's progress depends on segment data read
through the arena, so no structural measure exists).  The embedding keeps
the source's indexing exactly, including the places where `cur_idx` (a
position in the per-key list) is used directly as an index into the global
`heap.segments`/`heap.segment_pos` arenas, and the place where the suffix
split reads `segments[cur_idx]` after `cur_idx += 1` but before the insert
(a panic when `cur` is the last per-key segment). -/
def bindLoop {U : Type} [Inhabited U] (binding : Binding U) (end_ : Nat) :
    Nat → SegmentHeap U → List Nat → Nat → Nat →
    Except String (SegmentHeap U × List Nat)
  | 0, _, _, _, _ => Except.error "bind loop: out of fuel"
  | fuel + 1, heap, segments, cur_idx, sta =>
    if cur_idx < segments.length ∧ sta < end_ then
      let cur_sta := (lget heap.segments cur_idx).range.sta
      let cur_end := (lget heap.segments cur_idx).range.«end»
      if cur_sta > sta then
        let seg_end := min end_ cur_sta
        let created := createSegment heap
          { binding := binding, range := { sta := sta, «end» := seg_end },
            nodes := [] }
        bindLoop binding end_ fuel created.1
          (segments.insertIdx cur_idx created.2) (cur_idx + 1) seg_end
      else
        let step : Except String (SegmentHeap U × List Nat × Nat) := do
          let more := Range.contains
            (lget heap.segments (lget segments cur_idx)).binding.range
            binding.range
          if more then
            let before ←
              if sta > cur_sta then do
                let cseg := lget segments cur_idx
                let seg := lget heap.segments cseg
                let split_at := partitionPoint (fun node => node.pos < sta)
                  seg.nodes
                let items_before := seg.nodes.take split_at
                let seg1 :=
                  { seg with
                    nodes := seg.nodes.drop split_at
                    range := { sta := sta, «end» := cur_end } }
                let heap1 := { heap with segments := heap.segments.set cseg seg1 }
                let pos ← vecGet heap1.segment_pos cseg
                let heap2 := (heap1.fix pos).1
                let created := createSegment heap2
                  { binding := (lget heap2.segments cseg).binding,
                    range := { sta := cur_sta, «end» := sta },
                    nodes := items_before }
                Except.ok (created.1, segments.insertIdx cur_idx created.2,
                  cur_idx + 1)
              else
                Except.ok (heap, segments, cur_idx)
            let heap := before.1
            let segments := before.2.1
            let cur_idx := before.2.2
            if end_ < cur_end then do
              let cseg := lget segments cur_idx
              let seg := lget heap.segments cseg
              let split_at := partitionPoint (fun node => node.pos < end_)
                seg.nodes
              let items_after := seg.nodes.drop split_at
              let seg1 := { seg with nodes := seg.nodes.take split_at }
              let heap1 := { heap with segments := heap.segments.set cseg seg1 }
              let cur_idx := cur_idx + 1
              let bsrc ← vecGet segments cur_idx
              let created := createSegment heap1
                { binding := (lget heap1.segments bsrc).binding,
                  range := { sta := end_, «end» := cur_end },
                  nodes := items_after }
              let heap2 := created.1
              let segments := segments.insertIdx cur_idx created.2
              let tgt := lget segments cur_idx
              let seg2 := lget heap2.segments tgt
              let seg3 :=
                { seg2 with
                  range := { sta := sta, «end» := end_ }
                  binding := binding }
              let heap3 := { heap2 with segments := heap2.segments.set tgt seg3 }
              let pos ← vecGet heap3.segment_pos cur_idx
              Except.ok ((heap3.fix pos).1, segments, cur_idx)
            else do
              let tgt := lget segments cur_idx
              let seg2 := lget heap.segments tgt
              let seg3 := { seg2 with binding := binding }
              let heap1 := { heap with segments := heap.segments.set tgt seg3 }
              let pos ← vecGet heap1.segment_pos cur_idx
              Except.ok ((heap1.fix pos).1, segments, cur_idx)
          else
            Except.ok (heap, segments, cur_idx)
        match step with
        | Except.error e => Except.error e
        | Except.ok (heap', segments', cur_idx') =>
          bindLoop binding end_ fuel heap' segments' (cur_idx' + 1) cur_end
    else
      -- loop exit; the source then appends the trailing `[sta, end)` piece
      -- (`bind.rs` lines 368-382) using the loop's final `sta` and `cur_idx`
      if sta < end_ then
        let created := createSegment heap
          { binding := binding, range := { sta := sta, «end» := end_ },
            nodes := [] }
        Except.ok (created.1, segments.insertIdx cur_idx created.2)
      else
        Except.ok (heap, segments)

/-- `Table::bind` (`bind.rs` lines 238-403).  `fuel` bounds the iterations
of the segmentation loop; every theorem below holds for every fuel value. -/
def Table.bind {U : Type} [Inhabited U] (fuel : Nat) (t : Table U)
    (range : Range) (key : Key) (val : U) (ord : Order) :
    Except String (Table U) :=
  if key = Key.none ∨ ord = Order.never ∨ range.sta = range.«end» then
    Except.ok t
  else do
    let binding : Binding U :=
      { range := range, key := key, val := val, ord := ord }
    let entry := t.table key
    let sta := range.sta
    let end_ := range.«end»
    let insert_pos := partitionPoint
      (fun index => (lget t.heap.segments index).range.«end» ≤ sta)
      entry.segments
    let seg ←
      if insert_pos ≥ entry.segments.length then
        let created := createSegment t.heap
          { binding := binding, range := range, nodes := [] }
        Except.ok (created.1, entry.segments ++ [created.2])
      else
        bindLoop binding end_ fuel t.heap entry.segments insert_pos sta
    let heap := seg.1
    let segments := seg.2
    let node_sta := partitionPoint (fun x => x.pos < sta) entry.unbound
    let node_end := partitionPoint (fun x => x.pos < end_)
      (entry.unbound.drop node_sta) + node_sta
    let drained := (entry.unbound.drop node_sta).take (node_end - node_sta)
    let remaining := entry.unbound.take node_sta ++ entry.unbound.drop node_end
    let heap' ← drainNodes segments drained heap insert_pos
    let entry' : RangeTable := { unbound := remaining, segments := segments }
    Except.ok { heap := heap', table := Function.update t.table key entry' }

/-! ### Projection of the full-state heap operations onto the queue -/

section Proj

variable {U : Type} [Inhabited U]

theorem hswap_segments (h : SegmentHeap U) (a b : Nat) :
    (h.hswap a b).segments = h.segments := rfl

theorem hswap_queue (h : SegmentHeap U) (a b : Nat) :
    (h.hswap a b).queue = lswap h.queue a b := rfl

theorem shiftUpGo_proj (fuel : Nat) :
    ∀ (h : SegmentHeap U) (i : Nat),
      (SegmentHeap.shiftUpGo fuel h i).1.queue =
        (Heap.shiftUpGo (bitLe h.segments) fuel h.queue i).1 ∧
      (SegmentHeap.shiftUpGo fuel h i).1.segments = h.segments := by
  induction fuel with
  | zero => intro h i; exact ⟨rfl, rfl⟩
  | succ fuel ih =>
    intro h i
    unfold SegmentHeap.shiftUpGo Heap.shiftUpGo
    split
    · exact ⟨rfl, rfl⟩
    · split
      · rename_i h0 hle
        obtain ⟨hq, hs⟩ := ih (h.hswap i (Heap.par i)) (Heap.par i)
        rw [hswap_segments] at hs
        refine ⟨?_, hs⟩
        rw [hq, hswap_segments, hswap_queue]
      · exact ⟨rfl, rfl⟩

theorem shiftDownGo_proj (len fuel : Nat) :
    ∀ (h : SegmentHeap U) (i : Nat),
      (SegmentHeap.shiftDownGo len fuel h i).1.queue =
        (Heap.shiftDownGo (bitLe h.segments) len fuel h.queue i).1 ∧
      (SegmentHeap.shiftDownGo len fuel h i).1.segments = h.segments := by
  induction fuel with
  | zero => intro h i; exact ⟨rfl, rfl⟩
  | succ fuel ih =>
    intro h i
    unfold SegmentHeap.shiftDownGo Heap.shiftDownGo
    split
    · exact ⟨rfl, rfl⟩
    · split
      · rename_i hguard j hj
        obtain ⟨hq, hs⟩ := ih (h.hswap i j) j
        rw [hswap_segments] at hs
        refine ⟨?_, hs⟩
        rw [hq, hswap_segments, hswap_queue]
      · exact ⟨rfl, rfl⟩

theorem segKey_set_nodes (s : SegmentData U) (l : List Node) :
    segKey { s with nodes := l } = segKey s := rfl

theorem bitLe_set_nodes (segs : List (SegmentData U)) (k : Nat)
    (l : List Node) (i j : Nat) :
    bitLe (segs.set k { lget segs k with nodes := l }) i j =
      bitLe segs i j := by
  unfold bitLe
  rw [lget_set, lget_set]
  by_cases hik : i = k ∧ k < segs.length
  · rw [if_pos hik]
    by_cases hjk : j = k ∧ k < segs.length
    · rw [if_pos hjk, hik.1, hjk.1]
      rfl
    · rw [if_neg hjk, hik.1]
      rfl
  · rw [if_neg hik]
    by_cases hjk : j = k ∧ k < segs.length
    · rw [if_pos hjk, hjk.1]
      rfl
    · rw [if_neg hjk]

end Proj

/-! ### The `shift` stream (claim C4 support) -/

section ShiftStream

variable {U : Type} [Inhabited U]

/-- The segments returned by `n` successive `shift` calls. -/
def Table.shiftList (t : Table U) : Nat → List (SegmentData U)
  | 0 => []
  | n + 1 =>
    match t.shift with
    | some (seg, t') => seg :: Table.shiftList t' n
    | none => []

theorem shift_none (t : Table U) (h : t.heap.queue.length = 0) :
    t.shift = none := by
  unfold Table.shift
  rw [if_neg (by omega)]

theorem shiftH2_segments (t : Table U) :
    (shiftH2 t).segments = t.heap.segments := rfl

theorem shiftH2_queue (t : Table U) :
    (shiftH2 t).queue = (lswap t.heap.queue 0 (t.heap.queue.length - 1)).dropLast := rfl

theorem shiftH3_segments (t : Table U) :
    (shiftH3 t).segments = t.heap.segments := by
  unfold shiftH3 SegmentHeap.shiftDown
  rw [(shiftDownGo_proj _ _ (shiftH2 t) 0).2, shiftH2_segments]

theorem shiftH3_queue (t : Table U) :
    (shiftH3 t).queue = Heap.popCore (bitLe t.heap.segments) t.heap.queue := by
  unfold shiftH3 SegmentHeap.shiftDown
  rw [(shiftDownGo_proj _ _ (shiftH2 t) 0).1, shiftH2_segments]
  rfl

theorem shiftNext_eq (t : Table U) (h : 0 < t.heap.queue.length) :
    shiftNext t = lget t.heap.queue 0 := by
  unfold shiftNext shiftH1
  rw [hswap_queue]
  have := lget_lswap t.heap.queue 0 (t.heap.queue.length - 1)
    (t.heap.queue.length - 1) (by omega) (by omega)
  rw [if_pos rfl] at this
  exact this

theorem shift_eq (t : Table U) (h : 0 < t.heap.queue.length) :
    t.shift = some (shiftSeg t, shiftRest t) := by
  unfold Table.shift
  rw [if_pos (by omega)]

theorem shiftSeg_eq (t : Table U) (h : 0 < t.heap.queue.length) :
    shiftSeg t = lget t.heap.segments (lget t.heap.queue 0) := by
  unfold shiftSeg
  rw [shiftH3_segments, shiftNext_eq t h]

theorem shiftRest_queue (t : Table U) :
    (shiftRest t).heap.queue = Heap.popCore (bitLe t.heap.segments)
      t.heap.queue := by
  unfold shiftRest
  exact shiftH3_queue t

theorem shiftRest_segments (t : Table U) (h : 0 < t.heap.queue.length) :
    (shiftRest t).heap.segments = t.heap.segments.set (lget t.heap.queue 0)
      { lget t.heap.segments (lget t.heap.queue 0) with nodes := [] } := by
  unfold shiftRest shiftTaken
  simp only
  rw [shiftH3_segments, shiftSeg_eq t h, shiftNext_eq t h]

theorem bitLe_shiftRest (t : Table U) (h : 0 < t.heap.queue.length)
    (i j : Nat) :
    bitLe (shiftRest t).heap.segments i j = bitLe t.heap.segments i j := by
  rw [shiftRest_segments t h]
  exact bitLe_set_nodes t.heap.segments (lget t.heap.queue 0) [] i j


theorem segKey_shiftRest (t : Table U) (h : 0 < t.heap.queue.length)
    (i : Nat) :
    segKey (lget (shiftRest t).heap.segments i) =
      segKey (lget t.heap.segments i) := by
  rw [shiftRest_segments t h, lget_set]
  by_cases hik : i = lget t.heap.queue 0 ∧
      lget t.heap.queue 0 < t.heap.segments.length
  · rw [if_pos hik, hik.1]
    rfl
  · rw [if_neg hik]

theorem shiftRest_segments_length (t : Table U) :
    (shiftRest t).heap.segments.length = t.heap.segments.length := by
  unfold shiftRest
  simp only [List.length_set]
  rw [shiftH3_segments]

theorem shiftList_key_mem (n : Nat) :
    ∀ (t : Table U), ∀ s ∈ t.shiftList n,
      ∃ i, i ∈ t.heap.queue ∧ segKey s = segKey (lget t.heap.segments i) := by
  induction n with
  | zero => intro t s hs; cases hs
  | succ n ih =>
    intro t s hs
    unfold Table.shiftList at hs
    rcases Nat.eq_zero_or_pos t.heap.queue.length with hql | hql
    · rw [shift_none t hql] at hs
      cases hs
    · rw [shift_eq t hql] at hs
      simp only at hs
      rcases List.mem_cons.mp hs with rfl | hs'
      · exact ⟨lget t.heap.queue 0, Heap.lget_mem _ 0 (by omega),
          by rw [shiftSeg_eq t hql]⟩
      · obtain ⟨i, hi, hkey⟩ := ih (shiftRest t) s hs'
        rw [shiftRest_queue] at hi
        refine ⟨i, Heap.popCore_subset (bitLe_total t.heap.segments) _ hql i hi, ?_⟩
        rw [hkey, segKey_shiftRest t hql i]

/-- C4: for every sequence of successive `shift` calls on a binding table
whose queue is a valid binary min-heap over `(binding.ord, binding.key,
segment.range)`, the dequeued segments come out in non-decreasing order of
that tuple. -/
theorem c4_shift_sorted (t : Table U) (n : Nat)
    (hval : ∀ i ∈ t.heap.queue, i < t.heap.segments.length)
    (hheap : Heap.heapProp (bitLe t.heap.segments) t.heap.queue) :
    (t.shiftList n).Pairwise (fun a b => segKey a ≤ segKey b) := by
  induction n generalizing t with
  | zero => exact List.Pairwise.nil
  | succ n ih =>
    unfold Table.shiftList
    rcases Nat.eq_zero_or_pos t.heap.queue.length with hql | hql
    · rw [shift_none t hql]
      exact List.Pairwise.nil
    · rw [shift_eq t hql]
      simp only
      have hfun : bitLe (shiftRest t).heap.segments = bitLe t.heap.segments :=
        funext fun i => funext fun j => bitLe_shiftRest t hql i j
      refine List.Pairwise.cons ?_ (ih (shiftRest t) ?_ ?_)
      · intro b hb
        obtain ⟨i, hi, hkey⟩ := shiftList_key_mem n (shiftRest t) b hb
        rw [shiftRest_queue] at hi
        have hiq : i ∈ t.heap.queue :=
          Heap.popCore_subset (bitLe_total t.heap.segments) _ hql i hi
        obtain ⟨j, hj, hji⟩ := List.mem_iff_getElem.mp hiq
        have hroot := Heap.heapProp_root_le (bitLe_trans t.heap.segments)
          (bitLe_total t.heap.segments) t.heap.queue hheap j hj
        rw [← lget_eq_getElem t.heap.queue hj] at hji
        rw [hji] at hroot
        have : segKey (lget t.heap.segments (lget t.heap.queue 0)) ≤
            segKey (lget t.heap.segments i) := by
          simpa [bitLe, decide_eq_true_eq] using hroot
        rw [shiftSeg_eq t hql, hkey, segKey_shiftRest t hql i]
        exact this
      · intro i hi
        rw [shiftRest_queue] at hi
        rw [shiftRest_segments_length]
        exact hval i (Heap.popCore_subset (bitLe_total t.heap.segments) _ hql i hi)
      · rw [hfun, shiftRest_queue]
        exact Heap.popCore_heap (bitLe_trans t.heap.segments)
          (bitLe_total t.heap.segments) t.heap.queue hheap


end ShiftStream



/-! ### Claims C3, C4 and C9 -/

section BitClaims

variable {U : Type} [Inhabited U]

theorem mem_of_getElem?_some {β : Type} {l : List β} {n : Nat} {a : β}
    (h : l[n]? = some a) : a ∈ l := by
  have hn : n < l.length := by
    by_contra hc
    rw [List.getElem?_eq_none (by omega)] at h
    cases h
  rw [List.getElem?_eq_getElem hn] at h
  cases h
  exact List.getElem_mem hn

theorem partitionPoint_le_length {β : Type} (p : β → Bool) (l : List β) :
    partitionPoint p l ≤ l.length :=
  (l.takeWhile_sublist p).length_le

theorem lget_append_last {β : Type} [Inhabited β] (l : List β) (x : β) :
    lget (l ++ [x]) l.length = x := by
  simp [lget, List.getD_eq_getElem?_getD, List.getElem?_concat_length]

theorem insert_node_ne_nil (nodes : List Node) (node : Node) (offset : Nat) :
    insert_node nodes node offset ≠ [] := by
  unfold insert_node
  intro h
  have hle := partitionPoint_le_length (fun x => x.pos ≤ offset) nodes
  have := List.length_insertIdx (a := node)
    (partitionPoint (fun x => x.pos ≤ offset) nodes) nodes hle
  rw [h] at this
  simp at this

theorem createSegment_queue_mem (h : SegmentHeap U) (seg : SegmentData U) :
    (createSegment h seg).2 ∈ (createSegment h seg).1.queue := by
  unfold createSegment
  simp only
  rw [(shiftUpGo_proj _ _ _).1]
  exact (Heap.shiftUpGo_mem h.queue.length (h.queue ++ [h.segments.length])
    h.queue.length (by simp) h.segments.length).mpr (by simp)

theorem createSegment_segments (h : SegmentHeap U) (seg : SegmentData U) :
    (createSegment h seg).1.segments = h.segments ++ [seg] := by
  unfold createSegment
  simp only
  rw [(shiftUpGo_proj _ _ _).2]

theorem createSegment_stored (h : SegmentHeap U) (seg : SegmentData U) :
    lget (createSegment h seg).1.segments (createSegment h seg).2 = seg := by
  rw [createSegment_segments]
  exact lget_append_last h.segments seg

/-- The queue-membership invariant the spec asserts for the `bit` binding
table: a segment is queued exactly when its node list is non-empty. -/
def QueueInv (t : Table U) : Prop :=
  ∀ i, i < t.heap.segments.length →
    (i ∈ t.heap.queue ↔ (lget t.heap.segments i).nodes ≠ [])

/-- An empty table. -/
def emptyTable : Table Nat :=
  { heap := { queue := [], segments := [], segment_pos := [] },
    table := fun _ => default }

/-- The table after a single `bind` over `[0, 10)` on the empty table. -/
def c3Table : Table Nat :=
  match Table.bind 1 emptyTable ⟨0, 10⟩ (Key.str "k") 0 (Order.pos 0) with
  | Except.ok t => t
  | Except.error _ => emptyTable

/-- C3 (counterexample): a single `bind` on the empty table enqueues the
segment it creates even though that segment's node list is empty, so the
claimed "queued iff non-empty node list" invariant does not hold between
public operations. -/
theorem c3_counterexample :
    Table.bind 1 emptyTable ⟨0, 10⟩ (Key.str "k") 0 (Order.pos 0)
      = Except.ok c3Table ∧
    0 ∈ c3Table.heap.queue ∧
    (lget c3Table.heap.segments 0).nodes = [] ∧
    ¬ QueueInv c3Table := by
  refine ⟨rfl, by decide, by decide, fun hinv => ?_⟩
  have h0 : (0 : Nat) < c3Table.heap.segments.length := by decide
  have := (hinv 0 h0).mp (by decide)
  exact this (by decide)

/-- C3 (amended): `bind`'s `create_segment` enqueues every segment it
creates at creation time, even when the segment's node list is empty (the
created segment is stored as given and its index is in the queue); `push`,
on the other hand, only ever enqueues a segment that has just received the
pushed node, so a segment enqueued by `push` has a non-empty node list.
The per-key segment indices are assumed to point into the segment arena
(`hwf`), which `bind` establishes for every index it records. -/
theorem c3_amended :
    (∀ (V : Type) (inst : Inhabited V) (h : SegmentHeap V)
      (seg : SegmentData V),
      (createSegment h seg).2 ∈ (createSegment h seg).1.queue ∧
      lget (createSegment h seg).1.segments (createSegment h seg).2 = seg) ∧
    (∀ (V : Type) (inst : Inhabited V) (t : Table V) (node : Node) (i : Nat),
      (∀ k ∈ (t.table node.key).segments, k < t.heap.segments.length) →
      i ∈ (t.push node).heap.queue →
      i ∈ t.heap.queue ∨ (lget (t.push node).heap.segments i).nodes ≠ []) := by
  constructor
  · intro V inst h seg
    exact ⟨createSegment_queue_mem h seg, createSegment_stored h seg⟩
  · intro V inst t node i hwf hi
    unfold Table.push at hi
    split at hi
    · exact Or.inl hi
    · rename_i hkey
      dsimp only at hi
      split at hi
      · rename_i seg_index hsome
        have hseg_mem : seg_index ∈ (t.table node.key).segments :=
          mem_of_getElem?_some hsome
        have hseg_lt : seg_index < t.heap.segments.length := hwf _ hseg_mem
        split at hi
        · rename_i hoff
          split at hi
          · rename_i hnq
            rw [(shiftUpGo_proj _ _ _).1] at hi
            dsimp only at hi
            rw [Heap.shiftUpGo_mem t.heap.queue.length
              (t.heap.queue ++ [seg_index]) t.heap.queue.length (by simp) i,
              List.mem_append] at hi
            rcases hi with hold | hnew
            · exact Or.inl hold
            · right
              have hieq : i = seg_index := by simpa using hnew
              subst hieq
              have hseg : (Table.push t node).heap.segments
                  = t.heap.segments.set i
                    { lget t.heap.segments i with
                      nodes := insert_node (lget t.heap.segments i).nodes
                        node node.pos } := by
                unfold Table.push
                rw [if_neg hkey]
                dsimp only
                rw [hsome]
                dsimp only
                rw [if_pos hoff, if_pos hnq]
                dsimp only
                rw [(shiftUpGo_proj _ _ _).2]
              rw [hseg, lget_set, if_pos ⟨rfl, hseg_lt⟩]
              exact insert_node_ne_nil _ _ _
          · exact Or.inl hi
        · exact Or.inl hi
      · exact Or.inl hi

/-- C3 (witness): the amended push statement at a concrete one-segment
table. -/
theorem c3_witness :
    (∀ k ∈ (c3Table.table (Key.str "k")).segments,
      k < c3Table.heap.segments.length) ∧
    ((0 : Nat) ∈ (c3Table.push { key := Key.str "k", pos := 3, id := 7 }).heap.queue →
      (0 : Nat) ∈ c3Table.heap.queue ∨
      (lget (c3Table.push { key := Key.str "k", pos := 3, id := 7 }).heap.segments
        0).nodes ≠ []) := by
  refine ⟨by decide, ?_⟩
  exact c3_amended.2 Nat inferInstance c3Table
    { key := Key.str "k", pos := 3, id := 7 } 0 (by decide)

/-- A concrete two-segment table whose queue is a valid heap. -/
def c4seg0 : SegmentData Nat :=
  { binding := { key := Key.str "k", val := 5, ord := Order.pos 0, range := ⟨0, 1⟩ }
    range := ⟨0, 1⟩
    nodes := [{ key := Key.str "k", pos := 0, id := 0 }] }

/-- Second segment of the concrete two-segment heap used below. -/
def c4seg1 : SegmentData Nat :=
  { binding := { key := Key.str "k", val := 6, ord := Order.pos 1, range := ⟨1, 2⟩ }
    range := ⟨1, 2⟩
    nodes := [{ key := Key.str "k", pos := 1, id := 1 }] }

/-- A concrete two-segment table whose queue is a valid heap. -/
def c4Table : Table Nat :=
  { heap :=
      { queue := [0, 1]
        segments := [c4seg0, c4seg1]
        segment_pos := [0, 1] }
    table := fun _ => default }

/-- C4 (witness): the sortedness theorem applied to `c4Table`. -/
theorem c4_witness :
    (∀ i ∈ c4Table.heap.queue, i < c4Table.heap.segments.length) ∧
    Heap.heapProp (bitLe c4Table.heap.segments) c4Table.heap.queue ∧
    (c4Table.shiftList 3).Pairwise (fun a b => segKey a ≤ segKey b) := by
  have h1 : ∀ i ∈ c4Table.heap.queue, i < c4Table.heap.segments.length := by
    decide
  have h2 : Heap.heapProp (bitLe c4Table.heap.segments) c4Table.heap.queue := by
    intro j hj hjlen
    have hj2 : j < 2 := hjlen
    obtain rfl : j = 1 := by omega
    decide
  exact ⟨h1, h2, c4_shift_sorted c4Table 3 h1 h2⟩

/-- C9 (counterexample): in the derived total order on `Order`, `Never` is
declared first and therefore compares *before* `Pos` values, not after:
`Pos 0 < Never` is false (indeed `Never < Pos 0`). -/
theorem c9_counterexample :
    ¬ (Order.pos 0 < Order.never) ∧ Order.never < Order.pos 0 := by
  constructor
  · intro h
    have : Order.toKey (Order.pos 0) < Order.toKey Order.never := h
    rw [Order.toKey] at this
    rw [Order.toKey] at this
    rcases (Prod.Lex.lt_iff _ _).mp this with h1 | ⟨h1, -⟩
    · exact absurd h1 (by decide)
    · exact absurd h1 (by decide)
  · show Order.toKey Order.never < Order.toKey (Order.pos 0)
    rw [Order.toKey, Order.toKey]
    exact (Prod.Lex.lt_iff _ _).mpr (Or.inl (by decide))

/-- C9 (amended): `Order::Never` compares *before* (less than) every
`Order::Pos` value in the derived total order, and `Table::bind` is a no-op
(returns the table unchanged) whenever the key is `None`, the order is
`Never`, or the span is empty — so `Never`-ordered bind calls never modify
the table. -/
theorem c9_never_first_and_bind_noop :
    (∀ i : Int, Order.never < Order.pos i) ∧
    (∀ (V : Type) (inst : Inhabited V) (fuel : Nat) (t : Table V)
      (range : Range) (key : Key) (val : V) (ord : Order),
      key = Key.none ∨ ord = Order.never ∨ range.sta = range.«end» →
      Table.bind fuel t range key val ord = Except.ok t) := by
  constructor
  · intro i
    show Order.toKey Order.never < Order.toKey (Order.pos i)
    rw [Order.toKey, Order.toKey]
    exact (Prod.Lex.lt_iff _ _).mpr (Or.inl ((by decide : (false : Bool) < true)))
  · intro V inst fuel t range key val ord hguard
    unfold Table.bind
    rw [if_pos hguard]

/-- C9 (witness): the no-op statement applied to a `Never`-ordered bind on
a concrete table. -/
theorem c9_witness :
    (Key.str "k" = Key.none ∨ Order.never = Order.never ∨
      (⟨0, 10⟩ : Range).sta = (⟨0, 10⟩ : Range).«end») ∧
    Table.bind 5 c4Table ⟨0, 10⟩ (Key.str "k") 0 Order.never
      = Except.ok c4Table :=
  ⟨Or.inr (Or.inl rfl),
    c9_never_first_and_bind_noop.2 Nat inferInstance 5 c4Table ⟨0, 10⟩
      (Key.str "k") 0 Order.never (Or.inr (Or.inl rfl))⟩

end BitClaims

end Bit


/-! ## The `libs/nodes` engine

`libs/nodes/engine.rs` is the generic node-processor variant of the `bit`
binding table (per the specification, the most advanced variant of the
algorithm in the repository).  The `NodeModel` associated types become the
type parameters `K V O N`, with the node span accessor (`IsNode::span`)
passed explicitly as `sp : N → Span`.  Arena pointers
(`*mut BoundSegment<T>`) are indices into an arena list; the engine-wide
state threaded through `KeyTable::set` (the priority queue plus the arena)
is `EState`.  `Rc<Binding>` is modelled by an inline copy (bindings are
immutable once created). -/

namespace Libs

/-- `Range` from `libs/nodes/span.rs` (`cmp`: `off`, then `len`). -/
structure Range where
  off : Nat
  len : Nat
deriving DecidableEq, Inhabited

/-- `Span` from `libs/nodes/span.rs`. -/
structure Span where
  src : Nat
  off : Nat
  len : Nat
deriving DecidableEq, Inhabited

/-- `Span::end`. -/
def Span.«end» (s : Span) : Nat := s.off + s.len

/-- `Span::offset_end`, called by `KeyTable::set` on node spans.  The
method body is not part of the snapshot; following `Span::end` it is the
end offset `off + len`. -/
def Span.offset_end (s : Span) : Nat := s.off + s.len

/-- `Span::contains` (`span.rs` lines 50-58): same source and non-strict
range containment (a non-empty span contains itself). -/
def Span.contains (self other : Span) : Bool :=
  other.src == self.src &&
    (other.off ≥ self.off && other.off < self.off + self.len &&
      other.off + other.len ≤ self.off + self.len)

/-- `Binding` from `engine.rs`. -/
structure Binding (K V O : Type) where
  key : K
  val : V
  ord : O
  span : Span
deriving DecidableEq

/-- `SegmentData` from `engine.rs`. -/
structure SegmentData (K V O N : Type) where
  binding : Binding K V O
  range : Range
  nodes : List N
deriving DecidableEq

/-- `BoundSegment` from `engine.rs`: segment data plus the `queue_pos`
back-pointer into the priority queue. -/
structure BoundSegment (K V O N : Type) where
  queue_pos : Nat
  data : SegmentData K V O N
deriving DecidableEq

/-- The engine state mutated by `KeyTable::set` besides the key table
itself: the priority queue of arena indices and the segment arena. -/
structure EState (K V O N : Type) where
  queue : List Nat
  arena : List (BoundSegment K V O N)
deriving DecidableEq

/-- `KeyTable` from `engine.rs`: per-source unbound node lists and
per-source sorted segment-pointer vectors. -/
structure KeyTable (K V O N : Type) where
  unbound : List (List N)
  segments : List (List Nat)
deriving DecidableEq

section Engine

variable {K V O N : Type}
variable [Inhabited K] [Inhabited V] [Inhabited O] [Inhabited N]

instance : Inhabited (Binding K V O) :=
  ⟨{ key := default, val := default, ord := default, span := default }⟩

instance : Inhabited (SegmentData K V O N) :=
  ⟨{ binding := default, range := default, nodes := [] }⟩

instance : Inhabited (BoundSegment K V O N) :=
  ⟨{ queue_pos := NOT_QUEUED, data := default }⟩

instance : Inhabited (KeyTable K V O N) :=
  ⟨{ unbound := [], segments := [] }⟩

instance : Inhabited (EState K V O N) := ⟨{ queue := [], arena := [] }⟩

/-- `BoundSegment::sta`. -/
def BoundSegment.sta (s : BoundSegment K V O N) : Nat := s.data.range.off

/-- `BoundSegment::len`. -/
def BoundSegment.len (s : BoundSegment K V O N) : Nat := s.data.range.len

/-- `BoundSegment::end`. -/
def BoundSegment.«end» (s : BoundSegment K V O N) : Nat := s.sta + s.len

/-- The arena with only segment data (the `queue_pos` back-pointers
erased); the heap comparison factors through it. -/
def dataMap (arena : List (BoundSegment K V O N)) :
    List (SegmentData K V O N) :=
  arena.map (fun s => s.data)

variable [LinearOrder K] [LinearOrder O]

/-- The `(ord, key, range)` comparison key of `heap_less` (`engine.rs`
lines 514-524: an `Ordering::then_with` chain, i.e. the lexicographic
order on the triple, with `Range` ordered by `off` then `len`). -/
def eKey (d : SegmentData K V O N) : O ×ₗ (K ×ₗ (Nat ×ₗ Nat)) :=
  toLex (d.binding.ord, toLex (d.binding.key, toLex (d.range.off, d.range.len)))

/-- `heap_less` on two queue slots (the queue stores arena indices). -/
def eLess (arena : List (BoundSegment K V O N)) : Nat → Nat → Bool :=
  fun i j => decide (eKey (lget arena i).data ≤ eKey (lget arena j).data)

theorem eLess_trans (arena : List (BoundSegment K V O N)) :
    ∀ a b c, eLess arena a b = true → eLess arena b c = true →
      eLess arena a c = true := by
  intro a b c hab hbc
  simp only [eLess, decide_eq_true_eq] at *
  exact le_trans hab hbc

theorem eLess_total (arena : List (BoundSegment K V O N)) :
    ∀ a b, eLess arena a b = true ∨ eLess arena b a = true := by
  intro a b
  simp only [eLess, decide_eq_true_eq]
  exact le_total _ _

/-- `heap_swap` (`engine.rs` lines 526-532): swap the queue entries, then
update the two segments' `queue_pos` back-pointers through the arena. -/
def EState.hswap (s : EState K V O N) (a b : Nat) : EState K V O N :=
  let queue := lswap s.queue a b
  let ia := lget queue a
  let ib := lget queue b
  let arena1 := s.arena.set ia { lget s.arena ia with queue_pos := a }
  let arena2 := arena1.set ib { lget arena1 ib with queue_pos := b }
  { queue := queue, arena := arena2 }

/-- `shift_up` on the full engine state (trait default over `heap_swap`). -/
def EState.shiftUpGo : Nat → EState K V O N → Nat → EState K V O N × Nat
  | 0, s, i => (s, i)
  | fuel + 1, s, i =>
    if i = 0 then (s, i)
    else if eLess s.arena (lget s.queue i) (lget s.queue (Heap.par i)) then
      EState.shiftUpGo fuel (s.hswap i (Heap.par i)) (Heap.par i)
    else (s, i)

def EState.shiftUp (s : EState K V O N) (i : Nat) : EState K V O N × Nat :=
  EState.shiftUpGo i s i

/-- `shift_down` on the full engine state. -/
def EState.shiftDownGo (len : Nat) :
    Nat → EState K V O N → Nat → EState K V O N × Nat
  | 0, s, i => (s, i)
  | fuel + 1, s, i =>
    if Heap.lhs i ≥ len then (s, i)
    else
      match Heap.downNext (eLess s.arena) len s.queue i with
      | some j => EState.shiftDownGo len fuel (s.hswap i j) j
      | none => (s, i)

def EState.shiftDown (s : EState K V O N) (i : Nat) : EState K V O N × Nat :=
  EState.shiftDownGo s.queue.length s.queue.length s i

/-- `fix` on the full engine state. -/
def EState.fix (s : EState K V O N) (i : Nat) : EState K V O N × Nat :=
  if i ≠ NOT_QUEUED then
    let up := s.shiftUp i
    up.1.shiftDown up.2
  else (s, i)

/-- The `create_segment` closure in `KeyTable::set` (`engine.rs` lines
197-204): store the segment in the arena with `queue_pos` pointing at the
queue tail, push its pointer, and sift up.  Returns the new arena index. -/
def createSegment (s : EState K V O N) (data : SegmentData K V O N) :
    EState K V O N × Nat :=
  let index := s.queue.length
  let p := s.arena.length
  let s1 : EState K V O N :=
    { queue := s.queue ++ [p]
      arena := s.arena ++ [{ queue_pos := index, data := data }] }
  ((EState.shiftUpGo index s1 index).1, p)

/-- Overwriting arena entry `a`'s segment data in place, keeping its
`queue_pos` — the shape of every in-place segment mutation performed by
`KeyTable::set` through its `&mut BoundSegment` pointers. -/
def mutState (s : EState K V O N) (a : Nat) (d : SegmentData K V O N) :
    EState K V O N :=
  { queue := s.queue
    arena := s.arena.set a { lget s.arena a with data := d } }

variable (sp : N → Span)

/-- `KeyTable::insert_node` (`engine.rs` lines 382-385): insertion sorted
by span offset, ties after existing entries. -/
def insert_node (nodes : List N) (node : N) (offset : Nat) : List N :=
  nodes.insertIdx (partitionPoint (fun x => (sp x).off ≤ offset) nodes) node

/-- The `while` loop of `KeyTable::set` (`engine.rs` lines 228-319)
together with the post-loop suffix insertion (lines 322-337, executed
exactly once when the loop exits); fuelled.  Arguments after the fuel: the
`segments[src]` vector, `cur_idx`, `sta` and the shared engine state. -/
def setLoop (binding : Binding K V O) (bend : Nat) :
    Nat → List Nat → Nat → Nat → EState K V O N → List Nat × EState K V O N
  | 0, segs, _, _, st => (segs, st)
  | fuel + 1, segs, cur_idx, sta, st =>
    if cur_idx < segs.length ∧ sta < bend then
      let a := lget segs cur_idx
      let cur := lget st.arena a
      let cur_sta := cur.sta
      let cur_end := cur.«end»
      if cur_sta > sta then
        let seg_end := min bend cur_sta
        let cs := createSegment st
          { binding := binding, range := ⟨sta, seg_end - sta⟩, nodes := [] }
        setLoop binding bend fuel (segs.insertIdx cur_idx cs.2) (cur_idx + 1)
          seg_end cs.1
      else if cur.data.binding.span.contains binding.span then
        let sb :=
          if sta > cur_sta then
            let split_at := partitionPoint (fun n => (sp n).off < sta)
              cur.data.nodes
            let nodes_before := cur.data.nodes.take split_at
            let st1 := (EState.fix (mutState st a
              { cur.data with
                  nodes := cur.data.nodes.drop split_at
                  range := ⟨sta, cur_end - sta⟩ }) cur.queue_pos).1
            let cs := createSegment st1
              { binding := cur.data.binding
                range := ⟨cur_sta, sta - cur_sta⟩
                nodes := nodes_before }
            (segs.insertIdx cur_idx cs.2, cur_idx + 1, cs.1)
          else (segs, cur_idx, st)
        match sb with
        | (segs1, cur_idx1, stA) =>
          if bend < cur_end then
            let cur1 := lget stA.arena a
            let split_at := partitionPoint (fun n => (sp n).off < bend)
              cur1.data.nodes
            let nodes_after := cur1.data.nodes.drop split_at
            let cs := createSegment (mutState stA a
              { cur1.data with nodes := cur1.data.nodes.take split_at })
              { binding := cur1.data.binding
                range := ⟨bend, cur_end - bend⟩
                nodes := nodes_after }
            let segs2 := segs1.insertIdx (cur_idx1 + 1) cs.2
            let cur2 := lget cs.1.arena a
            let st2 := (EState.fix (mutState cs.1 a
              { cur2.data with
                  range := ⟨sta, bend - sta⟩
                  binding := binding }) cur2.queue_pos).1
            setLoop binding bend fuel segs2 (cur_idx1 + 2) cur_end st2
          else
            let cur1 := lget stA.arena a
            let st1 := (EState.fix (mutState stA a
              { cur1.data with binding := binding }) cur1.queue_pos).1
            setLoop binding bend fuel segs1 (cur_idx1 + 1) cur_end st1
      else
        setLoop binding bend fuel segs (cur_idx + 1) cur_end st
    else
      if sta < bend then
        let cs := createSegment st
          { binding := binding, range := ⟨sta, bend - sta⟩, nodes := [] }
        (segs.insertIdx cur_idx cs.2, cs.1)
      else (segs, st)

/-- The inner `while offset >= cur.end()` walk of the drain loop in
`KeyTable::set` (lines 347-350), fuelled by the segment vector length. -/
def drainStepGo (segs : List Nat) :
    Nat → List (BoundSegment K V O N) → Nat → Nat → Nat
  | 0, _, seg_index, _ => seg_index
  | fuel + 1, arena, seg_index, offset =>
    if offset ≥ (lget arena (lget segs seg_index)).«end» then
      drainStepGo segs fuel arena (seg_index + 1) offset
    else seg_index

/-- The `for node in unbound.drain(..)` loop of `KeyTable::set` (lines
344-352): walk to the segment covering each drained node and insert the
node into its node list. -/
def drainNodes (segs : List Nat) :
    List N → Nat → EState K V O N → EState K V O N
  | [], _, st => st
  | node :: rest, seg_index, st =>
    let offset := (sp node).off
    let idx := drainStepGo segs segs.length st.arena seg_index offset
    let a := lget segs idx
    let cur := lget st.arena a
    drainNodes segs rest idx (mutState st a
      { cur.data with nodes := insert_node sp cur.data.nodes node offset })

/-- `KeyTable::set` (`engine.rs` lines 183-354), fuelled for the central
`while` loop. -/
def KeyTable.set (kt : KeyTable K V O N) (binding : Binding K V O)
    (st : EState K V O N) (fuel : Nat) :
    KeyTable K V O N × EState K V O N :=
  let src := binding.span.src
  let sta := binding.span.off
  let bend := binding.span.off + binding.span.len
  let segments :=
    if src ≥ kt.segments.length then
      kt.segments ++ List.replicate (src + 1 - kt.segments.length) []
    else kt.segments
  let segs := lget segments src
  let insert_idx := partitionPoint (fun x => (lget st.arena x).«end» ≤ sta) segs
  let r :=
    if insert_idx ≥ segs.length then
      let cs := createSegment st
        { binding := binding, range := ⟨sta, bend - sta⟩, nodes := [] }
      (segs ++ [cs.2], cs.1)
    else
      setLoop sp binding bend fuel segs insert_idx sta st
  let segs1 := r.1
  let st1 := r.2
  if src < kt.unbound.length then
    let u := lget kt.unbound src
    let node_sta := partitionPoint (fun x => (sp x).offset_end ≤ sta) u
    let node_end :=
      partitionPoint (fun x => (sp x).off < bend) (u.drop node_sta) + node_sta
    let st2 := drainNodes sp segs1
      ((u.drop node_sta).take (node_end - node_sta)) insert_idx st1
    ({ unbound := kt.unbound.set src (u.take node_sta ++ u.drop node_end)
       segments := segments.set src segs1 }, st2)
  else
    ({ unbound := kt.unbound, segments := segments.set src segs1 }, st1)

end Engine


section EngineLemmas

variable {K V O N : Type}
variable [Inhabited K] [Inhabited V] [Inhabited O] [Inhabited N]

theorem length_dataMap (arena : List (BoundSegment K V O N)) :
    (dataMap arena).length = arena.length := by
  simp [dataMap]

theorem data_lget (arena : List (BoundSegment K V O N)) (i : Nat) :
    (lget arena i).data = lget (dataMap arena) i := by
  by_cases h : i < arena.length
  · rw [lget_eq_getElem arena h,
      lget_eq_getElem (dataMap arena) (by rw [length_dataMap]; exact h)]
    simp [dataMap]
  · have h2 : ¬ i < (dataMap arena).length := by rw [length_dataMap]; exact h
    simp only [lget, List.getD_eq_getElem?_getD,
      List.getElem?_eq_none (le_of_not_lt h),
      List.getElem?_eq_none (le_of_not_lt h2)]
    rfl

theorem dataMap_set (arena : List (BoundSegment K V O N)) (i : Nat)
    (x : BoundSegment K V O N) :
    dataMap (arena.set i x) = (dataMap arena).set i x.data := by
  simp [dataMap, List.map_set]

theorem set_lget_self {β : Type} [Inhabited β] (l : List β) (i : Nat) :
    l.set i (lget l i) = l := by
  apply List.ext_getElem?
  intro n
  rw [List.getElem?_set]
  split
  · rename_i hn
    subst hn
    by_cases h : i < l.length
    · simp [List.getElem?_eq_getElem h, lget_eq_getElem l h, h]
    · simp [List.getElem?_eq_none (le_of_not_lt h), le_of_not_lt h]
  · rfl

theorem dataMap_setQueuePos (arena : List (BoundSegment K V O N))
    (i p : Nat) :
    dataMap (arena.set i { lget arena i with queue_pos := p })
      = dataMap arena := by
  rw [dataMap_set]
  have h : ({ lget arena i with queue_pos := p } :
      BoundSegment K V O N).data = (lget arena i).data := rfl
  rw [h, data_lget]
  exact set_lget_self (dataMap arena) i

theorem ehswap_queue (s : EState K V O N) (a b : Nat) :
    (s.hswap a b).queue = lswap s.queue a b := rfl

theorem hswap_dataMap (s : EState K V O N) (a b : Nat) :
    dataMap (s.hswap a b).arena = dataMap s.arena := by
  unfold EState.hswap
  dsimp only
  rw [dataMap_setQueuePos, dataMap_setQueuePos]

theorem hswap_arena_length (s : EState K V O N) (a b : Nat) :
    (s.hswap a b).arena.length = s.arena.length := by
  have h := hswap_dataMap s a b
  rw [← length_dataMap, h, length_dataMap]

theorem dataMap_append (arena : List (BoundSegment K V O N))
    (x : BoundSegment K V O N) :
    dataMap (arena ++ [x]) = dataMap arena ++ [x.data] := by
  simp [dataMap]

section Ordered

variable [LinearOrder K] [LinearOrder O]

theorem eLess_congr {arena arena' : List (BoundSegment K V O N)}
    (h : dataMap arena = dataMap arena') :
    eLess arena = eLess arena' := by
  funext i j
  simp only [eLess, data_lget, h]

theorem shiftUpGo_eproj (fuel : Nat) :
    ∀ (s : EState K V O N) (i : Nat),
      (EState.shiftUpGo fuel s i).1.queue
          = (Heap.shiftUpGo (eLess s.arena) fuel s.queue i).1 ∧
      dataMap (EState.shiftUpGo fuel s i).1.arena = dataMap s.arena ∧
      (EState.shiftUpGo fuel s i).2
          = (Heap.shiftUpGo (eLess s.arena) fuel s.queue i).2 := by
  induction fuel with
  | zero => intro s i; exact ⟨rfl, rfl, rfl⟩
  | succ fuel ih =>
    intro s i
    unfold EState.shiftUpGo Heap.shiftUpGo
    split
    · exact ⟨rfl, rfl, rfl⟩
    · split
      · rename_i h0 hle
        obtain ⟨hq, hd, hi⟩ := ih (s.hswap i (Heap.par i)) (Heap.par i)
        rw [eLess_congr (hswap_dataMap s i (Heap.par i)), ehswap_queue] at hq hi
        rw [hswap_dataMap] at hd
        exact ⟨hq, hd, hi⟩
      · exact ⟨rfl, rfl, rfl⟩

theorem shiftDownGo_eproj (len fuel : Nat) :
    ∀ (s : EState K V O N) (i : Nat),
      (EState.shiftDownGo len fuel s i).1.queue
          = (Heap.shiftDownGo (eLess s.arena) len fuel s.queue i).1 ∧
      dataMap (EState.shiftDownGo len fuel s i).1.arena = dataMap s.arena ∧
      (EState.shiftDownGo len fuel s i).2
          = (Heap.shiftDownGo (eLess s.arena) len fuel s.queue i).2 := by
  induction fuel with
  | zero => intro s i; exact ⟨rfl, rfl, rfl⟩
  | succ fuel ih =>
    intro s i
    unfold EState.shiftDownGo Heap.shiftDownGo
    split
    · exact ⟨rfl, rfl, rfl⟩
    · split
      · rename_i hguard j hj
        obtain ⟨hq, hd, hi⟩ := ih (s.hswap i j) j
        rw [eLess_congr (hswap_dataMap s i j), ehswap_queue] at hq hi
        rw [hswap_dataMap] at hd
        exact ⟨hq, hd, hi⟩
      · exact ⟨rfl, rfl, rfl⟩

theorem fix_eproj (s : EState K V O N) (i : Nat) :
    (EState.fix s i).1.queue = (Heap.fix (eLess s.arena) s.queue i).1 ∧
    dataMap (EState.fix s i).1.arena = dataMap s.arena := by
  unfold EState.fix Heap.fix
  split
  · obtain ⟨hq, hd, hi⟩ := shiftUpGo_eproj i s i
    obtain ⟨hq2, hd2, -⟩ := shiftDownGo_eproj
      (EState.shiftUp s i).1.queue.length (EState.shiftUp s i).1.queue.length
      (EState.shiftUp s i).1 (EState.shiftUp s i).2
    constructor
    · show (EState.shiftDownGo (EState.shiftUp s i).1.queue.length
          (EState.shiftUp s i).1.queue.length (EState.shiftUp s i).1
          (EState.shiftUp s i).2).1.queue = _
      rw [hq2]
      show _ = (Heap.shiftDownGo (eLess s.arena)
          (Heap.shiftUp (eLess s.arena) s.queue i).1.length
          (Heap.shiftUp (eLess s.arena) s.queue i).1.length
          (Heap.shiftUp (eLess s.arena) s.queue i).1
          (Heap.shiftUp (eLess s.arena) s.queue i).2).1
      have hd' : eLess (EState.shiftUp s i).1.arena = eLess s.arena :=
        eLess_congr hd
      have hqu : (EState.shiftUp s i).1.queue
          = (Heap.shiftUp (eLess s.arena) s.queue i).1 := hq
      have hiu : (EState.shiftUp s i).2
          = (Heap.shiftUp (eLess s.arena) s.queue i).2 := hi
      rw [hd', hqu, hiu]
    · show dataMap (EState.shiftDownGo (EState.shiftUp s i).1.queue.length
          (EState.shiftUp s i).1.queue.length (EState.shiftUp s i).1
          (EState.shiftUp s i).2).1.arena = _
      rw [hd2]
      exact hd
  · exact ⟨rfl, rfl⟩

end Ordered

end EngineLemmas


section EngineWf

variable {K : Type} {V : Type} {O : Type} {N : Type}
variable [Inhabited K] [Inhabited V] [Inhabited O] [Inhabited N]

/-- Every queue entry points into the arena. -/
def QValid (s : EState K V O N) : Prop :=
  ∀ j, j < s.queue.length → lget s.queue j < s.arena.length

/-- Every queued segment's `queue_pos` back-pointer is its queue index. -/
def QPos (s : EState K V O N) : Prop :=
  ∀ j, j < s.queue.length → (lget s.arena (lget s.queue j)).queue_pos = j

theorem qpos_inj {s : EState K V O N} (h : QPos s) {j j' : Nat}
    (hj : j < s.queue.length) (hj' : j' < s.queue.length)
    (heq : lget s.queue j = lget s.queue j') : j = j' := by
  have h1 := h j hj
  rw [heq, h j' hj'] at h1
  exact h1.symm

theorem lget_hswap_arena (s : EState K V O N) (a b : Nat) (hab : a ≠ b)
    (ha : a < s.queue.length) (hb : b < s.queue.length)
    (hva : lget s.queue a < s.arena.length)
    (hvb : lget s.queue b < s.arena.length)
    (hnodup : lget s.queue a ≠ lget s.queue b) (k : Nat) :
    lget (s.hswap a b).arena k =
      if k = lget s.queue a then { lget s.arena k with queue_pos := b }
      else if k = lget s.queue b then { lget s.arena k with queue_pos := a }
      else lget s.arena k := by
  have hia : lget (lswap s.queue a b) a = lget s.queue b := by
    rw [lget_lswap s.queue a b a ha hb, if_neg hab, if_pos rfl]
  have hib : lget (lswap s.queue a b) b = lget s.queue a := by
    rw [lget_lswap s.queue a b b ha hb, if_pos rfl]
  unfold EState.hswap
  dsimp only
  rw [hia, hib]
  by_cases hk1 : k = lget s.queue a
  · subst hk1
    rw [if_pos rfl, lget_set, if_pos ⟨rfl, by simpa using hva⟩, lget_set,
      if_neg (fun hc => hnodup hc.1)]
  · rw [if_neg hk1, lget_set, if_neg (fun hc => hk1 hc.1)]
    by_cases hk2 : k = lget s.queue b
    · subst hk2
      rw [if_pos rfl, lget_set, if_pos ⟨rfl, hvb⟩]
    · rw [if_neg hk2, lget_set, if_neg (fun hc => hk2 hc.1)]

theorem hswap_wf {s : EState K V O N} {a b : Nat} (ha : a < s.queue.length)
    (hb : b < s.queue.length) (hab : a ≠ b) (hv : QValid s) (hp : QPos s) :
    QValid (s.hswap a b) ∧ QPos (s.hswap a b) := by
  have hnodup : lget s.queue a ≠ lget s.queue b := by
    intro hc
    exact hab (qpos_inj hp ha hb hc)
  have hqlen : (s.hswap a b).queue.length = s.queue.length := by
    rw [ehswap_queue, length_lswap]
  have halen : (s.hswap a b).arena.length = s.arena.length :=
    hswap_arena_length s a b
  have hget := lget_hswap_arena s a b hab ha hb (hv a ha) (hv b hb) hnodup
  have hqget : ∀ j, lget (s.hswap a b).queue j =
      if j = b then lget s.queue a
      else if j = a then lget s.queue b else lget s.queue j := by
    intro j
    rw [ehswap_queue, lget_lswap s.queue a b j ha hb]
  constructor
  · intro j hj
    rw [hqlen] at hj
    rw [hqget j, halen]
    by_cases hjb : j = b
    · rw [if_pos hjb]; exact hv a ha
    · rw [if_neg hjb]
      by_cases hja : j = a
      · rw [if_pos hja]; exact hv b hb
      · rw [if_neg hja]; exact hv j hj
  · intro j hj
    rw [hqlen] at hj
    rw [hqget j]
    by_cases hjb : j = b
    · rw [if_pos hjb, hget (lget s.queue a), if_pos rfl]
      exact hjb.symm
    · rw [if_neg hjb]
      by_cases hja : j = a
      · rw [if_pos hja, hget (lget s.queue b), if_neg (Ne.symm hnodup),
          if_pos rfl]
        exact hja.symm
      · rw [if_neg hja, hget (lget s.queue j),
          if_neg (fun hc => hja (qpos_inj hp hj ha hc)),
          if_neg (fun hc => hjb (qpos_inj hp hj hb hc))]
        exact hp j hj

/-- The intermediate state inside `create_segment` right after the arena
store and the queue push, before the sift-up. -/
def pushState (s : EState K V O N) (d : SegmentData K V O N) :
    EState K V O N :=
  { queue := s.queue ++ [s.arena.length]
    arena := s.arena ++ [{ queue_pos := s.queue.length, data := d }] }

theorem mutState_dataMap (s : EState K V O N) (a : Nat)
    (d : SegmentData K V O N) :
    dataMap (mutState s a d).arena = (dataMap s.arena).set a d := by
  show dataMap (s.arena.set a { lget s.arena a with data := d }) = _
  rw [dataMap_set]

theorem mutState_arena_length (s : EState K V O N) (a : Nat)
    (d : SegmentData K V O N) :
    (mutState s a d).arena.length = s.arena.length := by
  show (s.arena.set a { lget s.arena a with data := d }).length = _
  simp

theorem mutState_data_at (s : EState K V O N) (a : Nat)
    (d : SegmentData K V O N) (ha : a < s.arena.length) :
    (lget (mutState s a d).arena a).data = d := by
  rw [data_lget, mutState_dataMap, lget_set,
    if_pos ⟨rfl, by rw [length_dataMap]; exact ha⟩]

section OrderedWf

variable [LinearOrder K] [LinearOrder O]

theorem createSegment_eq (s : EState K V O N) (d : SegmentData K V O N) :
    createSegment s d =
      ((EState.shiftUpGo s.queue.length (pushState s d) s.queue.length).1,
        s.arena.length) := rfl

theorem shiftUpGo_ewf (fuel : Nat) :
    ∀ (s : EState K V O N) (i : Nat), i < s.queue.length → QValid s →
      QPos s →
      QValid (EState.shiftUpGo fuel s i).1 ∧
      QPos (EState.shiftUpGo fuel s i).1 ∧
      (EState.shiftUpGo fuel s i).1.queue.length = s.queue.length ∧
      (EState.shiftUpGo fuel s i).1.arena.length = s.arena.length ∧
      (EState.shiftUpGo fuel s i).2 ≤ i := by
  induction fuel with
  | zero => intro s i hi hv hp; exact ⟨hv, hp, rfl, rfl, le_refl i⟩
  | succ fuel ih =>
    intro s i hi hv hp
    unfold EState.shiftUpGo
    split
    · exact ⟨hv, hp, rfl, rfl, le_refl i⟩
    · split
      · rename_i h0 hle
        have hpar : Heap.par i < i := Heap.par_lt h0
        obtain ⟨hv', hp'⟩ := hswap_wf (b := Heap.par i) hi (by omega)
          (by omega) hv hp
        have hlen : (s.hswap i (Heap.par i)).queue.length
            = s.queue.length := by
          rw [ehswap_queue, length_lswap]
        obtain ⟨h1, h2, h3, h4, h5⟩ := ih (s.hswap i (Heap.par i))
          (Heap.par i) (by omega) hv' hp'
        refine ⟨h1, h2, by rw [h3, hlen], by rw [h4, hswap_arena_length],
          by omega⟩
      · exact ⟨hv, hp, rfl, rfl, le_refl i⟩

theorem shiftDownGo_ewf (len fuel : Nat) :
    ∀ (s : EState K V O N) (i : Nat), len ≤ s.queue.length → QValid s →
      QPos s →
      QValid (EState.shiftDownGo len fuel s i).1 ∧
      QPos (EState.shiftDownGo len fuel s i).1 ∧
      (EState.shiftDownGo len fuel s i).1.queue.length = s.queue.length ∧
      (EState.shiftDownGo len fuel s i).1.arena.length = s.arena.length := by
  induction fuel with
  | zero => intro s i hlen hv hp; exact ⟨hv, hp, rfl, rfl⟩
  | succ fuel ih =>
    intro s i hlen hv hp
    unfold EState.shiftDownGo
    split
    · exact ⟨hv, hp, rfl, rfl⟩
    · split
      · rename_i hguard j hj
        obtain ⟨hjc, hjlen, -, -⟩ :=
          Heap.downNext_eq_some (eLess_total s.arena) (by omega) hj
        have hij : i < j := by
          rcases hjc with rfl | rfl
          · unfold Heap.lhs; omega
          · unfold Heap.rhs; omega
        have hilt : i < s.queue.length := by
          have : i < Heap.lhs i := by unfold Heap.lhs; omega
          omega
        obtain ⟨hv', hp'⟩ := hswap_wf (b := j) hilt (by omega) (by omega)
          hv hp
        have hql : (s.hswap i j).queue.length = s.queue.length := by
          rw [ehswap_queue, length_lswap]
        obtain ⟨h1, h2, h3, h4⟩ := ih (s.hswap i j) j (by omega) hv' hp'
        exact ⟨h1, h2, by rw [h3, hql], by rw [h4, hswap_arena_length]⟩
      · exact ⟨hv, hp, rfl, rfl⟩

theorem fix_ewf (s : EState K V O N) (i : Nat) (hi : i < s.queue.length)
    (hv : QValid s) (hp : QPos s) :
    QValid (EState.fix s i).1 ∧ QPos (EState.fix s i).1 ∧
    (EState.fix s i).1.queue.length = s.queue.length ∧
    (EState.fix s i).1.arena.length = s.arena.length := by
  unfold EState.fix EState.shiftUp EState.shiftDown
  split
  · dsimp only
    obtain ⟨hv1, hp1, hql, hal, hle⟩ := shiftUpGo_ewf i s i hi hv hp
    obtain ⟨hv2, hp2, hql2, hal2⟩ := shiftDownGo_ewf
      (EState.shiftUpGo i s i).1.queue.length
      (EState.shiftUpGo i s i).1.queue.length
      (EState.shiftUpGo i s i).1 (EState.shiftUpGo i s i).2 (le_refl _)
      hv1 hp1
    exact ⟨hv2, hp2, by rw [hql2, hql], by rw [hal2, hal]⟩
  · exact ⟨hv, hp, rfl, rfl⟩

theorem createSegment_ewf (s : EState K V O N) (d : SegmentData K V O N)
    (hv : QValid s) (hp : QPos s)
    (hheap : Heap.heapProp (eLess s.arena) s.queue) :
    (createSegment s d).2 = s.arena.length ∧
    QValid (createSegment s d).1 ∧ QPos (createSegment s d).1 ∧
    dataMap (createSegment s d).1.arena = dataMap s.arena ++ [d] ∧
    (createSegment s d).1.arena.length = s.arena.length + 1 ∧
    (createSegment s d).1.queue.length = s.queue.length + 1 ∧
    Heap.heapProp (eLess (createSegment s d).1.arena)
      (createSegment s d).1.queue ∧
    (∀ x, x ∈ (createSegment s d).1.queue ↔
      x ∈ s.queue ∨ x = s.arena.length) := by
  have hpq : (pushState s d).queue = s.queue ++ [s.arena.length] := rfl
  have hpa : (pushState s d).arena
      = s.arena ++ [{ queue_pos := s.queue.length, data := d }] := rfl
  have hs1v : QValid (pushState s d) := by
    intro j hj
    rw [hpq, hpa]
    rw [hpq] at hj
    simp only [List.length_append, List.length_singleton] at hj ⊢
    by_cases hjl : j < s.queue.length
    · rw [Heap.lget_append s.queue _ j hjl]
      have := hv j hjl
      omega
    · have hje : j = s.queue.length := by omega
      subst hje
      rw [Bit.lget_append_last]
      omega
  have hs1p : QPos (pushState s d) := by
    intro j hj
    rw [hpq, hpa]
    rw [hpq] at hj
    simp only [List.length_append, List.length_singleton] at hj
    by_cases hjl : j < s.queue.length
    · rw [Heap.lget_append s.queue _ j hjl,
        Heap.lget_append s.arena _ _ (hv j hjl)]
      exact hp j hjl
    · have hje : j = s.queue.length := by omega
      subst hje
      rw [Bit.lget_append_last, Bit.lget_append_last]
  have hs1heap : Heap.heapProp (eLess (pushState s d).arena) s.queue := by
    rw [hpa]
    apply Heap.heapProp_agree s.queue _ hheap
    intro m m' hm hm'
    unfold eLess
    rw [Heap.lget_append s.arena _ _ (hv m hm),
      Heap.lget_append s.arena _ _ (hv m' hm')]
  rw [createSegment_eq]
  obtain ⟨hq, hd, hi⟩ := shiftUpGo_eproj s.queue.length (pushState s d)
    s.queue.length
  obtain ⟨hwv, hwp, hwq, hwa, -⟩ := shiftUpGo_ewf s.queue.length
    (pushState s d) s.queue.length (by rw [hpq]; simp) hs1v hs1p
  refine ⟨rfl, hwv, hwp, ?_, ?_, ?_, ?_, ?_⟩
  · rw [hd, hpa, dataMap_append]
  · rw [hwa, hpa]
    simp
  · rw [hwq, hpq]
    simp
  · rw [eLess_congr hd, hq, hpq]
    have hpush := Heap.push_heap (eLess_trans (pushState s d).arena)
      (eLess_total (pushState s d).arena) s.queue s.arena.length hs1heap
    unfold Heap.shiftUp at hpush
    exact hpush
  · intro x
    rw [hq, hpq]
    have hmem := Heap.push_mem (eLess_total (pushState s d).arena)
      s.queue s.arena.length x
    unfold Heap.shiftUp at hmem
    exact hmem

theorem mutateFix_ewf (s : EState K V O N) (a : Nat)
    (d : SegmentData K V O N) (ha : a < s.arena.length)
    (hv : QValid s) (hp : QPos s)
    (hheap : Heap.heapProp (eLess s.arena) s.queue)
    (hsmall : s.queue.length ≤ NOT_QUEUED)
    (hqa : (lget s.arena a).queue_pos < s.queue.length)
    (hqb : lget s.queue ((lget s.arena a).queue_pos) = a) :
    QValid (EState.fix (mutState s a d) (lget s.arena a).queue_pos).1 ∧
    QPos (EState.fix (mutState s a d) (lget s.arena a).queue_pos).1 ∧
    (EState.fix (mutState s a d)
      (lget s.arena a).queue_pos).1.queue.length = s.queue.length ∧
    (EState.fix (mutState s a d)
      (lget s.arena a).queue_pos).1.arena.length = s.arena.length ∧
    dataMap (EState.fix (mutState s a d)
      (lget s.arena a).queue_pos).1.arena = (dataMap s.arena).set a d ∧
    Heap.heapProp
      (eLess (EState.fix (mutState s a d) (lget s.arena a).queue_pos).1.arena)
      (EState.fix (mutState s a d) (lget s.arena a).queue_pos).1.queue ∧
    (∀ x, x ∈ (EState.fix (mutState s a d)
      (lget s.arena a).queue_pos).1.queue ↔ x ∈ s.queue) := by
  have hmq : (mutState s a d).queue = s.queue := rfl
  have hma : (mutState s a d).arena
      = s.arena.set a { lget s.arena a with data := d } := rfl
  have harena1 : ∀ k, lget (mutState s a d).arena k =
      if k = a then { lget s.arena a with data := d }
      else lget s.arena k := by
    intro k
    rw [hma, lget_set]
    by_cases hk : k = a
    · rw [if_pos ⟨hk, hk ▸ ha⟩, if_pos hk]
    · rw [if_neg (fun hc => hk hc.1), if_neg hk]
  have hv1 : QValid (mutState s a d) := by
    intro j hj
    rw [hmq] at hj
    rw [hmq, hma]
    simp only [List.length_set]
    exact hv j hj
  have hp1 : QPos (mutState s a d) := by
    intro j hj
    rw [hmq] at hj
    rw [hmq, harena1]
    by_cases hk : lget s.queue j = a
    · rw [if_pos hk]
      show (lget s.arena a).queue_pos = j
      rw [← hk]
      exact hp j hj
    · rw [if_neg hk]
      exact hp j hj
  have hvalue : ∀ m, m < s.queue.length →
      m ≠ (lget s.arena a).queue_pos → lget s.queue m ≠ a := by
    intro m hm hmp hc
    apply hmp
    have h1 := hp m hm
    rw [hc] at h1
    omega
  have hagree : ∀ m m', m < s.queue.length → m' < s.queue.length →
      m ≠ (lget s.arena a).queue_pos → m' ≠ (lget s.arena a).queue_pos →
      eLess (mutState s a d).arena (lget s.queue m) (lget s.queue m')
      = eLess s.arena (lget s.queue m) (lget s.queue m') := by
    intro m m' hm hm' hmp hmp'
    unfold eLess
    rw [harena1, harena1, if_neg (hvalue m hm hmp),
      if_neg (hvalue m' hm' hmp')]
  have hpre : Heap.PreUp (eLess (mutState s a d).arena) s.queue
      (lget s.arena a).queue_pos :=
    Heap.preUp_of_agree (eLess_trans s.arena) s.queue
      ((lget s.arena a).queue_pos) hheap hagree
  have hpn : (lget s.arena a).queue_pos ≠ NOT_QUEUED := by omega
  have hfheap := Heap.fix_heap (eLess_trans (mutState s a d).arena)
    (eLess_total (mutState s a d).arena) s.queue
    ((lget s.arena a).queue_pos) hqa hpn hpre
  have hfmem := fun x => Heap.fix_mem (eLess_total (mutState s a d).arena)
    s.queue ((lget s.arena a).queue_pos) hqa x
  obtain ⟨hfq, hfd⟩ := fix_eproj (mutState s a d)
    ((lget s.arena a).queue_pos)
  obtain ⟨hwv, hwp, hwq, hwa⟩ := fix_ewf (mutState s a d)
    ((lget s.arena a).queue_pos) (by rw [hmq]; exact hqa) hv1 hp1
  refine ⟨hwv, hwp, by rw [hwq, hmq], by rw [hwa, hma]; simp, ?_, ?_, ?_⟩
  · rw [hfd, hma, dataMap_set]
  · rw [eLess_congr hfd, hfq, hmq]
    exact hfheap
  · intro x
    rw [hfq, hmq]
    exact hfmem x

end OrderedWf

end EngineWf


section BindingEvolution

variable {K : Type} {V : Type} {O : Type} {N : Type}
variable [Inhabited K] [Inhabited V] [Inhabited O] [Inhabited N]

theorem lget_append_left {β : Type} [Inhabited β] (xs ys : List β) (a : Nat)
    (h : a < xs.length) : lget (xs ++ ys) a = lget xs a := by
  simp [lget, List.getD_eq_getElem?_getD, List.getElem?_append, h]

/-- How the arena's bindings may evolve across (part of) a `KeyTable::set`
call installing `b`: an existing segment either keeps its binding, or its
old binding's span `contains` the new span and it is rebound to `b`. -/
def BindEvolves (b : Binding K V O)
    (ar0 ar1 : List (BoundSegment K V O N)) : Prop :=
  ar0.length ≤ ar1.length ∧
  ∀ a, a < ar0.length →
    (lget ar1 a).data.binding = (lget ar0 a).data.binding ∨
      ((lget ar0 a).data.binding.span.contains b.span = true ∧
        (lget ar1 a).data.binding = b)

theorem bindEvolves_refl (b : Binding K V O)
    (ar : List (BoundSegment K V O N)) : BindEvolves b ar ar :=
  ⟨le_refl _, fun _ _ => Or.inl rfl⟩

theorem bindEvolves_trans {b : Binding K V O}
    {ar0 ar1 ar2 : List (BoundSegment K V O N)}
    (h1 : BindEvolves b ar0 ar1) (h2 : BindEvolves b ar1 ar2) :
    BindEvolves b ar0 ar2 := by
  obtain ⟨hl1, h1⟩ := h1
  obtain ⟨hl2, h2⟩ := h2
  refine ⟨le_trans hl1 hl2, fun a ha => ?_⟩
  rcases h2 a (lt_of_lt_of_le ha hl1) with he | ⟨hc, he⟩
  · rw [he]
    exact h1 a ha
  · rcases h1 a ha with he1 | ⟨hc1, he1⟩
    · right
      rw [he1] at hc
      exact ⟨hc, he⟩
    · right
      exact ⟨hc1, he⟩

theorem bindEvolves_of_dataMap_extend {b : Binding K V O}
    {ar0 ar1 : List (BoundSegment K V O N)} (l : List (SegmentData K V O N))
    (h : dataMap ar1 = dataMap ar0 ++ l) : BindEvolves b ar0 ar1 := by
  have hlen : ar0.length ≤ ar1.length := by
    rw [← length_dataMap, ← length_dataMap ar1, h]
    simp
  refine ⟨hlen, fun a ha => Or.inl ?_⟩
  have hdat : (lget ar1 a).data = (lget ar0 a).data := by
    rw [data_lget, data_lget, h,
      lget_append_left _ _ a (by rw [length_dataMap]; exact ha)]
  rw [hdat]

theorem bindEvolves_of_dataMap_set {b : Binding K V O}
    {ar0 ar1 : List (BoundSegment K V O N)} {a : Nat}
    {d : SegmentData K V O N}
    (h : dataMap ar1 = (dataMap ar0).set a d)
    (hx : d.binding = (lget ar0 a).data.binding ∨
      ((lget ar0 a).data.binding.span.contains b.span = true ∧
        d.binding = b)) :
    BindEvolves b ar0 ar1 := by
  have hlen : ar0.length ≤ ar1.length := by
    rw [← length_dataMap, ← length_dataMap ar1, h]
    simp
  refine ⟨hlen, fun a' ha' => ?_⟩
  have hdat : (lget ar1 a').data = lget ((dataMap ar0).set a d) a' := by
    rw [data_lget, h]
  rw [lget_set] at hdat
  by_cases hcase : a' = a ∧ a < (dataMap ar0).length
  · rw [if_pos hcase] at hdat
    obtain ⟨rfl, -⟩ := hcase
    rcases hx with hx | ⟨hc, hx⟩
    · left
      rw [hdat, hx]
    · right
      exact ⟨hc, by rw [hdat, hx]⟩
  · rw [if_neg hcase] at hdat
    left
    rw [hdat, ← data_lget]

section OrderedEvolution

variable [LinearOrder K] [LinearOrder O]

theorem createSegment_dataMap (s : EState K V O N)
    (d : SegmentData K V O N) :
    dataMap (createSegment s d).1.arena = dataMap s.arena ++ [d] := by
  rw [createSegment_eq]
  obtain ⟨-, hd, -⟩ := shiftUpGo_eproj s.queue.length (pushState s d)
    s.queue.length
  rw [hd]
  show dataMap (s.arena ++ [{ queue_pos := s.queue.length, data := d }]) = _
  rw [dataMap_append]

theorem createSegment_arena_length (s : EState K V O N)
    (d : SegmentData K V O N) :
    (createSegment s d).1.arena.length = s.arena.length + 1 := by
  rw [← length_dataMap, createSegment_dataMap]
  rw [List.length_append, length_dataMap]
  rfl

theorem createSegment_data_at (s : EState K V O N) (d : SegmentData K V O N)
    (k : Nat) (hk : k < s.arena.length) :
    (lget (createSegment s d).1.arena k).data = (lget s.arena k).data := by
  rw [data_lget, createSegment_dataMap,
    lget_append_left _ _ k (by rw [length_dataMap]; exact hk), ← data_lget]

theorem mutFix_dataMap (s : EState K V O N) (a p : Nat)
    (d : SegmentData K V O N) :
    dataMap (EState.fix (mutState s a d) p).1.arena
      = (dataMap s.arena).set a d := by
  obtain ⟨-, hd⟩ := fix_eproj (mutState s a d) p
  rw [hd]
  show dataMap (s.arena.set a { lget s.arena a with data := d }) = _
  rw [dataMap_set]

theorem mutFix_arena_length (s : EState K V O N) (a p : Nat)
    (d : SegmentData K V O N) :
    (EState.fix (mutState s a d) p).1.arena.length = s.arena.length := by
  rw [← length_dataMap, mutFix_dataMap, List.length_set, length_dataMap]

theorem mutFix_data_at (s : EState K V O N) (a p : Nat)
    (d : SegmentData K V O N) (ha : a < s.arena.length) :
    (lget (EState.fix (mutState s a d) p).1.arena a).data = d := by
  rw [data_lget, mutFix_dataMap, lget_set,
    if_pos ⟨rfl, by rw [length_dataMap]; exact ha⟩]

theorem set_data_at (ar : List (BoundSegment K V O N)) (a : Nat)
    (x : BoundSegment K V O N) (ha : a < ar.length) :
    lget (ar.set a x) a = x := by
  rw [lget_set, if_pos ⟨rfl, ha⟩]

variable (sp : N → Span)

theorem drainNodes_bindEvolves (b : Binding K V O) (segs : List Nat) :
    ∀ (nodes : List N) (k : Nat) (st : EState K V O N),
      BindEvolves b st.arena (drainNodes sp segs nodes k st).arena := by
  intro nodes
  induction nodes with
  | nil => intro k st; exact bindEvolves_refl _ _
  | cons node rest ih =>
    intro k st
    unfold drainNodes
    dsimp only
    refine bindEvolves_trans ?_ (ih _ _)
    exact bindEvolves_of_dataMap_set (dataMap_set st.arena _ _) (Or.inl rfl)

end OrderedEvolution

end BindingEvolution


section SetEvolution

variable {K : Type} {V : Type} {O : Type} {N : Type}
variable [Inhabited K] [Inhabited V] [Inhabited O] [Inhabited N]

theorem lget_oob {β : Type} [Inhabited β] (l : List β) (i : Nat)
    (h : l.length ≤ i) : lget l i = default := by
  simp [lget, List.getD_eq_getElem?_getD, List.getElem?_eq_none h]

theorem contains_default (s : Span) :
    Span.contains (default : Span) s = false := by
  simp [Span.contains, default]

variable [LinearOrder K] [LinearOrder O]

/-- Like `bindEvolves_of_dataMap_set`, with the binding side-condition only
required when the overwritten index is live. -/
theorem bindEvolves_of_dataMap_set' {b : Binding K V O}
    {ar0 ar1 : List (BoundSegment K V O N)} {a : Nat}
    {d : SegmentData K V O N}
    (h : dataMap ar1 = (dataMap ar0).set a d)
    (hx : a < ar0.length →
      d.binding = (lget ar0 a).data.binding ∨
        ((lget ar0 a).data.binding.span.contains b.span = true ∧
          d.binding = b)) :
    BindEvolves b ar0 ar1 := by
  have hlen : ar0.length ≤ ar1.length := by
    rw [← length_dataMap, ← length_dataMap ar1, h]
    simp
  refine ⟨hlen, fun a' ha' => ?_⟩
  have hdat : (lget ar1 a').data = lget ((dataMap ar0).set a d) a' := by
    rw [data_lget, h]
  rw [lget_set] at hdat
  by_cases hcase : a' = a ∧ a < (dataMap ar0).length
  · rw [if_pos hcase] at hdat
    obtain ⟨rfl, hal⟩ := hcase
    rw [length_dataMap] at hal
    rcases hx hal with hx' | ⟨hc, hx'⟩
    · left
      rw [hdat, hx']
    · right
      exact ⟨hc, by rw [hdat, hx']⟩
  · rw [if_neg hcase] at hdat
    left
    rw [hdat, ← data_lget]

theorem setLoop_bindEvolves (sp : N → Span) (binding : Binding K V O)
    (bend : Nat) (fuel : Nat) :
    ∀ (segs : List Nat) (cur_idx sta : Nat) (st : EState K V O N),
      BindEvolves binding st.arena
        (setLoop sp binding bend fuel segs cur_idx sta st).2.arena := by
  induction fuel with
  | zero => intro segs cur_idx sta st; exact bindEvolves_refl _ _
  | succ fuel ih =>
    intro segs cur_idx sta st
    unfold setLoop
    split
    · dsimp only
      split
      · exact bindEvolves_trans
          (bindEvolves_of_dataMap_extend _ (createSegment_dataMap st _))
          (ih _ _ _ _)
      · split
        · rename_i hcond hgap hcont
          have ha : lget segs cur_idx < st.arena.length := by
            by_contra hoob
            rw [lget_oob st.arena (lget segs cur_idx) (le_of_not_lt hoob)]
              at hcont
            have hdefault :
                ((default : BoundSegment K V O N)).data.binding.span
                  = (default : Span) := rfl
            rw [hdefault, contains_default] at hcont
            cases hcont
          by_cases hsb :
              sta > (lget st.arena (lget segs cur_idx)).sta
          · rw [if_pos hsb]
            dsimp only
            split
            · refine bindEvolves_trans ?_ (ih _ _ _ _)
              refine bindEvolves_trans ?step
                (bindEvolves_of_dataMap_set' (mutFix_dataMap _ _ _ _)
                  (fun hlive => Or.inr ⟨?hc, rfl⟩))
              case hc =>
                rw [createSegment_data_at _ _ _
                    (by rw [mutState_arena_length, createSegment_arena_length,
                        mutFix_arena_length]
                        omega),
                  mutState_data_at _ _ _
                    (by rw [createSegment_arena_length, mutFix_arena_length]
                        omega)]
                dsimp only
                rw [createSegment_data_at _ _ _
                    (by rw [mutFix_arena_length]; omega),
                  mutFix_data_at _ _ _ _ ha]
                exact hcont
              case step =>
                refine bindEvolves_trans ?_
                  (bindEvolves_of_dataMap_extend _
                    (createSegment_dataMap _ _))
                refine bindEvolves_trans ?_
                  (bindEvolves_of_dataMap_set' (mutState_dataMap _ _ _)
                    (fun hlive2 => Or.inl rfl))
                refine bindEvolves_trans ?_
                  (bindEvolves_of_dataMap_extend _
                    (createSegment_dataMap _ _))
                exact bindEvolves_of_dataMap_set' (mutFix_dataMap _ _ _ _)
                  (fun hlive3 => Or.inl rfl)
            · refine bindEvolves_trans ?_ (ih _ _ _ _)
              refine bindEvolves_trans ?step2
                (bindEvolves_of_dataMap_set' (mutFix_dataMap _ _ _ _)
                  (fun hlive => Or.inr ⟨?hc2, rfl⟩))
              case hc2 =>
                rw [createSegment_data_at _ _ _
                    (by rw [mutFix_arena_length]; omega),
                  mutFix_data_at _ _ _ _ ha]
                exact hcont
              case step2 =>
                refine bindEvolves_trans ?_
                  (bindEvolves_of_dataMap_extend _
                    (createSegment_dataMap _ _))
                exact bindEvolves_of_dataMap_set' (mutFix_dataMap _ _ _ _)
                  (fun hlive3 => Or.inl rfl)
          · rw [if_neg hsb]
            dsimp only
            split
            · refine bindEvolves_trans ?_ (ih _ _ _ _)
              refine bindEvolves_trans ?step3
                (bindEvolves_of_dataMap_set' (mutFix_dataMap _ _ _ _)
                  (fun hlive => Or.inr ⟨?hc3, rfl⟩))
              case hc3 =>
                rw [createSegment_data_at _ _ _
                    (by rw [mutState_arena_length]; omega),
                  mutState_data_at _ _ _ ha]
                exact hcont
              case step3 =>
                refine bindEvolves_trans ?_
                  (bindEvolves_of_dataMap_extend _
                    (createSegment_dataMap _ _))
                exact bindEvolves_of_dataMap_set' (mutState_dataMap _ _ _)
                  (fun hlive2 => Or.inl rfl)
            · refine bindEvolves_trans ?_ (ih _ _ _ _)
              exact bindEvolves_of_dataMap_set' (mutFix_dataMap _ _ _ _)
                (fun hlive => Or.inr ⟨hcont, rfl⟩)
        · exact ih _ _ _ _
    · split
      · exact bindEvolves_of_dataMap_extend _ (createSegment_dataMap st _)
      · exact bindEvolves_refl _ _

theorem set_bindEvolves (sp : N → Span) (kt : KeyTable K V O N)
    (binding : Binding K V O) (st : EState K V O N) (fuel : Nat) :
    BindEvolves binding st.arena
      (KeyTable.set sp kt binding st fuel).2.arena := by
  unfold KeyTable.set
  dsimp only
  split <;> split <;> split <;> dsimp only <;>
    first
      | exact bindEvolves_trans
          (bindEvolves_of_dataMap_extend _ (createSegment_dataMap st _))
          (drainNodes_bindEvolves sp binding _ _ _ _)
      | exact bindEvolves_trans
          (setLoop_bindEvolves sp binding _ fuel _ _ _ st)
          (drainNodes_bindEvolves sp binding _ _ _ _)
      | exact bindEvolves_of_dataMap_extend _ (createSegment_dataMap st _)
      | exact setLoop_bindEvolves sp binding _ fuel _ _ _ st

end SetEvolution

/-! ### Claim C1 -/

/-- The node-span accessor for the concrete engine runs below (the node
type is a bare id; no nodes are ever added in these runs). -/
def noSp : Nat → Span := fun _ => default

/-- First concrete binding: key 0, value 1, order 0, span `0:0+10`. -/
def c1b1 : Binding Nat Nat Int :=
  { key := 0, val := 1, ord := 0, span := { src := 0, off := 0, len := 10 } }

/-- A second binding over the *same* span with a different value. -/
def c1b2 : Binding Nat Nat Int :=
  { key := 0, val := 2, ord := 0, span := { src := 0, off := 0, len := 10 } }

/-- The key table and engine state after installing `c1b1` on empty. -/
def c1s1 : KeyTable Nat Nat Int Nat × EState Nat Nat Int Nat :=
  KeyTable.set noSp default c1b1 default 2

/-- The key table and engine state after then installing `c1b2` over the
same span. -/
def c1s2 : KeyTable Nat Nat Int Nat × EState Nat Nat Int Nat :=
  KeyTable.set noSp c1s1.1 c1b2 c1s1.2 2

/-- C1 (counterexample): installing a second binding whose span *equals*
the segment's current binding span overrides the first binding — the first
binding does not stick: after `c1b1` the single segment's binding is
`c1b1`, and after re-binding the same span with `c1b2` it is `c1b2` (the
value changed from 1 to 2), because `Span::contains` is non-strict. -/
theorem c1_counterexample :
    c1b1.span = c1b2.span ∧
    (lget c1s1.2.arena 0).data.binding = c1b1 ∧
    (lget c1s2.2.arena 0).data.binding = c1b2 ∧
    c1b2.val ≠ c1b1.val :=
  ⟨rfl, by decide, by decide, by decide⟩

/-- C1 (amended): a non-empty span contains itself (containment is
non-strict), and during any `KeyTable::set` installing a binding `b`, an
existing segment is rebound only when its old binding's span non-strictly
`contains` `b`'s span — in which case it is rebound to `b` itself.
Consequently, a second binding over a span equal to the segment's current
binding span *does* override it: the new binding wins, not the first. -/
theorem c1_amended :
    (∀ s : Span, 0 < s.len → s.contains s = true) ∧
    (∀ (K V O N : Type) (iK : Inhabited K) (iV : Inhabited V)
      (iO : Inhabited O) (iN : Inhabited N) (lK : LinearOrder K)
      (lO : LinearOrder O) (sp : N → Span) (kt : KeyTable K V O N)
      (b : Binding K V O) (st : EState K V O N) (fuel a : Nat),
      a < st.arena.length →
      (lget (KeyTable.set sp kt b st fuel).2.arena a).data.binding
          = (lget st.arena a).data.binding ∨
        ((lget st.arena a).data.binding.span.contains b.span = true ∧
          (lget (KeyTable.set sp kt b st fuel).2.arena a).data.binding
            = b)) := by
  constructor
  · intro s hs
    simp only [Span.contains, Bool.and_eq_true, beq_self_eq_true,
      decide_eq_true_eq, true_and]
    omega
  · intro K V O N iK iV iO iN lK lO sp kt b st fuel a ha
    exact (set_bindEvolves sp kt b st fuel).2 a ha

/-- C1 (witness): the amended statement applied to the concrete one-segment
state `c1s1` and the equal-span binding `c1b2`. -/
theorem c1_witness :
    (0 < c1s1.2.arena.length) ∧
    ((lget (KeyTable.set noSp c1s1.1 c1b2 c1s1.2 2).2.arena 0).data.binding
        = (lget c1s1.2.arena 0).data.binding ∨
      ((lget c1s1.2.arena 0).data.binding.span.contains c1b2.span = true ∧
        (lget (KeyTable.set noSp c1s1.1 c1b2 c1s1.2 2).2.arena
          0).data.binding = c1b2)) :=
  ⟨by decide, c1_amended.2 Nat Nat Int Nat inferInstance inferInstance
    inferInstance inferInstance inferInstance inferInstance noSp c1s1.1 c1b2
    c1s1.2 2 0 (by decide)⟩



/-! ### Claim C2: helper lemmas -/

section SortedSplit

theorem take_partitionPoint {β : Type} (p : β → Bool) (l : List β) :
    l.take (partitionPoint p l) = l.takeWhile p :=
  (List.prefix_iff_eq_take.mp (l.takeWhile_prefix p)).symm

theorem drop_partitionPoint {β : Type} (p : β → Bool) (l : List β) :
    l.drop (partitionPoint p l) = l.dropWhile p := by
  have h := List.takeWhile_append_dropWhile p l
  have h2 := List.drop_left (l.takeWhile p) (l.dropWhile p)
  rw [h] at h2
  exact h2

theorem takeWhile_filter_of_sorted {β : Type} (f : β → Nat) (c : Nat) :
    ∀ (l : List β), l.Pairwise (fun x y => f x ≤ f y) →
      l.takeWhile (fun x => f x < c) = l.filter (fun x => f x < c) := by
  intro l
  induction l with
  | nil => intro _; rfl
  | cons x xs ih =>
    intro hs
    rw [List.pairwise_cons] at hs
    by_cases hx : f x < c
    · simp [List.takeWhile_cons, List.filter_cons, hx, ih hs.2]
    · simp only [List.takeWhile_cons, List.filter_cons, hx]
      simp only [decide_eq_true_eq, hx, if_false]
      symm
      rw [List.filter_eq_nil_iff]
      intro y hy
      simp only [decide_eq_true_eq]
      have := hs.1 y hy
      omega

theorem dropWhile_filter_of_sorted {β : Type} (f : β → Nat) (c : Nat) :
    ∀ (l : List β), l.Pairwise (fun x y => f x ≤ f y) →
      l.dropWhile (fun x => f x < c) = l.filter (fun x => c ≤ f x) := by
  intro l
  induction l with
  | nil => intro _; rfl
  | cons x xs ih =>
    intro hs
    rw [List.pairwise_cons] at hs
    by_cases hx : f x < c
    · have hnotle : ¬ c ≤ f x := by omega
      simp [List.dropWhile_cons, List.filter_cons, hx, hnotle, ih hs.2]
    · have hle : c ≤ f x := by omega
      have hall : List.filter (fun y => decide (c ≤ f y)) xs = xs :=
        List.filter_eq_self.mpr (fun y hy => by
          simp only [decide_eq_true_eq]
          have := hs.1 y hy
          omega)
      simp [List.dropWhile_cons, List.filter_cons, hx, hle, hall]

end SortedSplit

section C2Helpers

variable {K : Type} {V : Type} {O : Type} {N : Type}
variable [Inhabited K] [Inhabited V] [Inhabited O] [Inhabited N]

theorem mutState_queue (s : EState K V O N) (a : Nat)
    (d : SegmentData K V O N) : (mutState s a d).queue = s.queue := rfl

theorem qpos_of_mem {s : EState K V O N} (hp : QPos s) {x : Nat}
    (hx : x ∈ s.queue) :
    (lget s.arena x).queue_pos < s.queue.length ∧
    lget s.queue ((lget s.arena x).queue_pos) = x := by
  obtain ⟨j, hj, hval⟩ := List.mem_iff_getElem.mp hx
  have hlg : lget s.queue j = x := by rw [lget_eq_getElem s.queue hj, hval]
  have hpj := hp j hj
  rw [hlg] at hpj
  rw [hpj]
  exact ⟨hj, hlg⟩

end C2Helpers


section C2Steps

variable {K : Type} {V : Type} {O : Type} {N : Type}
variable [Inhabited K] [Inhabited V] [Inhabited O] [Inhabited N]

theorem mutState_wf (s : EState K V O N) (a : Nat) (d : SegmentData K V O N)
    (hv : QValid s) (hp : QPos s) :
    QValid (mutState s a d) ∧ QPos (mutState s a d) := by
  have harena : ∀ k, lget (mutState s a d).arena k =
      if k = a ∧ a < s.arena.length then { lget s.arena a with data := d }
      else lget s.arena k := by
    intro k
    show lget (s.arena.set a { lget s.arena a with data := d }) k = _
    rw [lget_set]
  constructor
  · intro j hj
    show lget s.queue j < (s.arena.set a _).length
    simp only [List.length_set]
    exact hv j hj
  · intro j hj
    have hval := harena (lget s.queue j)
    show (lget (mutState s a d).arena (lget s.queue j)).queue_pos = j
    by_cases hk : lget s.queue j = a ∧ a < s.arena.length
    · rw [if_pos hk] at hval
      rw [hval]
      show (lget s.arena a).queue_pos = j
      rw [← hk.1]
      exact hp j hj
    · rw [if_neg hk] at hval
      rw [hval]
      exact hp j hj

variable [LinearOrder K] [LinearOrder O]

theorem mutFix_data_at_ne (s : EState K V O N) (a p : Nat)
    (d : SegmentData K V O N) (k : Nat) (hk : k ≠ a) :
    (lget (EState.fix (mutState s a d) p).1.arena k).data
      = (lget s.arena k).data := by
  rw [data_lget, mutFix_dataMap, lget_set, if_neg (fun hc => hk hc.1),
    ← data_lget]

theorem mutState_data_at_ne (s : EState K V O N) (a : Nat)
    (d : SegmentData K V O N) (k : Nat) (hk : k ≠ a) :
    (lget (mutState s a d).arena k).data = (lget s.arena k).data := by
  rw [data_lget, mutState_dataMap, lget_set, if_neg (fun hc => hk hc.1),
    ← data_lget]

theorem createSegment_data_at_last (s : EState K V O N)
    (d : SegmentData K V O N) :
    (lget (createSegment s d).1.arena s.arena.length).data = d := by
  rw [data_lget, createSegment_dataMap]
  have hl : (dataMap s.arena).length = s.arena.length := length_dataMap s.arena
  rw [← hl, Bit.lget_append_last]

theorem eLess_mutState_key_eq (s : EState K V O N) (a : Nat)
    (d : SegmentData K V O N) (h : eKey d = eKey (lget s.arena a).data) :
    eLess (mutState s a d).arena = eLess s.arena := by
  have hk : ∀ k, eKey (lget (mutState s a d).arena k).data
      = eKey (lget s.arena k).data := by
    intro k
    have hdat : (lget (mutState s a d).arena k).data =
        if k = a ∧ a < (dataMap s.arena).length then d
        else (lget s.arena k).data := by
      rw [data_lget, mutState_dataMap, lget_set]
      by_cases hc : k = a ∧ a < (dataMap s.arena).length
      · rw [if_pos hc, if_pos hc]
      · rw [if_neg hc, if_neg hc, ← data_lget]
    rw [hdat]
    by_cases hc : k = a ∧ a < (dataMap s.arena).length
    · rw [if_pos hc, h, hc.1]
    · rw [if_neg hc]
  funext i j
  unfold eLess
  rw [hk i, hk j]

theorem createSegment_queue_eq (s : EState K V O N)
    (d : SegmentData K V O N) (t : EState K V O N)
    (hq : t.queue = s.queue) (ha : t.arena = s.arena) :
    createSegment t d = createSegment s d := by
  cases t
  cases s
  cases hq
  cases ha
  rfl

end C2Steps


section C2Main

variable {K : Type} {V : Type} {O : Type} {N : Type}
variable [Inhabited K] [Inhabited V] [Inhabited O] [Inhabited N]
variable [LinearOrder K] [LinearOrder O]

/-- The data written into the current segment by the `split_before` branch
(nodes before `sta` drained, range shrunk to `[sta, cur_end)`). -/
def splitD1 (sp : N → Span) (b : Binding K V O) (st : EState K V O N)
    (a : Nat) : SegmentData K V O N :=
  { (lget st.arena a).data with
      nodes := (lget st.arena a).data.nodes.drop
        (partitionPoint (fun n => (sp n).off < b.span.off)
          (lget st.arena a).data.nodes)
      range := { off := b.span.off
                 len := (lget st.arena a).«end» - b.span.off } }

/-- The engine state after the `split_before` mutation and `queue.fix`. -/
def splitS1 (sp : N → Span) (b : Binding K V O) (st : EState K V O N)
    (a : Nat) : EState K V O N :=
  (EState.fix (mutState st a (splitD1 sp b st a))
    (lget st.arena a).queue_pos).1

/-- The prefix segment created by `split_before` (old binding, range
`[cur_sta, sta)`, the drained nodes). -/
def splitDP (sp : N → Span) (b : Binding K V O) (st : EState K V O N)
    (a : Nat) : SegmentData K V O N :=
  { binding := (lget st.arena a).data.binding
    range := { off := (lget st.arena a).sta
               len := b.span.off - (lget st.arena a).sta }
    nodes := (lget st.arena a).data.nodes.take
      (partitionPoint (fun n => (sp n).off < b.span.off)
        (lget st.arena a).data.nodes) }

/-- State and arena index after `create_segment` of the prefix. -/
def splitCSa (sp : N → Span) (b : Binding K V O) (st : EState K V O N)
    (a : Nat) : EState K V O N × Nat :=
  createSegment (splitS1 sp b st a) (splitDP sp b st a)

/-- The current segment's data after draining the nodes past `end`
(`split_after`). -/
def splitXB (sp : N → Span) (b : Binding K V O) (st : EState K V O N)
    (a : Nat) : SegmentData K V O N :=
  { (lget (splitCSa sp b st a).1.arena a).data with
      nodes := (lget (splitCSa sp b st a).1.arena a).data.nodes.take
        (partitionPoint (fun n => (sp n).off < b.span.off + b.span.len)
          (lget (splitCSa sp b st a).1.arena a).data.nodes) }

/-- The suffix segment created by `split_after` (old binding, range
`[end, cur_end)`, the drained nodes). -/
def splitD2 (sp : N → Span) (b : Binding K V O) (st : EState K V O N)
    (a : Nat) : SegmentData K V O N :=
  { binding := (lget (splitCSa sp b st a).1.arena a).data.binding
    range := { off := b.span.off + b.span.len
               len := (lget st.arena a).«end» - (b.span.off + b.span.len) }
    nodes := (lget (splitCSa sp b st a).1.arena a).data.nodes.drop
      (partitionPoint (fun n => (sp n).off < b.span.off + b.span.len)
        (lget (splitCSa sp b st a).1.arena a).data.nodes) }

/-- State and arena index after `create_segment` of the suffix. -/
def splitCSb (sp : N → Span) (b : Binding K V O) (st : EState K V O N)
    (a : Nat) : EState K V O N × Nat :=
  createSegment
    (mutState (splitCSa sp b st a).1 a (splitXB sp b st a))
    (splitD2 sp b st a)

/-- The rebinding of the shrunken middle segment to the new binding. -/
def splitD3 (sp : N → Span) (b : Binding K V O) (st : EState K V O N)
    (a : Nat) : SegmentData K V O N :=
  { (lget (splitCSb sp b st a).1.arena a).data with
      range := { off := b.span.off
                 len := b.span.off + b.span.len - b.span.off }
      binding := b }

/-- The segment vector and state produced by one both-splits iteration of
`setLoop` (the `split_before` plus `split_after` branch bodies). -/
def splitResult (sp : N → Span) (b : Binding K V O) (segs : List Nat)
    (cur_idx : Nat) (st : EState K V O N) (a : Nat) :
    List Nat × EState K V O N :=
  ((segs.insertIdx cur_idx (splitCSa sp b st a).2).insertIdx
      (cur_idx + 1 + 1) (splitCSb sp b st a).2,
    (EState.fix
      (mutState (splitCSb sp b st a).1 a (splitD3 sp b st a))
      (lget (splitCSb sp b st a).1.arena a).queue_pos).1)

theorem setLoop_exit (sp : N → Span) (b : Binding K V O)
    (bend fuel : Nat) (segs : List Nat) (cur_idx sta : Nat)
    (st : EState K V O N) (h : bend ≤ sta) :
    setLoop sp b bend fuel segs cur_idx sta st = (segs, st) := by
  cases fuel with
  | zero => rfl
  | succ fuel =>
    unfold setLoop
    rw [if_neg (fun hc => absurd hc.2 (by omega)), if_neg (by omega)]

theorem setLoop_split_eq (sp : N → Span) (b : Binding K V O)
    (segs : List Nat) (cur_idx : Nat) (st : EState K V O N) (a : Nat)
    (hidx : cur_idx < segs.length)
    (hseg : lget segs cur_idx = a)
    (hsta : (lget st.arena a).sta < b.span.off)
    (hend : b.span.off + b.span.len < (lget st.arena a).«end»)
    (hlen : 0 < b.span.len)
    (hcont : (lget st.arena a).data.binding.span.contains b.span = true) :
    setLoop sp b (b.span.off + b.span.len) 2 segs cur_idx b.span.off st
      = splitResult sp b segs cur_idx st a := by
  unfold setLoop
  rw [if_pos (show cur_idx < segs.length ∧
    b.span.off < b.span.off + b.span.len from ⟨hidx, by omega⟩)]
  dsimp only
  rw [hseg]
  rw [if_neg (show ¬ (lget st.arena a).sta > b.span.off by omega)]
  rw [if_pos hcont]
  rw [if_pos (show b.span.off > (lget st.arena a).sta by omega)]
  dsimp only
  rw [if_pos hend]
  rw [setLoop_exit sp b _ _ _ _ _ _ (by omega)]
  rfl

theorem takeNodes_filter (sp : N → Span) (c : Nat) (l : List N)
    (hs : l.Pairwise (fun x y => (sp x).off ≤ (sp y).off)) :
    l.take (partitionPoint (fun n => (sp n).off < c) l)
      = l.filter (fun n => (sp n).off < c) := by
  rw [take_partitionPoint]
  exact takeWhile_filter_of_sorted (fun n => (sp n).off) c l hs

theorem dropNodes_filter (sp : N → Span) (c : Nat) (l : List N)
    (hs : l.Pairwise (fun x y => (sp x).off ≤ (sp y).off)) :
    l.drop (partitionPoint (fun n => (sp n).off < c) l)
      = l.filter (fun n => c ≤ (sp n).off) := by
  rw [drop_partitionPoint]
  exact dropWhile_filter_of_sorted (fun n => (sp n).off) c l hs

theorem createSegment_data_at_last' (s : EState K V O N)
    (d : SegmentData K V O N) (k : Nat) (hk : k = s.arena.length) :
    (lget (createSegment s d).1.arena k).data = d := by
  rw [hk]
  exact createSegment_data_at_last s d

set_option maxHeartbeats 1600000 in
theorem splitResult_spec (sp : N → Span) (b : Binding K V O)
    (segs : List Nat) (cur_idx : Nat) (st : EState K V O N) (a : Nat)
    (ha : a < st.arena.length)
    (hsta : (lget st.arena a).sta < b.span.off)
    (hend : b.span.off + b.span.len < (lget st.arena a).«end»)
    (hv : QValid st) (hq : QPos st)
    (hheap : Heap.heapProp (eLess st.arena) st.queue)
    (hsmall : st.queue.length + 2 ≤ NOT_QUEUED)
    (hmem : a ∈ st.queue)
    (hsort : (lget st.arena a).data.nodes.Pairwise
      (fun x y => (sp x).off ≤ (sp y).off)) :
    (splitResult sp b segs cur_idx st a).1
        = (segs.insertIdx cur_idx st.arena.length).insertIdx (cur_idx + 2)
            (st.arena.length + 1) ∧
    (lget (splitResult sp b segs cur_idx st a).2.arena st.arena.length).data
        = { binding := (lget st.arena a).data.binding
            range := { off := (lget st.arena a).sta
                       len := b.span.off - (lget st.arena a).sta }
            nodes := (lget st.arena a).data.nodes.filter
              (fun n => (sp n).off < b.span.off) } ∧
    (lget (splitResult sp b segs cur_idx st a).2.arena a).data
        = { binding := b
            range := { off := b.span.off, len := b.span.len }
            nodes := (lget st.arena a).data.nodes.filter
              (fun n => b.span.off ≤ (sp n).off ∧
                (sp n).off < b.span.off + b.span.len) } ∧
    (lget (splitResult sp b segs cur_idx st a).2.arena
        (st.arena.length + 1)).data
        = { binding := (lget st.arena a).data.binding
            range := { off := b.span.off + b.span.len
                       len := (lget st.arena a).«end»
                         - (b.span.off + b.span.len) }
            nodes := (lget st.arena a).data.nodes.filter
              (fun n => b.span.off + b.span.len ≤ (sp n).off) } ∧
    QValid (splitResult sp b segs cur_idx st a).2 ∧
    QPos (splitResult sp b segs cur_idx st a).2 ∧
    Heap.heapProp (eLess (splitResult sp b segs cur_idx st a).2.arena)
      (splitResult sp b segs cur_idx st a).2.queue ∧
    (splitResult sp b segs cur_idx st a).2.queue.length
        = st.queue.length + 2 ∧
    (splitResult sp b segs cur_idx st a).2.arena.length
        = st.arena.length + 2 := by
  obtain ⟨hqa0, hqb0⟩ := qpos_of_mem hq hmem
  obtain ⟨hv1, hp1, hql1, hal1, hdm1, hheap1, hmem1⟩ :=
    mutateFix_ewf st a (splitD1 sp b st a) ha hv hq hheap (by omega)
      hqa0 hqb0
  have hv1' : QValid (splitS1 sp b st a) := hv1
  have hp1' : QPos (splitS1 sp b st a) := hp1
  have hql1' : (splitS1 sp b st a).queue.length = st.queue.length := hql1
  have hal1' : (splitS1 sp b st a).arena.length = st.arena.length := hal1
  have hheap1' : Heap.heapProp (eLess (splitS1 sp b st a).arena)
      (splitS1 sp b st a).queue := hheap1
  have hmem1' : ∀ x, x ∈ (splitS1 sp b st a).queue ↔ x ∈ st.queue := hmem1
  obtain ⟨hcs2a, hv2, hp2, hdm2, hal2, hql2, hheap2, hmem2⟩ :=
    createSegment_ewf (splitS1 sp b st a) (splitDP sp b st a) hv1' hp1'
      hheap1'
  have hcs2a' : (splitCSa sp b st a).2 = (splitS1 sp b st a).arena.length :=
    hcs2a
  have hv2' : QValid (splitCSa sp b st a).1 := hv2
  have hp2' : QPos (splitCSa sp b st a).1 := hp2
  have hal2' : (splitCSa sp b st a).1.arena.length
      = (splitS1 sp b st a).arena.length + 1 := hal2
  have hql2' : (splitCSa sp b st a).1.queue.length
      = (splitS1 sp b st a).queue.length + 1 := hql2
  have hheap2' : Heap.heapProp (eLess (splitCSa sp b st a).1.arena)
      (splitCSa sp b st a).1.queue := hheap2
  have hmem2' : ∀ x, x ∈ (splitCSa sp b st a).1.queue ↔
      x ∈ (splitS1 sp b st a).queue ∨
        x = (splitS1 sp b st a).arena.length := hmem2
  obtain ⟨hvm, hpm⟩ := mutState_wf (splitCSa sp b st a).1 a
    (splitXB sp b st a) hv2' hp2'
  have hheapm : Heap.heapProp
      (eLess (mutState (splitCSa sp b st a).1 a (splitXB sp b st a)).arena)
      (mutState (splitCSa sp b st a).1 a (splitXB sp b st a)).queue := by
    rw [eLess_mutState_key_eq (splitCSa sp b st a).1 a (splitXB sp b st a)
      rfl, mutState_queue]
    exact hheap2'
  obtain ⟨hcsb2, hv3, hp3, hdm3, hal3, hql3, hheap3, hmem3⟩ :=
    createSegment_ewf
      (mutState (splitCSa sp b st a).1 a (splitXB sp b st a))
      (splitD2 sp b st a) hvm hpm hheapm
  have hcsb2' : (splitCSb sp b st a).2
      = (mutState (splitCSa sp b st a).1 a (splitXB sp b st a)).arena.length
    := hcsb2
  have hv3' : QValid (splitCSb sp b st a).1 := hv3
  have hp3' : QPos (splitCSb sp b st a).1 := hp3
  have hal3' : (splitCSb sp b st a).1.arena.length
      = (mutState (splitCSa sp b st a).1 a
          (splitXB sp b st a)).arena.length + 1 := hal3
  have hql3' : (splitCSb sp b st a).1.queue.length
      = (mutState (splitCSa sp b st a).1 a
          (splitXB sp b st a)).queue.length + 1 := hql3
  have hheap3' : Heap.heapProp (eLess (splitCSb sp b st a).1.arena)
      (splitCSb sp b st a).1.queue := hheap3
  have hmem3' : ∀ x, x ∈ (splitCSb sp b st a).1.queue ↔
      x ∈ (mutState (splitCSa sp b st a).1 a (splitXB sp b st a)).queue ∨
        x = (mutState (splitCSa sp b st a).1 a
          (splitXB sp b st a)).arena.length := hmem3
  have halm : (mutState (splitCSa sp b st a).1 a
      (splitXB sp b st a)).arena.length = st.arena.length + 1 := by
    rw [mutState_arena_length, hal2', hal1']
  have hqlm : (mutState (splitCSa sp b st a).1 a
      (splitXB sp b st a)).queue.length = st.queue.length + 1 := by
    rw [mutState_queue, hql2', hql1']
  have halb : (splitCSb sp b st a).1.arena.length = st.arena.length + 2 := by
    rw [hal3', halm]
  have hqlb : (splitCSb sp b st a).1.queue.length = st.queue.length + 2 := by
    rw [hql3', hqlm]
  have hmemb : a ∈ (splitCSb sp b st a).1.queue := by
    refine (hmem3' a).mpr (Or.inl ?_)
    show a ∈ (splitCSa sp b st a).1.queue
    exact (hmem2' a).mpr (Or.inl ((hmem1' a).mpr hmem))
  obtain ⟨hqa3, hqb3⟩ := qpos_of_mem hp3' hmemb
  have ha3 : a < (splitCSb sp b st a).1.arena.length := by omega
  obtain ⟨hv4, hp4, hql4, hal4, hdm4, hheap4, hmem4⟩ :=
    mutateFix_ewf (splitCSb sp b st a).1 a (splitD3 sp b st a) ha3 hv3'
      hp3' hheap3' (by omega) hqa3 hqb3
  have hs1a : (lget (splitS1 sp b st a).arena a).data = splitD1 sp b st a := by
    show (lget (EState.fix (mutState st a (splitD1 sp b st a))
      (lget st.arena a).queue_pos).1.arena a).data = _
    exact mutFix_data_at st a _ (splitD1 sp b st a) ha
  have hcsa_a : (lget (splitCSa sp b st a).1.arena a).data
      = splitD1 sp b st a := by
    show (lget (createSegment (splitS1 sp b st a)
      (splitDP sp b st a)).1.arena a).data = _
    rw [createSegment_data_at (splitS1 sp b st a) (splitDP sp b st a) a
      (by omega), hs1a]
  have hcsb_a : (lget (splitCSb sp b st a).1.arena a).data
      = splitXB sp b st a := by
    show (lget (createSegment
      (mutState (splitCSa sp b st a).1 a (splitXB sp b st a))
      (splitD2 sp b st a)).1.arena a).data = _
    rw [createSegment_data_at
      (mutState (splitCSa sp b st a).1 a (splitXB sp b st a))
      (splitD2 sp b st a) a
      (by rw [mutState_arena_length]; omega)]
    exact mutState_data_at (splitCSa sp b st a).1 a (splitXB sp b st a)
      (by omega)
  have hsort1 : ((lget st.arena a).data.nodes.drop (partitionPoint
      (fun n => (sp n).off < b.span.off)
      (lget st.arena a).data.nodes)).Pairwise
      (fun x y => (sp x).off ≤ (sp y).off) := hsort.drop
  refine ⟨?_, ?_, ?_, ?_, hv4, hp4, hheap4, ?_, ?_⟩
  · show (segs.insertIdx cur_idx (splitCSa sp b st a).2).insertIdx
        (cur_idx + 1 + 1) (splitCSb sp b st a).2
      = (segs.insertIdx cur_idx st.arena.length).insertIdx (cur_idx + 2)
          (st.arena.length + 1)
    rw [hcs2a', hal1', hcsb2', halm]
  · show (lget (EState.fix
        (mutState (splitCSb sp b st a).1 a (splitD3 sp b st a))
        (lget (splitCSb sp b st a).1.arena a).queue_pos).1.arena
          st.arena.length).data = _
    rw [mutFix_data_at_ne (splitCSb sp b st a).1 a _ (splitD3 sp b st a)
      st.arena.length (by omega)]
    show (lget (createSegment
        (mutState (splitCSa sp b st a).1 a (splitXB sp b st a))
        (splitD2 sp b st a)).1.arena st.arena.length).data = _
    rw [createSegment_data_at
      (mutState (splitCSa sp b st a).1 a (splitXB sp b st a))
      (splitD2 sp b st a) st.arena.length
      (by rw [mutState_arena_length]; omega)]
    rw [mutState_data_at_ne (splitCSa sp b st a).1 a (splitXB sp b st a)
      st.arena.length (by omega)]
    show (lget (createSegment (splitS1 sp b st a)
      (splitDP sp b st a)).1.arena st.arena.length).data = _
    rw [createSegment_data_at_last' (splitS1 sp b st a) (splitDP sp b st a)
      st.arena.length hal1'.symm]
    unfold splitDP
    rw [takeNodes_filter sp b.span.off (lget st.arena a).data.nodes hsort]
  · show (lget (EState.fix
        (mutState (splitCSb sp b st a).1 a (splitD3 sp b st a))
        (lget (splitCSb sp b st a).1.arena a).queue_pos).1.arena a).data = _
    rw [mutFix_data_at (splitCSb sp b st a).1 a _ (splitD3 sp b st a) ha3]
    unfold splitD3
    rw [hcsb_a]
    unfold splitXB
    rw [hcsa_a]
    unfold splitD1
    simp only [SegmentData.mk.injEq]
    refine ⟨trivial, ?_, ?_⟩
    · congr 1
      omega
    · rw [takeNodes_filter sp (b.span.off + b.span.len) _ hsort1]
      rw [dropNodes_filter sp b.span.off (lget st.arena a).data.nodes hsort]
      rw [List.filter_filter]
      refine List.filter_congr (fun n hn => ?_)
      by_cases h1 : (sp n).off < b.span.off + b.span.len <;>
        by_cases h2 : b.span.off ≤ (sp n).off <;>
          simp [h1, h2]
  · show (lget (EState.fix
        (mutState (splitCSb sp b st a).1 a (splitD3 sp b st a))
        (lget (splitCSb sp b st a).1.arena a).queue_pos).1.arena
          (st.arena.length + 1)).data = _
    rw [mutFix_data_at_ne (splitCSb sp b st a).1 a _ (splitD3 sp b st a)
      (st.arena.length + 1) (by omega)]
    show (lget (createSegment
        (mutState (splitCSa sp b st a).1 a (splitXB sp b st a))
        (splitD2 sp b st a)).1.arena (st.arena.length + 1)).data = _
    rw [createSegment_data_at_last'
      (mutState (splitCSa sp b st a).1 a (splitXB sp b st a))
      (splitD2 sp b st a) (st.arena.length + 1) halm.symm]
    unfold splitD2
    rw [hcsa_a]
    unfold splitD1
    simp only [SegmentData.mk.injEq]
    refine ⟨trivial, trivial, ?_⟩
    rw [dropNodes_filter sp (b.span.off + b.span.len) _ hsort1]
    rw [dropNodes_filter sp b.span.off (lget st.arena a).data.nodes hsort]
    rw [List.filter_filter]
    refine List.filter_congr (fun n hn => ?_)
    by_cases h1 : b.span.off + b.span.len ≤ (sp n).off <;>
      by_cases h2 : b.span.off ≤ (sp n).off <;>
        simp [h1, h2] <;> omega
  · show (EState.fix
        (mutState (splitCSb sp b st a).1 a (splitD3 sp b st a))
        (lget (splitCSb sp b st a).1.arena a).queue_pos).1.queue.length
      = st.queue.length + 2
    rw [hql4, hqlb]
  · show (EState.fix
        (mutState (splitCSb sp b st a).1 a (splitD3 sp b st a))
        (lget (splitCSb sp b st a).1.arena a).queue_pos).1.arena.length
      = st.arena.length + 2
    rw [hal4, halb]

theorem set_split_proj (sp : N → Span) (kt : KeyTable K V O N)
    (b : Binding K V O) (st : EState K V O N) (a cur_idx : Nat)
    (hsrc : b.span.src < kt.segments.length)
    (hidx : cur_idx < (lget kt.segments b.span.src).length)
    (hpp : partitionPoint (fun x => (lget st.arena x).«end» ≤ b.span.off)
      (lget kt.segments b.span.src) = cur_idx)
    (hseg : lget (lget kt.segments b.span.src) cur_idx = a)
    (hsta : (lget st.arena a).sta < b.span.off)
    (hend : b.span.off + b.span.len < (lget st.arena a).«end»)
    (hlen : 0 < b.span.len)
    (hcont : (lget st.arena a).data.binding.span.contains b.span = true)
    (hunb : lget kt.unbound b.span.src = []) :
    (KeyTable.set sp kt b st 2).1.segments
        = kt.segments.set b.span.src
            (splitResult sp b (lget kt.segments b.span.src) cur_idx st a).1 ∧
    (KeyTable.set sp kt b st 2).2
        = (splitResult sp b (lget kt.segments b.span.src) cur_idx st a).2 := by
  unfold KeyTable.set
  dsimp only
  rw [if_neg (show ¬ b.span.src ≥ kt.segments.length by omega)]
  rw [hpp]
  rw [if_neg (show ¬ cur_idx ≥ (lget kt.segments b.span.src).length
    by omega)]
  rw [setLoop_split_eq sp b _ cur_idx st a hidx hseg hsta hend hlen hcont]
  split
  · rw [hunb]
    simp only [List.drop_nil, List.take_nil]
    refine ⟨?_, ?_⟩ <;> first | rfl | trivial
  · exact ⟨rfl, rfl⟩

end C2Main

/-! ### Claim C2 -/

section C2Claim

variable {K : Type} {V : Type} {O : Type} {N : Type}
variable [Inhabited K] [Inhabited V] [Inhabited O] [Inhabited N]
variable [LinearOrder K] [LinearOrder O]

/-- C2: when `KeyTable::set` installs a more-specific binding `b` whose
range `[sta, end)` lies strictly inside an existing segment
`[cur_sta, cur_end)` of the same key (the scenario hypotheses pin down the
segment hit by the partition point, require both splits to be non-trivial,
a well-formed queue, and an empty unbound drain window): the segment list
for the source becomes prefix/middle/suffix in place; the split-off prefix
keeps the old binding over `[cur_sta, sta)` with exactly the nodes with
offset `< sta`; the suffix keeps the old binding over `[end, cur_end)` with
exactly the nodes with offset `≥ end`; the middle is shrunk to `[sta, end)`
and rebound to `b` with the remaining nodes; and the priority queue is
still a valid heap with consistent `queue_pos` back-pointers (every segment
whose order key changed had its heap position fixed). -/
theorem c2_split_rebinds_and_fixes (sp : N → Span) (kt : KeyTable K V O N)
    (b : Binding K V O) (st : EState K V O N) (a cur_idx : Nat)
    (hsrc : b.span.src < kt.segments.length)
    (hidx : cur_idx < (lget kt.segments b.span.src).length)
    (hpp : partitionPoint (fun x => (lget st.arena x).«end» ≤ b.span.off)
      (lget kt.segments b.span.src) = cur_idx)
    (hseg : lget (lget kt.segments b.span.src) cur_idx = a)
    (ha : a < st.arena.length)
    (hsta : (lget st.arena a).sta < b.span.off)
    (hend : b.span.off + b.span.len < (lget st.arena a).«end»)
    (hlen : 0 < b.span.len)
    (hcont : (lget st.arena a).data.binding.span.contains b.span = true)
    (hunb : lget kt.unbound b.span.src = [])
    (hv : QValid st) (hq : QPos st)
    (hheap : Heap.heapProp (eLess st.arena) st.queue)
    (hsmall : st.queue.length + 2 ≤ NOT_QUEUED)
    (hmem : a ∈ st.queue)
    (hsort : (lget st.arena a).data.nodes.Pairwise
      (fun x y => (sp x).off ≤ (sp y).off)) :
    (KeyTable.set sp kt b st 2).1.segments
        = kt.segments.set b.span.src
          (((lget kt.segments b.span.src).insertIdx cur_idx
              st.arena.length).insertIdx (cur_idx + 2)
            (st.arena.length + 1)) ∧
    (lget (KeyTable.set sp kt b st 2).2.arena st.arena.length).data
        = { binding := (lget st.arena a).data.binding
            range := { off := (lget st.arena a).sta
                       len := b.span.off - (lget st.arena a).sta }
            nodes := (lget st.arena a).data.nodes.filter
              (fun n => (sp n).off < b.span.off) } ∧
    (lget (KeyTable.set sp kt b st 2).2.arena a).data
        = { binding := b
            range := { off := b.span.off, len := b.span.len }
            nodes := (lget st.arena a).data.nodes.filter
              (fun n => b.span.off ≤ (sp n).off ∧
                (sp n).off < b.span.off + b.span.len) } ∧
    (lget (KeyTable.set sp kt b st 2).2.arena (st.arena.length + 1)).data
        = { binding := (lget st.arena a).data.binding
            range := { off := b.span.off + b.span.len
                       len := (lget st.arena a).«end»
                         - (b.span.off + b.span.len) }
            nodes := (lget st.arena a).data.nodes.filter
              (fun n => b.span.off + b.span.len ≤ (sp n).off) } ∧
    QValid (KeyTable.set sp kt b st 2).2 ∧
    QPos (KeyTable.set sp kt b st 2).2 ∧
    Heap.heapProp (eLess (KeyTable.set sp kt b st 2).2.arena)
      (KeyTable.set sp kt b st 2).2.queue := by
  obtain ⟨hps, hpe⟩ := set_split_proj sp kt b st a cur_idx hsrc hidx hpp
    hseg hsta hend hlen hcont hunb
  obtain ⟨h1, h2, h3, h4, h5, h6, h7, -, -⟩ := splitResult_spec sp b
    (lget kt.segments b.span.src) cur_idx st a ha hsta hend hv hq hheap
    hsmall hmem hsort
  rw [hps, hpe]
  exact ⟨by rw [h1], h2, h3, h4, h5, h6, h7⟩

/-- Node-span accessor for the C2 witness: node `i` covers `[i, i + 1)` in
source 0. -/
def c2sp : Nat → Span := fun i => { src := 0, off := i, len := 1 }

/-- The pre-existing binding over `[0, 10)` for the C2 witness. -/
def c2b0 : Binding Nat Nat Nat :=
  { key := 0, val := 1, ord := 5, span := { src := 0, off := 0, len := 10 } }

/-- The new, strictly narrower binding over `[3, 7)` for the C2 witness. -/
def c2b : Binding Nat Nat Nat :=
  { key := 0, val := 2, ord := 3, span := { src := 0, off := 3, len := 4 } }

/-- A one-segment engine state: the segment covers `[0, 10)` with the old
binding and holds nodes at offsets 1, 5 and 9. -/
def c2st : EState Nat Nat Nat Nat :=
  { queue := [0]
    arena := [{ queue_pos := 0
                data := { binding := c2b0
                          range := { off := 0, len := 10 }
                          nodes := [1, 5, 9] } }] }

/-- The key table pointing source 0 at the single segment. -/
def c2kt : KeyTable Nat Nat Nat Nat :=
  { unbound := [], segments := [[0]] }

/-- C2 (witness): the split theorem at the concrete one-segment table:
binding `[3, 7)` into the `[0, 10)` segment yields prefix `[0, 3)` with
node 1, rebound middle `[3, 7)` with node 5, suffix `[7, 10)` with node 9,
the per-source list `[1, 0, 2]`, and a well-formed heap. -/
theorem c2_witness :
    (lget c2st.arena 0).data.binding.span.contains c2b.span = true ∧
    (KeyTable.set c2sp c2kt c2b c2st 2).1.segments = [[1, 0, 2]] ∧
    (lget (KeyTable.set c2sp c2kt c2b c2st 2).2.arena 1).data
        = { binding := c2b0
            range := { off := 0, len := 3 }
            nodes := [1] } ∧
    (lget (KeyTable.set c2sp c2kt c2b c2st 2).2.arena 0).data
        = { binding := c2b
            range := { off := 3, len := 4 }
            nodes := [5] } ∧
    (lget (KeyTable.set c2sp c2kt c2b c2st 2).2.arena 2).data
        = { binding := c2b0
            range := { off := 7, len := 3 }
            nodes := [9] } ∧
    QValid (KeyTable.set c2sp c2kt c2b c2st 2).2 ∧
    QPos (KeyTable.set c2sp c2kt c2b c2st 2).2 ∧
    Heap.heapProp (eLess (KeyTable.set c2sp c2kt c2b c2st 2).2.arena)
      (KeyTable.set c2sp c2kt c2b c2st 2).2.queue := by
  have h := c2_split_rebinds_and_fixes c2sp c2kt c2b c2st 0 0
    (by decide) (by decide) (by decide) (by decide) (by decide) (by decide)
    (by decide) (by decide) (by decide) rfl
    (by intro j hj; have h1 : j < 1 := hj; obtain rfl : j = 0 := by omega
        decide)
    (by intro j hj; have h1 : j < 1 := hj; obtain rfl : j = 0 := by omega
        decide)
    (by intro j hj hjlen; have h1 : j < 1 := hjlen; omega)
    (by decide) (by decide) (by decide)
  obtain ⟨h1, h2, h3, h4, h5, h6, h7⟩ := h
  exact ⟨by decide, h1.trans (by decide), h2.trans (by decide),
    h3.trans (by decide), h4.trans (by decide), h5, h6, h7⟩

end C2Claim


end Libs

/-! ## The expression language of `libs/nodes`: values, code, runtime,
operators and compilation (`values.rs`, `code.rs`, `expr.rs`, `op.rs`,
`program.rs`) -/

namespace Lang

/-- `Value` from `libs/nodes/values.rs`. -/
inductive Value where
  | unit : Value
  | int : Int → Value
  | str : String → Value
  | bool : Bool → Value
  | tuple : List Value → Value

instance : Inhabited Value := ⟨.unit⟩

mutual

/-- `Display for Value` (`values.rs` lines 45-64): `Unit` prints nothing,
`Int`, `Str` and `Bool` print their value, `Tuple` prints its elements
comma-separated in parentheses. -/
def Value.display : Value → String
  | .unit => ""
  | .int v => toString v
  | .str v => v
  | .bool v => if v then "true" else "false"
  | .tuple args => "(" ++ Value.displayList args ++ ")"

/-- The `Tuple` display loop: items joined by a comma and a space. -/
def Value.displayList : List Value → String
  | [] => ""
  | [v] => Value.display v
  | v :: vs => Value.display v ++ ", " ++ Value.displayList vs

end

/-- The escaping Rust's `str` `Debug` formatting applies, restricted to
the escape characters themselves (the `\u` escapes of other non-printable
characters are not modelled). -/
def escapeDebug (s : String) : String :=
  s.data.foldl (fun acc c =>
    acc ++ (if c = '"' then "\\\"" else if c = '\\' then "\\\\"
      else if c = '\n' then "\\n" else if c = '\r' then "\\r"
      else if c = '\t' then "\\t" else String.singleton c)) ""

mutual

/-- `Debug for Value` (`values.rs` lines 24-43): `Unit` prints `"()"`,
`Str` prints quoted, `Tuple` prints its elements' debug forms
comma-separated in parentheses. -/
def Value.debug : Value → String
  | .unit => "()"
  | .int v => toString v
  | .str v => "\"" ++ escapeDebug v ++ "\""
  | .bool v => if v then "true" else "false"
  | .tuple args => "(" ++ Value.debugList args ++ ")"

/-- The `Tuple` debug loop: items joined by a comma and a space. -/
def Value.debugList : List Value → String
  | [] => ""
  | [v] => Value.debug v
  | v :: vs => Value.debug v ++ ", " ++ Value.debugList vs

end

/-- The `Debug` form of `Value::get_type()`: `Type::builtin` carries an
empty name, so `Debug for Type` prints just the `Kind`'s name; `none` for
`Tuple`, where `get_type` is `todo!()` (a panic). -/
def Value.typeDebug : Value → Option String
  | .unit => some "Unit"
  | .int _ => some "Int"
  | .str _ => some "Str"
  | .bool _ => some "Bool"
  | .tuple _ => none

/-- `Code` from `libs/nodes/code.rs`.  The `Less` and `While` variants are
constructed by `Node::compile` in `expr.rs` and described by the spec's
runtime table, but their declaration is missing from the snapshot's
`code.rs` enum; they are modelled from the spec. -/
inductive Code where
  | int : Int → Code
  | str : String → Code
  | bool : Bool → Code
  | add : Code → Code → Code
  | mul : Code → Code → Code
  | const : Value → Code
  | seq : List Code → Code
  | get : String → Code
  | set : String → Code → Code
  | print : List Code → Code
  | less : Code → Code → Code
  | «while» : Code → Code → Code

/-- `Runtime` from `code.rs`: the output buffer and the variable map (the
`HashMap` is modelled as an association list: `insert` conses and lookup
finds the most recent entry). -/
structure Runtime where
  output : String
  vars : List (String × Value)

/-- `Runtime::new` (the store reference holds no runtime state). -/
def Runtime.new : Runtime := { output := "", vars := [] }

/-- The error marking fuel exhaustion of the interpreter (no counterpart
in the source, which recurses without bound). -/
def fuelErr : String := "fuel exhausted"

/-- The `Print` output loop (`code.rs` lines 72-82): append the `Display`
form of each value whose display output is non-empty, separated by single
spaces (`has_output` tracks whether anything was printed yet). -/
def printLoop : List Value → String → Bool → String
  | [], acc, _ => acc
  | v :: vs, acc, has_output =>
    let out := Value.display v
    if out.length > 0 then
      printLoop vs ((if has_output then acc ++ " " else acc) ++ out) true
    else
      printLoop vs acc has_output

mutual

/-- `Runtime::execute` (`code.rs` lines 32-101), with explicit fuel (every
recursive call decrements it).  `i32` arithmetic is modelled on `ℤ`
(overflow is not modelled), the `Tuple` panic of `Value::get_type` inside
`Add`/`Mul` is modelled as an error whose message starts with `"panic:"`,
and the `Less`/`While` arms follow the spec's runtime table (their code is
missing from the snapshot). -/
def Runtime.execute : Nat → Runtime → Code → Except String (Value × Runtime)
  | 0, _, _ => .error fuelErr
  | fuel + 1, rt, code =>
    match code with
    | .int v => .ok (.int v, rt)
    | .str v => .ok (.str v, rt)
    | .bool v => .ok (.bool v, rt)
    | .const v => .ok (v, rt)
    | .seq args => execSeq fuel rt .unit args
    | .add a b => do
      let (va, rt1) ← Runtime.execute fuel rt a
      let (vb, rt2) ← Runtime.execute fuel rt1 b
      match va.typeDebug, vb.typeDebug with
      | some ta, some tb =>
        match va, vb with
        | .int x, .int y => .ok (.int (x + y), rt2)
        | _, _ =>
          .error ("add is not defined for types `" ++ ta ++ "` and `" ++ tb
            ++ "`")
      | _, _ => .error ("panic: Value get_type is not implemented for Tuple")
    | .mul a b => do
      let (va, rt1) ← Runtime.execute fuel rt a
      let (vb, rt2) ← Runtime.execute fuel rt1 b
      match va.typeDebug, vb.typeDebug with
      | some ta, some tb =>
        match va, vb with
        | .int x, .int y => .ok (.int (x * y), rt2)
        | _, _ =>
          .error ("mul is not defined for types `" ++ ta ++ "` and `" ++ tb
            ++ "`")
      | _, _ => .error ("panic: Value get_type is not implemented for Tuple")
    | .less a b => do
      let (va, rt1) ← Runtime.execute fuel rt a
      let (vb, rt2) ← Runtime.execute fuel rt1 b
      match va, vb with
      | .int x, .int y => .ok (.bool (decide (x < y)), rt2)
      | _, _ => .error ("less requires integer operands")
    | .print args => do
      let (vals, rt1) ← execArgs fuel rt args
      if vals.length = 0 then
        .ok (.unit, rt1)
      else
        .ok (.tuple vals,
          { rt1 with output := printLoop vals rt1.output false ++ "\n" })
    | .get name =>
      match rt.vars.lookup name with
      | some value => .ok (value, rt)
      | none => .error ("variable `" ++ name ++ "` is not declared")
    | .set name expr => do
      let (v, rt1) ← Runtime.execute fuel rt expr
      .ok (v, { rt1 with vars := (name, v) :: rt1.vars })
    | .«while» cond body => do
      let (c, rt1) ← Runtime.execute fuel rt cond
      match c with
      | .bool true => do
        let (_, rt2) ← Runtime.execute fuel rt1 body
        Runtime.execute fuel rt2 (.«while» cond body)
      | .bool false => .ok (.unit, rt1)
      | _ => .error ("while condition must be a boolean")
termination_by structural fuel _ _ => fuel

/-- The `Seq` loop of `Runtime::execute`: run the instructions in order,
returning the last value (`Unit` if none). -/
def execSeq : Nat → Runtime → Value → List Code → Except String (Value × Runtime)
  | _, rt, v, [] => .ok (v, rt)
  | 0, _, _, _ :: _ => .error fuelErr
  | fuel + 1, rt, _, c :: cs => do
    let (v1, rt1) ← Runtime.execute fuel rt c
    execSeq fuel rt1 v1 cs
termination_by structural fuel _ _ _ => fuel

/-- The `Print` argument collection of `Runtime::execute`: evaluate the
arguments left to right, stopping at the first error. -/
def execArgs : Nat → Runtime → List Code → Except String (List Value × Runtime)
  | _, rt, [] => .ok ([], rt)
  | 0, _, _ :: _ => .error fuelErr
  | fuel + 1, rt, c :: cs => do
    let (v, rt1) ← Runtime.execute fuel rt c
    let (vs, rt2) ← execArgs fuel rt1 cs
    .ok (v :: vs, rt2)
termination_by structural fuel _ _ => fuel

end

/-- A `LetDecl` from `op.rs` (the `init` `Cell` is a plain field: the
store's interior mutability is modelled by updating the decl list in
place). -/
structure LetDecl where
  name : String
  node : Nat
  init : Bool

instance : Inhabited LetDecl := ⟨{ name := "", node := 0, init := false }⟩

/-- `Key` from `expr.rs` lines 4-11. -/
inductive Key where
  | none
  | lbreak
  | id : String → Key
  | op : String → Key
  | «let»
  | forEach

/-- `Expr` from `expr.rs` lines 14-40.  `Node` and `NodeList` references
are modelled as indices into the program's node arena (lists of indices
for `NodeList`), and `&LetDecl` references as indices into the program's
decl store. -/
inductive Expr where
  | lbreak
  | id : String → Expr
  | op : String → Expr
  | num : Int → Expr
  | str : String → Expr
  | range : List Nat → List Nat → Expr
  | forEach : Nat → List Nat → List Nat → Expr
  | «while» : Nat → Nat → Expr
  | seq : List Nat → Expr
  | const : Value → Expr
  | «let» : String → Nat → Expr
  | set : String → Nat → Expr
  | refInit : Nat → Expr
  | ref : Nat → Expr
  | opAdd : Nat → Nat → Expr
  | opMul : Nat → Nat → Expr
  | opLess : Nat → Nat → Expr
  | print : List Nat → Expr

/-- A node of the arena; only the fields the embedded operations read are
kept — the expression, the span, and the `done` flag that `check_unbound`
consults (`Node::is_done` is absent from the snapshot and modelled after
the spec's notion of nodes marked done by `set_done`). -/
structure PNode where
  expr : Expr
  span : Libs.Span
  done : Bool

instance : Inhabited PNode :=
  ⟨{ expr := .lbreak, span := default, done := false }⟩

/-- The operator values recorded by `Program::bind`; the embedded `Decl`
operator only ever binds `BindVar(decl)`. -/
inductive OpVal where
  | bindVar : Nat → OpVal

/-- The `Program` fragment the embedded operations touch: the node arena,
the decl store, the output node list, the record of `bind` calls (the
engine receiving them is verified separately through `KeyTable::set`), and
the engine's residual unbound set as `get_unbound` reports it
(spec-modelled: `Table::get_unbound` is `todo!()` in the snapshot). -/
structure Program where
  nodes : List PNode
  decls : List LetDecl
  output_code : List Nat
  binds : List (Key × Libs.Span × OpVal × Nat)
  unbound : Option (List (Key × List Nat))

/-- `Program::set_node`: rewrite a node's expression in place. -/
def Program.set_node (p : Program) (n : Nat) (e : Expr) : Program :=
  { p with nodes := p.nodes.set n { lget p.nodes n with expr := e } }

/-- `Program::bind` (`program.rs` lines 38-41): store the operator and
pass the binding on to `engine.set`; modelled as recording the call. -/
def Program.bind (p : Program) (key : Key) (span : Libs.Span) (op : OpVal)
    (prec : Nat) : Program :=
  { p with binds := p.binds ++ [(key, span, op, prec)] }

/-- `Decl::execute` (`op.rs` lines 8-29): for each `Let(name, expr)` node,
take the expression's span and extend its length to reach `usize::MAX`
(keeping its start offset), allocate a `LetDecl` with `init := false`,
rewrite the node to `RefInit(decl)`, and bind `Id(name)` over that span at
the operator's precedence (the error's `Debug` payload is omitted). -/
def Decl.execute (prec : Nat) (p : Program) : List Nat → Except String Program
  | [] => .ok p
  | n :: rest =>
    match (lget p.nodes n).expr with
    | .«let» name expr =>
      let span0 := (lget p.nodes expr).span
      let span : Libs.Span := { span0 with len := USIZE_MAX - span0.off }
      let declIdx := p.decls.length
      let p1 : Program :=
        { p with
          decls := p.decls ++ [{ name := name, node := expr, init := false }] }
      let p2 := p1.set_node n (.refInit declIdx)
      let p3 := p2.bind (.id name) span (.bindVar declIdx) prec
      Decl.execute prec p3 rest
    | _ => .error ("unsupported let expression")

mutual

/-- `Node::compile` (`expr.rs` lines 55-116): lower a node to `Code`,
threading the decl store (whose `init` cells `RefInit` mutates); fuel
bounds the recursion since nodes reference arbitrary arena indices.  The
fallback error's `Debug` payload is omitted. -/
def Node.compile : Nat → Program → List LetDecl → Nat →
    Except String (Code × List LetDecl)
  | 0, _, _, _ => .error fuelErr
  | fuel + 1, p, ds, n =>
    match (lget p.nodes n).expr with
    | .num v => .ok (.int v, ds)
    | .str v => .ok (.str v, ds)
    | .seq list => do
      let (output, ds1) ← Node.compileList fuel p ds list
      .ok (.seq output, ds1)
    | .const v => .ok (.const v, ds)
    | .opAdd a b => do
      let (ca, ds1) ← Node.compile fuel p ds a
      let (cb, ds2) ← Node.compile fuel p ds1 b
      .ok (.add ca cb, ds2)
    | .opMul a b => do
      let (ca, ds1) ← Node.compile fuel p ds a
      let (cb, ds2) ← Node.compile fuel p ds1 b
      .ok (.mul ca cb, ds2)
    | .opLess a b => do
      let (ca, ds1) ← Node.compile fuel p ds a
      let (cb, ds2) ← Node.compile fuel p ds1 b
      .ok (.less ca cb, ds2)
    | .print args => do
      let (cargs, ds1) ← Node.compileList fuel p ds args
      .ok (.print cargs, ds1)
    | .refInit d => do
      let (ce, ds1) ← Node.compile fuel p ds (lget ds d).node
      let code := Code.set (lget ds d).name ce
      let ds2 := ds1.set d { lget ds1 d with init := true }
      .ok (code, ds2)
    | .ref d =>
      if !(lget ds d).init then
        .error ("variable `" ++ (lget ds d).name ++ "` was not initialized")
      else
        .ok (.get (lget ds d).name, ds)
    | .set name e => do
      let (ce, ds1) ← Node.compile fuel p ds e
      .ok (.set name ce, ds1)
    | .«while» cond body => do
      let (cc, ds1) ← Node.compile fuel p ds cond
      let (cb, ds2) ← Node.compile fuel p ds1 body
      .ok (.«while» cc cb, ds2)
    | _ => .error ("expression cannot be compiled")
termination_by structural fuel _ _ _ => fuel

/-- `Node::compile_list` / `compile_nodes`: compile nodes left to right. -/
def Node.compileList : Nat → Program → List LetDecl → List Nat →
    Except String (List Code × List LetDecl)
  | _, _, ds, [] => .ok ([], ds)
  | 0, _, _, _ :: _ => .error fuelErr
  | fuel + 1, p, ds, n :: rest => do
    let (c, ds1) ← Node.compile fuel p ds n
    let (cs, ds2) ← Node.compileList fuel p ds1 rest
    .ok (c :: cs, ds2)
termination_by structural fuel _ _ _ => fuel

end

/-- `Program::check_unbound` (`program.rs` lines 96-126): fail exactly
when some unbound entry still holds a node that is not done (the stderr
report is dropped). -/
def Program.check_unbound (p : Program) : Except String Unit :=
  match p.unbound with
  | none => .ok ()
  | some unbound =>
    if unbound.any (fun kn =>
        !(kn.2.filter (fun n => !(lget p.nodes n).done)).isEmpty) then
      .error ("compiling program: some nodes were not resolved")
    else
      .ok ()

/-- `Program::compile` (`program.rs` lines 64-72): check for unbound
nodes, then compile each output node in order (the decl store threads
through the loop). -/
def Program.compile (fuel : Nat) (p : Program) : Except String (List Code) := do
  p.check_unbound
  let (code, _) ← Node.compileList fuel p p.decls p.output_code
  .ok code

/-! ### Lemmas shared by the claims over the language embedding -/

/-- Each further printed item, preceded by the single joining space. -/
def tailJoin : List String → String
  | [] => ""
  | s :: rest => " " ++ s ++ tailJoin rest

/-- The spec's "joined by single spaces" on a list of strings. -/
def joinSpace : List String → String
  | [] => ""
  | s :: rest => s ++ tailJoin rest

theorem printLoop_spec (vals : List Value) : ∀ acc : String,
    printLoop vals acc false
        = acc ++ joinSpace ((vals.map Value.display).filter
            (fun s => decide (s.length > 0))) ∧
    printLoop vals acc true
        = acc ++ tailJoin ((vals.map Value.display).filter
            (fun s => decide (s.length > 0))) := by
  induction vals with
  | nil =>
    intro acc
    constructor <;>
      simp [printLoop, joinSpace, tailJoin, String.append_empty]
  | cons v vs ih =>
    intro acc
    by_cases h : (Value.display v).length > 0
    · have hfilter : ((v :: vs).map Value.display).filter
          (fun s => decide (s.length > 0))
          = Value.display v :: (vs.map Value.display).filter
              (fun s => decide (s.length > 0)) := by
        simp [h]
      have e1 : printLoop (v :: vs) acc false
          = printLoop vs (acc ++ Value.display v) true := by
        simp only [printLoop]
        rw [if_pos h]
        rfl
      have e2 : printLoop (v :: vs) acc true
          = printLoop vs (acc ++ " " ++ Value.display v) true := by
        simp only [printLoop]
        rw [if_pos h]
        rfl
      constructor
      · rw [e1, (ih (acc ++ Value.display v)).2, hfilter, joinSpace,
          String.append_assoc]
      · rw [e2, (ih (acc ++ " " ++ Value.display v)).2, hfilter, tailJoin]
        simp only [String.append_assoc]
    · have hfilter : ((v :: vs).map Value.display).filter
          (fun s => decide (s.length > 0))
          = (vs.map Value.display).filter (fun s => decide (s.length > 0)) := by
        simp [h]
      have e1 : printLoop (v :: vs) acc false = printLoop vs acc false := by
        simp only [printLoop]
        rw [if_neg h]
      have e2 : printLoop (v :: vs) acc true = printLoop vs acc true := by
        simp only [printLoop]
        rw [if_neg h]
      rw [e1, e2, hfilter]
      exact ih acc

theorem execute_print (fuel : Nat) (rt : Runtime) (args : List Code)
    (vals : List Value) (rt1 : Runtime)
    (h : execArgs fuel rt args = .ok (vals, rt1)) :
    Runtime.execute (fuel + 1) rt (.print args)
      = if vals.length = 0 then .ok (.unit, rt1)
        else .ok (.tuple vals,
          { rt1 with output := printLoop vals rt1.output false ++ "\n" }) := by
  have hb : Runtime.execute (fuel + 1) rt (.print args)
      = Except.bind (execArgs fuel rt args) (fun x =>
          match x with
          | (vs, r) =>
            if vs.length = 0 then .ok (.unit, r)
            else .ok (.tuple vs,
              { r with output := printLoop vs r.output false ++ "\n" })) := rfl
  rw [hb, h]
  rfl

/-! ### Claim C7 -/

/-- C7 (counterexample): running `Print(Const(Str ""), Const(Int 1))`
appends `"1\n"`, not `" 1\n"`: the empty-`Display` first argument — a
non-`Unit` value — is skipped entirely rather than joined with a space, so
the claimed `"{a} {b}\n"` output is wrong for `a = Str ""`; both values
still appear in the returned tuple. -/
theorem c7_counterexample :
    Runtime.execute 9 Runtime.new
        (.print [.const (.str ""), .const (.int 1)])
      = .ok (.tuple [.str "", .int 1], { output := "1\n", vars := [] }) ∧
    "1\n" ≠ " 1\n" := by
  constructor
  · rfl
  · decide

/-- C7 (amended): `Print` evaluates its arguments left to right; when the
collection succeeds it returns `Unit` if there are no values, and
otherwise appends — joined by single spaces and followed by one newline —
the `Display` forms of exactly those values whose display output is
non-empty (not of every non-`Unit` value: an empty `Str` is also skipped)
and returns the tuple of all evaluated values. -/
theorem c7_amended (fuel : Nat) (rt : Runtime) (args : List Code)
    (vals : List Value) (rt1 : Runtime)
    (h : execArgs fuel rt args = .ok (vals, rt1)) :
    Runtime.execute (fuel + 1) rt (.print args)
      = if vals.length = 0 then .ok (.unit, rt1)
        else .ok (.tuple vals,
          { rt1 with output := rt1.output
              ++ joinSpace ((vals.map Value.display).filter
                  (fun s => decide (s.length > 0)))
              ++ "\n" }) := by
  rw [execute_print fuel rt args vals rt1 h]
  by_cases hl : vals.length = 0
  · rw [if_pos hl, if_pos hl]
  · rw [if_neg hl, if_neg hl, (printLoop_spec vals rt1.output).1]

/-- C7 (witness): `Print(Const(Int 1), Const(Str "hi"))` on a fresh
runtime appends `"1 hi\n"` and returns the tuple of both values. -/
theorem c7_witness :
    execArgs 8 Runtime.new [.const (.int 1), .const (.str "hi")]
      = .ok ([.int 1, .str "hi"], Runtime.new) ∧
    Runtime.execute 9 Runtime.new
        (.print [.const (.int 1), .const (.str "hi")])
      = .ok (.tuple [.int 1, .str "hi"], { output := "1 hi\n", vars := [] }) := by
  refine ⟨rfl, ?_⟩
  rw [c7_amended 8 Runtime.new [.const (.int 1), .const (.str "hi")]
    [.int 1, .str "hi"] Runtime.new rfl]
  rfl

/-! ### Claim C10 -/

/-- C10: `Display` of `Unit` is the empty string while `Debug` of `Unit`
is `"()"`; the `Print` output loop skips every argument whose `Display`
output is empty — among them the non-`Unit` value `Str ""` — when joining
with spaces, while all evaluated values, the skipped ones included, appear
in the returned `Tuple`. -/
theorem c10_empty_display_skipped :
    Value.display .unit = "" ∧
    Value.debug .unit = "()" ∧
    Value.display (.str "") = "" ∧
    Value.str "" ≠ Value.unit ∧
    (∀ v : Value, Value.display v = "" →
      ∀ (vals1 vals2 : List Value) (acc : String) (b : Bool),
        printLoop (vals1 ++ v :: vals2) acc b
          = printLoop (vals1 ++ vals2) acc b) ∧
    (∀ (fuel : Nat) (rt : Runtime) (args : List Code) (vals : List Value)
        (rt1 : Runtime) (v : Value),
      execArgs fuel rt args = .ok (vals, rt1) → v ∈ vals →
      ∃ rt2, Runtime.execute (fuel + 1) rt (.print args)
          = .ok (.tuple vals, rt2)) := by
  refine ⟨rfl, rfl, rfl, fun hc => Value.noConfusion hc, ?_, ?_⟩
  · intro v hv vals1
    induction vals1 with
    | nil =>
      intro vals2 acc b
      show printLoop (v :: vals2) acc b = printLoop vals2 acc b
      simp only [printLoop]
      rw [hv]
      rw [if_neg (by simp)]
    | cons w vals1 ih =>
      intro vals2 acc b
      by_cases h : (Value.display w).length > 0
      · show printLoop (w :: (vals1 ++ v :: vals2)) acc b = _
        simp only [printLoop]
        rw [if_pos h, if_pos h]
        exact ih vals2 _ true
      · show printLoop (w :: (vals1 ++ v :: vals2)) acc b = _
        simp only [printLoop]
        rw [if_neg h, if_neg h]
        exact ih vals2 acc b
  · intro fuel rt args vals rt1 v h hv
    have hne : vals.length ≠ 0 := by
      intro hc
      rw [List.length_eq_zero] at hc
      subst hc
      cases hv
    refine ⟨{ rt1 with output := printLoop vals rt1.output false ++ "\n" }, ?_⟩
    rw [execute_print fuel rt args vals rt1 h, if_neg hne]

/-- C10 (witness): the skip statement at `Str ""` in front of `Int 2`, and
the tuple statement on the concrete run of
`Print(Const(Str ""), Const(Int 2))`. -/
theorem c10_witness :
    Value.display (.str "") = "" ∧
    printLoop [Value.str "", Value.int 2] "" false
      = printLoop [Value.int 2] "" false ∧
    (∃ rt2, Runtime.execute 9 Runtime.new
        (.print [.const (.str ""), .const (.int 2)])
      = .ok (.tuple [.str "", .int 2], rt2)) := by
  refine ⟨rfl, ?_, ?_⟩
  · exact c10_empty_display_skipped.2.2.2.2.1 (.str "") rfl [] [Value.int 2]
      "" false
  · exact c10_empty_display_skipped.2.2.2.2.2 8 Runtime.new
      [.const (.str ""), .const (.int 2)] [.str "", .int 2] Runtime.new
      (.str "") rfl (List.mem_cons_self _ _)

/-! ### Claim C5 -/

/-- A two-node program: node 0 is `Let("x", node 1)`, node 1 an integer
expression spanning `[5, 8)` in source 0. -/
def c5prog : Program :=
  { nodes :=
      [ { expr := .«let» "x" 1, span := { src := 0, off := 0, len := 9 }
          done := false },
        { expr := .num 42, span := { src := 0, off := 5, len := 3 }
          done := false } ]
    decls := []
    output_code := []
    binds := []
    unbound := none }

/-- C5 (counterexample): running `Decl` on the `Let` node binds `Id("x")`
over the span starting at offset 5 — the *start* of the expression's span
`[5, 8)` — and not at its end 8, refuting the claimed
`[expr.span.end, +infinity)` range. -/
theorem c5_counterexample :
    Decl.execute 2 c5prog [0]
      = .ok { nodes :=
                [ { expr := .refInit 0, span := { src := 0, off := 0, len := 9 }
                    done := false },
                  { expr := .num 42, span := { src := 0, off := 5, len := 3 }
                    done := false } ]
              decls := [{ name := "x", node := 1, init := false }]
              output_code := []
              binds := [(Key.id "x",
                { src := 0, off := 5, len := USIZE_MAX - 5 },
                OpVal.bindVar 0, 2)]
              unbound := none } ∧
    Libs.Span.«end» (lget c5prog.nodes 1).span = 8 ∧
    ({ src := 0, off := 5, len := USIZE_MAX - 5 } : Libs.Span).off ≠ 8 := by
  refine ⟨rfl, rfl, by decide⟩

/-- C5 (amended): for a `Let(name, expr)` node, `Decl::execute` allocates
a `LetDecl{name, node := expr, init := false}`, rewrites the node in place
to `RefInit(decl)`, and binds `Id(name)` to `BindVar(decl)` at the
operator's precedence over the downstream range that starts at the
*start* of `expr`'s span (not its end) and runs to `usize::MAX`. -/
theorem c5_amended (prec : Nat) (p : Program) (n name expr rest)
    (h : (lget p.nodes n).expr = .«let» name expr)
    (hn : n < p.nodes.length) :
    ∃ p3,
      Decl.execute prec p (n :: rest) = Decl.execute prec p3 rest ∧
      p3.decls = p.decls ++ [{ name := name, node := expr, init := false }] ∧
      (lget p3.nodes n).expr = .refInit p.decls.length ∧
      ∃ span : Libs.Span,
        p3.binds = p.binds
          ++ [(Key.id name, span, OpVal.bindVar p.decls.length, prec)] ∧
        span.src = (lget p.nodes expr).span.src ∧
        span.off = (lget p.nodes expr).span.off ∧
        ((lget p.nodes expr).span.off ≤ USIZE_MAX → span.«end» = USIZE_MAX) := by
  have hstep : Decl.execute prec p (n :: rest)
      = Decl.execute prec
          ((({ p with decls := p.decls
                ++ [{ name := name, node := expr, init := false }] }
              : Program).set_node
              n (.refInit p.decls.length)).bind (.id name)
            { (lget p.nodes expr).span with
              len := USIZE_MAX - (lget p.nodes expr).span.off }
            (.bindVar p.decls.length) prec) rest := by
    conv_lhs => rw [Decl.execute]
    rw [h]
  refine ⟨_, hstep, rfl, ?_, ?_⟩
  · show (lget (p.nodes.set n
        { lget p.nodes n with expr := .refInit p.decls.length }) n).expr
      = .refInit p.decls.length
    rw [lget_set, if_pos ⟨rfl, hn⟩]
  · refine ⟨_, rfl, rfl, rfl, fun hoff => ?_⟩
    show (lget p.nodes expr).span.off
        + (USIZE_MAX - (lget p.nodes expr).span.off) = USIZE_MAX
    omega

/-- C5 (witness): the amended statement at the concrete two-node
program. -/
theorem c5_witness :
    (lget c5prog.nodes 0).expr = Expr.«let» "x" 1 ∧
    (∃ p3,
      Decl.execute 2 c5prog [0] = Decl.execute 2 p3 [] ∧
      p3.decls = c5prog.decls ++ [{ name := "x", node := 1, init := false }] ∧
      (lget p3.nodes 0).expr = .refInit c5prog.decls.length ∧
      ∃ span : Libs.Span,
        p3.binds = c5prog.binds
          ++ [(Key.id "x", span, OpVal.bindVar c5prog.decls.length, 2)] ∧
        span.src = (lget c5prog.nodes 1).span.src ∧
        span.off = (lget c5prog.nodes 1).span.off ∧
        ((lget c5prog.nodes 1).span.off ≤ USIZE_MAX →
          span.«end» = USIZE_MAX)) :=
  ⟨rfl, c5_amended 2 c5prog 0 "x" 1 [] rfl (by decide)⟩

/-! ### Claim C6 -/

/-- A program whose engine reports no unbound nodes but whose single
output node is a reference to a never-initialized declaration. -/
def c6prog : Program :=
  { nodes := [ { expr := .ref 0, span := default, done := false },
               { expr := .num 1, span := default, done := false } ]
    decls := [{ name := "x", node := 1, init := false }]
    output_code := [0]
    binds := []
    unbound := some [] }

/-- C6 (counterexample): `compile` returns an error although the engine's
unbound set holds no node at all, refuting the claimed "error exactly when
the unbound set contains at least one unprocessed node": node compilation
has its own failure modes. -/
theorem c6_counterexample :
    c6prog.unbound = some [] ∧
    Program.compile 9 c6prog
      = .error ("variable `x` was not initialized") :=
  ⟨rfl, rfl⟩

/-- C6 (amended): whenever the engine's residual unbound set holds at
least one node that is not done, `compile` fails with the unresolved-nodes
error (so the claimed direction holds); and `check_unbound` — the
reporting step itself — succeeds exactly when no unbound entry holds an
unprocessed node.  `compile` can still fail for other reasons, so "exactly
when" is false of `compile` as a whole. -/
theorem c6_amended :
    (∀ (fuel : Nat) (p : Program) (ub : List (Key × List Nat)),
      p.unbound = some ub →
      (ub.any fun kn =>
        !(kn.2.filter fun n => !(lget p.nodes n).done).isEmpty) = true →
      Program.compile fuel p
        = .error ("compiling program: some nodes were not resolved")) ∧
    (∀ p : Program, p.check_unbound = .ok () ↔
      ∀ ub, p.unbound = some ub →
        ∀ kn ∈ ub, kn.2.filter (fun n => !(lget p.nodes n).done) = []) := by
  constructor
  · intro fuel p ub hub hany
    have hc : p.check_unbound
        = .error ("compiling program: some nodes were not resolved") := by
      unfold Program.check_unbound
      rw [hub]
      exact if_pos hany
    unfold Program.compile
    rw [hc]
    rfl
  · intro p
    cases hu : p.unbound with
    | none =>
      have hval : p.check_unbound = .ok () := by
        unfold Program.check_unbound
        rw [hu]
      rw [hval]
      constructor
      · intro _ ub hub
        cases hub
      · intro _
        rfl
    | some ub =>
      by_cases h : (ub.any fun kn =>
          !(kn.2.filter fun n => !(lget p.nodes n).done).isEmpty) = true
      · have hval : p.check_unbound
            = .error ("compiling program: some nodes were not resolved") := by
          unfold Program.check_unbound
          rw [hu]
          exact if_pos h
        rw [hval]
        constructor
        · intro hc
          cases hc
        · intro hall
          obtain ⟨kn, hkn, hne⟩ := List.any_eq_true.mp h
          have hnil := hall ub rfl kn hkn
          rw [hnil] at hne
          simp at hne
      · have hval : p.check_unbound = .ok () := by
          unfold Program.check_unbound
          rw [hu]
          exact if_neg h
        rw [hval]
        constructor
        · intro _ ub' hub' kn hkn
          cases hub'
          have h2 : (ub.any fun kn =>
              !(kn.2.filter fun n => !(lget p.nodes n).done).isEmpty) = false :=
            Bool.not_eq_true _ ▸ eq_false_of_ne_true h
          rw [List.any_eq_false] at h2
          have h3 := h2 kn hkn
          simpa using h3
        · intro _
          rfl

/-- A program with an unbound, not-done node under the `LBreak` key. -/
def c6prog2 : Program :=
  { nodes := [ { expr := .lbreak, span := default, done := false } ]
    decls := []
    output_code := []
    binds := []
    unbound := some [(Key.lbreak, [0])] }

/-- C6 (witness): the amended statement at the concrete program whose
unbound set holds one unprocessed node. -/
theorem c6_witness :
    c6prog2.unbound = some [(Key.lbreak, [0])] ∧
    Program.compile 3 c6prog2
      = .error ("compiling program: some nodes were not resolved") :=
  ⟨rfl, c6_amended.1 3 c6prog2 [(Key.lbreak, [0])] rfl (by decide)⟩

/-! ### Claim C8 -/

/-- C8: `Node::compile` on `Ref(decl)` fails with the
"was not initialized" error exactly when `decl.init` is false, and
otherwise yields `Get(decl.name)`; on `RefInit(decl)` it compiles the
declaration's node, yields `Set(decl.name, ...)` and sets `decl.init` to
true.  Hence a `Ref` compiled before its declaration's `RefInit` — while
`init` is still false, as `Decl` allocates it — fails compilation. -/
theorem c8_ref_before_init_fails :
    (∀ (fuel : Nat) (p : Program) (ds : List LetDecl) (n d : Nat),
      (lget p.nodes n).expr = .ref d → (lget ds d).init = false →
      Node.compile (fuel + 1) p ds n
        = .error ("variable `" ++ (lget ds d).name
            ++ "` was not initialized")) ∧
    (∀ (fuel : Nat) (p : Program) (ds : List LetDecl) (n d : Nat),
      (lget p.nodes n).expr = .ref d → (lget ds d).init = true →
      Node.compile (fuel + 1) p ds n = .ok (.get (lget ds d).name, ds)) ∧
    (∀ (fuel : Nat) (p : Program) (ds ds1 : List LetDecl) (n d : Nat)
        (ce : Code),
      (lget p.nodes n).expr = .refInit d →
      Node.compile fuel p ds (lget ds d).node = .ok (ce, ds1) →
      d < ds1.length →
      Node.compile (fuel + 1) p ds n
          = .ok (.set (lget ds d).name ce,
              ds1.set d { lget ds1 d with init := true }) ∧
        (lget (ds1.set d { lget ds1 d with init := true }) d).init = true) := by
  refine ⟨?_, ?_, ?_⟩
  · intro fuel p ds n d hexpr hinit
    simp only [Node.compile, hexpr, hinit, Bool.not_false, if_true]
  · intro fuel p ds n d hexpr hinit
    simp only [Node.compile, hexpr, hinit, Bool.not_true, Bool.false_eq_true,
      if_false]
  · intro fuel p ds ds1 n d ce hexpr hcomp hd
    constructor
    · simp only [Node.compile, hexpr, hcomp]
      rfl
    · rw [lget_set, if_pos ⟨rfl, hd⟩]

/-- A one-declaration program: node 0 references decl 0 (never
initialized), whose expression node is node 1. -/
def c8prog : Program :=
  { nodes := [ { expr := .ref 0, span := default, done := false },
               { expr := .num 7, span := default, done := false } ]
    decls := [{ name := "x", node := 1, init := false }]
    output_code := [0]
    binds := []
    unbound := none }

/-- C8 (witness): compiling the `Ref` node of the concrete program fails
with the use-before-init error. -/
theorem c8_witness :
    (lget c8prog.nodes 0).expr = Expr.ref 0 ∧
    (lget c8prog.decls 0).init = false ∧
    Node.compile 2 c8prog c8prog.decls 0
      = .error ("variable `" ++ (lget c8prog.decls 0).name
          ++ "` was not initialized") :=
  ⟨rfl, rfl, c8_ref_before_init_fails.1 1 c8prog c8prog.decls 0 0 rfl rfl⟩

end Lang

end BoxSpec
